import Mathlib

/-! Chess rules engine of `game.js`: a shallow embedding.

The JavaScript program keeps the game in process-wide variables (`board`, `turn`,
`castlingRights`, `enPassant`, the clocks, the capture lists, `history`, the selection
and the pending promotion).  Here they are the fields of `GameState`, and every
function that mutates them becomes a function from `GameState` to `GameState`.

Representation choices:

* a board cell is `Option Piece`; `none` is the empty string `''`, and `Piece` is the
  twelve-letter alphabet `KQRBNPkqrbnp` the program stores in cells;
* `p.toUpperCase()` / `p.toLowerCase()` are the functions `Piece.toUpperCase` /
  `Piece.toLowerCase` on that alphabet, so `pieceColor` is computed exactly as in the source;
* coordinates are `Int` (the source adds negative offsets before testing `isOnBoard`);
* a board is a list of rows; reading outside the stored rows/columns yields the empty cell
  and writing there changes no stored cell;
* the `while(isOnBoard(nr,nc))` ray loops take a fuel argument; `8` is always enough
  (see `rayAttack_fuel` and `slideMoves_fuel`);
* rendering and the `setInterval` countdown are not modelled; `timerRunning` is.
-/

namespace Chess

/-- Side colours: the strings `'w'` and `'b'`. -/
inductive Color where
  | w
  | b
  deriving DecidableEq, Repr

/-- Piece letters as stored in board cells: upper case is White, lower case is Black. -/
inductive Piece where
  | K | Q | R | B | N | P
  | k | q | r | b | n | p
  deriving DecidableEq, Repr

/-- The method `toUpperCase()` on a piece letter. -/
def Piece.toUpperCase : Piece → Piece
  | .K => .K | .Q => .Q | .R => .R | .B => .B | .N => .N | .P => .P
  | .k => .K | .q => .Q | .r => .R | .b => .B | .n => .N | .p => .P

/-- The method `toLowerCase()` on a piece letter. -/
def Piece.toLowerCase : Piece → Piece
  | .K => .k | .Q => .q | .R => .r | .B => .b | .N => .n | .P => .p
  | .k => .k | .q => .q | .r => .r | .b => .b | .n => .n | .p => .p

/-- A board cell: `none` is the empty string. -/
abbrev Cell := Option Piece

/-- The expression `p.toLowerCase()` for a cell value (the empty string stays empty). -/
def lower (p : Cell) : Cell := p.map Piece.toLowerCase

/-- A board: rows 0..7 (row 0 is Black's back rank), each a list of cells. -/
abbrev Board := List (List Cell)

/-- A square `{r, c}`. -/
structure Square where
  r : Int
  c : Int
  deriving DecidableEq, Repr

/-- The castle tag of a move: the strings `'K'` and `'Q'`. -/
inductive CastleTag where
  | K
  | Q
  deriving DecidableEq, Repr

/-- A destination `{r, c}` or `{r, c, castle}` as pushed by `getValidMoves`. -/
structure Move where
  r : Int
  c : Int
  castle : Option CastleTag
  deriving DecidableEq, Repr

/-- The object `{wK, wQ, bK, bQ}`. -/
structure CastlingRights where
  wK : Bool
  wQ : Bool
  bK : Bool
  bQ : Bool
  deriving DecidableEq, Repr

/-- The messages passed to `alert` by `checkEndConditions`. -/
inductive Alert where
  | checkmate (loser : Color)
  | stalemate
  | fiftyMove
  deriving DecidableEq, Repr

/-- The object pushed by `saveHistory`. -/
structure Snapshot where
  board : Board
  turn : Color
  castlingRights : CastlingRights
  enPassant : Option Square
  halfMoveClock : Nat
  fullMoveNumber : Nat
  whiteCaptured : List Piece
  blackCaptured : List Piece
  whiteTimeLeft : Int
  blackTimeLeft : Int
  deriving DecidableEq, Repr

/-- The process-wide variables of the program. -/
structure GameState where
  board : Board
  turn : Color
  castlingRights : CastlingRights
  enPassant : Option Square
  halfMoveClock : Nat
  fullMoveNumber : Nat
  history : List Snapshot
  whiteCaptured : List Piece
  blackCaptured : List Piece
  selectedSquare : Option Square
  validMoves : List Move
  whiteTimeLeft : Int
  blackTimeLeft : Int
  timerRunning : Bool
  pendingPromotion : Option (Square × Move)
  alerts : List Alert
  deriving DecidableEq, Repr

/-- The constant `BOARD_SIZE`. -/
def BOARD_SIZE : Int := 8

/-- The constant `INITIAL_TIME_SECONDS`. -/
def INITIAL_TIME_SECONDS : Int := 10 * 60

/-- The read `boardState[r][c]`. -/
def Board.get (boardState : Board) (r c : Int) : Cell :=
  if 0 ≤ r ∧ 0 ≤ c then (boardState.getD r.toNat []).getD c.toNat none else none

/-- The write `boardState[r][c] = v`. -/
def Board.set (boardState : Board) (r c : Int) (v : Cell) : Board :=
  if 0 ≤ r ∧ 0 ≤ c then
    List.set boardState r.toNat (List.set (boardState.getD r.toNat []) c.toNat v)
  else boardState

/-- The cell `(r, c)` is stored in the board: a write to it takes effect. -/
abbrev Board.inRange (b : Board) (r c : Int) : Prop :=
  0 ≤ r ∧ 0 ≤ c ∧ c.toNat < (b.getD r.toNat []).length

/-- The function `cloneBoard`. -/
def cloneBoard (b : Board) : Board := b.map fun row => row

/-- The function `opponent`. -/
def opponent (c : Color) : Color := if c = .w then .b else .w

/-- The function `pieceColor`. -/
def pieceColor (p : Cell) : Option Color :=
  match p with
  | none => none
  | some x => if x = x.toUpperCase then some .w else some .b

/-- The function `isOnBoard`. -/
def isOnBoard (r c : Int) : Bool :=
  decide (r ≥ 0) && decide (r < BOARD_SIZE) && decide (c ≥ 0) && decide (c < BOARD_SIZE)

/-- The array `knightOffsets` (also `knightMoves` in `getValidMoves`). -/
def knightOffsets : List (Int × Int) :=
  [(-2,-1),(-2,1),(-1,-2),(-1,2),(1,-2),(1,2),(2,-1),(2,1)]

/-- The array `straightDirs`. -/
def straightDirs : List (Int × Int) := [(1,0),(-1,0),(0,1),(0,-1)]

/-- The array `diagDirs`. -/
def diagDirs : List (Int × Int) := [(1,1),(1,-1),(-1,1),(-1,-1)]

/-- The array `kingOffsets` (also `kingMoves` in `getValidMoves`). -/
def kingOffsets : List (Int × Int) :=
  [(1,0),(-1,0),(0,1),(0,-1),(1,1),(1,-1),(-1,1),(-1,-1)]

/-- One of the single-step loops of `isSquareAttacked`: some offset leads to an on-board
square holding a piece of `attackerColor` whose lower-case letter is `kind`. -/
def stepAttack (boardState : Board) (attackerColor : Color) (kind : Piece) (r c : Int)
    (offsets : List (Int × Int)) : Bool :=
  offsets.any fun d =>
    let nr := r + d.1
    let nc := c + d.2
    isOnBoard nr nc &&
      (let p := boardState.get nr nc
       p.isSome && pieceColor p == some attackerColor && lower p == some kind)

/-- One ray of `isSquareAttacked`, started at `(nr, nc)`: walk while on board, stop at the
first occupied square, and report whether it holds `kind` or a queen of `attackerColor`. -/
def rayAttack (boardState : Board) (attackerColor : Color) (kind : Piece) (dr dc : Int) :
    Nat → Int → Int → Bool
  | 0, _, _ => false
  | fuel + 1, nr, nc =>
    if isOnBoard nr nc then
      let p := boardState.get nr nc
      if p.isSome then
        pieceColor p == some attackerColor && (lower p == some kind || lower p == some .q)
      else rayAttack boardState attackerColor kind dr dc fuel (nr + dr) (nc + dc)
    else false

/-- The function `isSquareAttacked`. -/
def isSquareAttacked (r c : Int) (attackerColor : Color) (boardState : Board) : Bool :=
  let pawnDir : Int := if attackerColor = .w then -1 else 1
  let pawnAttackOffsets : List (Int × Int) := [(pawnDir, -1), (pawnDir, 1)]
  stepAttack boardState attackerColor .p r c pawnAttackOffsets
  || stepAttack boardState attackerColor .n r c knightOffsets
  || straightDirs.any (fun d =>
      rayAttack boardState attackerColor .r d.1 d.2 8 (r + d.1) (c + d.2))
  || diagDirs.any (fun d =>
      rayAttack boardState attackerColor .b d.1 d.2 8 (r + d.1) (c + d.2))
  || stepAttack boardState attackerColor .k r c kingOffsets

/-- The function `findKing`: the first square, rows then columns, holding `color`'s king. -/
def findKing (color : Color) (boardState : Board) : Option Square :=
  (List.range 8).findSome? fun r =>
    (List.range 8).findSome? fun c =>
      let p := boardState.get r c
      if p.isSome && pieceColor p == some color && lower p == some .k then
        some ⟨(r : Int), (c : Int)⟩
      else none

/-- The function `isInCheck`. -/
def isInCheck (color : Color) (boardState : Board) : Bool :=
  match findKing color boardState with
  | none => false
  | some kingPos => isSquareAttacked kingPos.r kingPos.c (opponent color) boardState

/-- The function `makeMoveOnBoard`. -/
def makeMoveOnBoard (boardState : Board) (frm : Square) (dst : Move) (color : Color)
    (_castling : CastlingRights) (enPass : Option Square) : Board :=
  let newBoard := cloneBoard boardState
  let piece := newBoard.get frm.r frm.c
  let newBoard := newBoard.set dst.r dst.c piece
  let newBoard := newBoard.set frm.r frm.c none
  let newBoard :=
    match dst.castle with
    | some .K =>
      if color = .w then (newBoard.set 7 5 (newBoard.get 7 7)).set 7 7 none
      else (newBoard.set 0 5 (newBoard.get 0 7)).set 0 7 none
    | some .Q =>
      if color = .w then (newBoard.set 7 3 (newBoard.get 7 0)).set 7 0 none
      else (newBoard.set 0 3 (newBoard.get 0 0)).set 0 0 none
    | none => newBoard
  match enPass with
  | some ep =>
    if lower piece == some .p && dst.r == ep.r && dst.c == ep.c then
      if color = .w then newBoard.set (dst.r + 1) dst.c none
      else newBoard.set (dst.r - 1) dst.c none
    else newBoard
  | none => newBoard

/-- The pawn branch of `getValidMoves`: forward moves, captures, en passant. -/
def pawnMoves (r c : Int) (boardState : Board) (color : Color) (enPass : Option Square) :
    List Move :=
  let enemy := opponent color
  let dir : Int := if color = .w then -1 else 1
  let startRow : Int := if color = .w then 6 else 1
  let forward : List Move :=
    if isOnBoard (r + dir) c && (boardState.get (r + dir) c).isNone then
      ⟨r + dir, c, none⟩ ::
        (if r == startRow && (boardState.get (r + dir * 2) c).isNone then
          [⟨r + dir * 2, c, none⟩] else [])
    else []
  let captures : List Move :=
    ([-1, 1] : List Int).flatMap fun dc =>
      let nr := r + dir
      let nc := c + dc
      if isOnBoard nr nc &&
          ((boardState.get nr nc).isSome && pieceColor (boardState.get nr nc) == some enemy)
      then [⟨nr, nc, none⟩] else []
  let enPassantMoves : List Move :=
    match enPass with
    | some ep =>
      if r == (if color = .w then 3 else 4) && (ep.c - c).natAbs == 1 && ep.r == r + dir then
        [⟨ep.r, ep.c, none⟩] else []
    | none => []
  forward ++ captures ++ enPassantMoves

/-- The knight loop and the first king loop of `getValidMoves`: every offset leading to an
on-board square that is empty or holds an enemy piece. -/
def stepMoves (r c : Int) (boardState : Board) (enemy : Color) (offsets : List (Int × Int)) :
    List Move :=
  offsets.flatMap fun d =>
    let nr := r + d.1
    let nc := c + d.2
    if isOnBoard nr nc &&
        ((boardState.get nr nc).isNone || pieceColor (boardState.get nr nc) == some enemy)
    then [⟨nr, nc, none⟩] else []

/-- One ray of the sliding branch of `getValidMoves`, started at `(nr, nc)`. -/
def slideMoves (boardState : Board) (enemy : Color) (dr dc : Int) : Nat → Int → Int → List Move
  | 0, _, _ => []
  | fuel + 1, nr, nc =>
    if isOnBoard nr nc then
      let target := boardState.get nr nc
      if target.isNone then
        ⟨nr, nc, none⟩ :: slideMoves boardState enemy dr dc fuel (nr + dr) (nc + dc)
      else if pieceColor target == some enemy then [⟨nr, nc, none⟩] else []
    else []

/-- The sliding branch of `getValidMoves` for a piece whose lower-case letter is `pieceType`. -/
def slidingMoves (r c : Int) (boardState : Board) (enemy : Color) (pieceType : Piece) :
    List Move :=
  let directions : List (Int × Int) :=
    (if pieceType = .b ∨ pieceType = .q then diagDirs else []) ++
    (if pieceType = .r ∨ pieceType = .q then straightDirs else [])
  directions.flatMap fun d => slideMoves boardState enemy d.1 d.2 8 (r + d.1) (c + d.2)

/-- The castling part of the king branch of `getValidMoves`. -/
def castleMoves (boardState : Board) (color : Color) (castling : CastlingRights) : List Move :=
  let enemy := opponent color
  if !isInCheck color boardState then
    if color = .w then
      (if castling.wK && (boardState.get 7 5).isNone && (boardState.get 7 6).isNone then
        if !isSquareAttacked 7 5 enemy boardState && !isSquareAttacked 7 6 enemy boardState then
          [⟨7, 6, some .K⟩] else []
       else []) ++
      (if castling.wQ && (boardState.get 7 1).isNone && (boardState.get 7 2).isNone
          && (boardState.get 7 3).isNone then
        if !isSquareAttacked 7 2 enemy boardState && !isSquareAttacked 7 3 enemy boardState then
          [⟨7, 2, some .Q⟩] else []
       else [])
    else
      (if castling.bK && (boardState.get 0 5).isNone && (boardState.get 0 6).isNone then
        if !isSquareAttacked 0 5 enemy boardState && !isSquareAttacked 0 6 enemy boardState then
          [⟨0, 6, some .K⟩] else []
       else []) ++
      (if castling.bQ && (boardState.get 0 1).isNone && (boardState.get 0 2).isNone
          && (boardState.get 0 3).isNone then
        if !isSquareAttacked 0 2 enemy boardState && !isSquareAttacked 0 3 enemy boardState then
          [⟨0, 2, some .Q⟩] else []
       else [])
  else []

/-- The array `moves` of `getValidMoves` when the filter loop starts: the candidates of
the piece on `(r, c)`, in the order they are pushed. -/
def candidateMoves (r c : Int) (boardState : Board) (currentTurn : Color)
    (castling : CastlingRights) (enPass : Option Square) : List Move :=
  let color := currentTurn
  let enemy := opponent color
  match lower (boardState.get r c) with
  | some .p => pawnMoves r c boardState color enPass
  | some .n => stepMoves r c boardState enemy knightOffsets
  | some .b => slidingMoves r c boardState enemy .b
  | some .r => slidingMoves r c boardState enemy .r
  | some .q => slidingMoves r c boardState enemy .q
  | some .k => stepMoves r c boardState enemy kingOffsets ++ castleMoves boardState color castling
  | _ => []

/-- The filter loop of `getValidMoves`: `legalMoves.push(m)` for every `m` of `moves` whose
projected board does not leave `color` in check. -/
def filterLoop (r c : Int) (boardState : Board) (color : Color) (castling : CastlingRights)
    (enPass : Option Square) (moves : List Move) : List Move :=
  moves.foldl
    (fun legalMoves m =>
      let newBoard := makeMoveOnBoard boardState ⟨r, c⟩ m color castling enPass
      if !isInCheck color newBoard then legalMoves ++ [m] else legalMoves)
    []

/-- The function `getValidMoves`. -/
def getValidMoves (r c : Int) (boardState : Board) (currentTurn : Color)
    (castling : CastlingRights) (enPass : Option Square) : List Move :=
  let p := boardState.get r c
  if p.isNone || pieceColor p != some currentTurn then []
  else
    filterLoop r c boardState currentTurn castling enPass
      (candidateMoves r c boardState currentTurn castling enPass)

/-- The function `startTimer`, as far as the game state goes: `stopTimer()` and then
`timerRunning = true` (the interval callback is not modelled). -/
def startTimer (s : GameState) : GameState := { s with timerRunning := true }

/-- The function `stopTimer`. -/
def stopTimer (s : GameState) : GameState := { s with timerRunning := false }

/-- The object literal of `saveHistory`: a copy of the current game variables. -/
def snapshotOf (s : GameState) : Snapshot :=
  { board := cloneBoard s.board
    turn := s.turn
    castlingRights := s.castlingRights
    enPassant := s.enPassant
    halfMoveClock := s.halfMoveClock
    fullMoveNumber := s.fullMoveNumber
    whiteCaptured := s.whiteCaptured
    blackCaptured := s.blackCaptured
    whiteTimeLeft := s.whiteTimeLeft
    blackTimeLeft := s.blackTimeLeft }

/-- The function `saveHistory`: push a snapshot, and shift the oldest one out when more
than 100 are stored. -/
def saveHistory (s : GameState) : GameState :=
  let history := s.history ++ [snapshotOf s]
  { s with history := if history.length > 100 then history.drop 1 else history }

/-- The function `undo`: with fewer than two snapshots nothing happens; otherwise the last
snapshot is popped and the game variables are restored from the new last one. -/
def undo (s : GameState) : GameState :=
  if s.history.length < 2 then s
  else
    let history := s.history.dropLast
    match history.getLast? with
    | none => s
    | some prev =>
      startTimer
        { s with
          history := history
          board := cloneBoard prev.board
          turn := prev.turn
          castlingRights := prev.castlingRights
          enPassant := prev.enPassant
          halfMoveClock := prev.halfMoveClock
          fullMoveNumber := prev.fullMoveNumber
          whiteCaptured := prev.whiteCaptured
          blackCaptured := prev.blackCaptured
          whiteTimeLeft := prev.whiteTimeLeft
          blackTimeLeft := prev.blackTimeLeft
          selectedSquare := none
          validMoves := [] }

/-- The board literal of `initGame`. -/
def initialBoard : Board :=
  [ [some .r, some .n, some .b, some .q, some .k, some .b, some .n, some .r],
    [some .p, some .p, some .p, some .p, some .p, some .p, some .p, some .p],
    [none, none, none, none, none, none, none, none],
    [none, none, none, none, none, none, none, none],
    [none, none, none, none, none, none, none, none],
    [none, none, none, none, none, none, none, none],
    [some .P, some .P, some .P, some .P, some .P, some .P, some .P, some .P],
    [some .R, some .N, some .B, some .Q, some .K, some .B, some .N, some .R] ]

/-- The function `initGame`, run at page load (`pendingPromotion` is `null` and no alert
has been shown). -/
def initGame : GameState :=
  startTimer <| saveHistory
    { board := initialBoard
      turn := .w
      castlingRights := ⟨true, true, true, true⟩
      enPassant := none
      halfMoveClock := 0
      fullMoveNumber := 1
      history := []
      whiteCaptured := []
      blackCaptured := []
      selectedSquare := none
      validMoves := []
      whiteTimeLeft := INITIAL_TIME_SECONDS
      blackTimeLeft := INITIAL_TIME_SECONDS
      timerRunning := false
      pendingPromotion := none
      alerts := [] }

/-- The function `openPromotionDialog`. -/
def openPromotionDialog (s : GameState) (frm : Square) (dst : Move) : GameState :=
  { s with pendingPromotion := some (frm, dst) }

/-- The first loop of `checkEndConditions`: some square holding a piece of the side to
move has a non-empty `getValidMoves` result. -/
def legalMovesExist (s : GameState) : Bool :=
  (List.range 8).any fun r =>
    (List.range 8).any fun c =>
      pieceColor (s.board.get r c) == some s.turn &&
        decide ((getValidMoves r c s.board s.turn s.castlingRights s.enPassant).length > 0)

/-- The function `checkEndConditions`: the alerts it raises are appended to `alerts`, and
each of them is followed by `stopTimer()`. -/
def checkEndConditions (s : GameState) : GameState :=
  let s :=
    if !legalMovesExist s then
      stopTimer
        { s with
          alerts := s.alerts ++
            [if isInCheck s.turn s.board then Alert.checkmate s.turn else Alert.stalemate] }
    else s
  if s.halfMoveClock ≥ 100 then stopTimer { s with alerts := s.alerts ++ [Alert.fiftyMove] }
  else s

/-- The castling-rights update at the start of `makeMove`. -/
def updateCastlingRights (castlingRights : CastlingRights) (piece target : Cell)
    (color : Color) (frm : Square) (dst : Move) : CastlingRights :=
  let enemy := opponent color
  let cr := castlingRights
  let cr :=
    if lower piece == some .k then
      if color = .w then { cr with wK := false, wQ := false }
      else { cr with bK := false, bQ := false }
    else cr
  let cr :=
    if lower piece == some .r then
      if color = .w then
        if frm.r == 7 && frm.c == 0 then { cr with wQ := false }
        else if frm.r == 7 && frm.c == 7 then { cr with wK := false }
        else cr
      else
        if frm.r == 0 && frm.c == 0 then { cr with bQ := false }
        else if frm.r == 0 && frm.c == 7 then { cr with bK := false }
        else cr
    else cr
  if target.isSome && lower target == some .r then
    if enemy = .w then
      if dst.r == 7 && dst.c == 0 then { cr with wQ := false }
      else if dst.r == 7 && dst.c == 7 then { cr with wK := false }
      else cr
    else
      if dst.r == 0 && dst.c == 0 then { cr with bQ := false }
      else if dst.r == 0 && dst.c == 7 then { cr with bK := false }
      else cr
  else cr

/-- The in-place board update of `makeMove` before the promotion check: relocate the
piece, relocate the rook of a castle-tagged move, remove the en-passant victim. -/
def moveBoard (board : Board) (frm : Square) (dst : Move) (color : Color)
    (enPassant : Option Square) : Board :=
  let piece := board.get frm.r frm.c
  let board := board.set dst.r dst.c piece
  let board := board.set frm.r frm.c none
  let board :=
    match dst.castle with
    | some .K =>
      if color = .w then (board.set 7 5 (board.get 7 7)).set 7 7 none
      else (board.set 0 5 (board.get 0 7)).set 0 7 none
    | some .Q =>
      if color = .w then (board.set 7 3 (board.get 7 0)).set 7 0 none
      else (board.set 0 3 (board.get 0 0)).set 0 0 none
    | none => board
  match enPassant with
  | some ep =>
    if lower piece == some .p && dst.r == ep.r && dst.c == ep.c then
      if color = .w then board.set (dst.r + 1) dst.c none
      else board.set (dst.r - 1) dst.c none
    else board
  | none => board

/-- The test of `makeMove` that sends it into the branch `undo(); openPromotionDialog(from, to);
return;`: a pawn lands on the promotion row of the side to move and no promotion piece is given. -/
def awaitsPromotion (s : GameState) (frm : Square) (dst : Move) (promotionPiece : Option Piece) :
    Bool :=
  lower (s.board.get frm.r frm.c) == some .p
    && dst.r == (if s.turn = .w then 0 else 7)
    && promotionPiece.isNone

/-- The block "Pawn promotion check" of `makeMove` when it does not return early: with a
promotion piece, a pawn on its promotion row is replaced by that piece in the mover's case. -/
def applyPromotion (s : GameState) (piece : Cell) (dst : Move) (color : Color)
    (promotionPiece : Option Piece) : GameState :=
  match promotionPiece with
  | some pp =>
    if lower piece == some Piece.p && dst.r == (if color = Color.w then 0 else 7) then
      { s with
        board := (s.board.set dst.r dst.c
          (if color = Color.w then some pp.toUpperCase else some pp.toLowerCase)) }
    else s
  | none => s

/-- The block "Update en passant square" of `makeMove`. -/
def setEnPassant (s : GameState) (piece : Cell) (frm : Square) (dst : Move) : GameState :=
  if lower piece == some Piece.p && (dst.r - frm.r).natAbs == 2 then
    { s with enPassant := some ⟨(dst.r + frm.r) / 2, dst.c⟩ }
  else { s with enPassant := none }

/-- The block "Update halfmove clock" of `makeMove`. -/
def setHalfMoveClock (s : GameState) (piece target : Cell) : GameState :=
  if lower piece == some Piece.p || target.isSome then { s with halfMoveClock := 0 }
  else { s with halfMoveClock := s.halfMoveClock + 1 }

/-- The block "Update full move number" of `makeMove`. -/
def setFullMoveNumber (s : GameState) (color : Color) : GameState :=
  if color = Color.b then { s with fullMoveNumber := s.fullMoveNumber + 1 } else s

/-- The block "Captured pieces tracking" of `makeMove`. -/
def recordCapture (s : GameState) (target : Cell) (color : Color) : GameState :=
  match target with
  | some t =>
    if color = Color.w then { s with blackCaptured := s.blackCaptured ++ [t] }
    else { s with whiteCaptured := s.whiteCaptured ++ [t] }
  | none => s

/-- The block "Change turn" of `makeMove`, with the reset of the selection. -/
def changeTurn (s : GameState) : GameState :=
  { s with turn := opponent s.turn, selectedSquare := none, validMoves := [] }

/-- The function `makeMove`. -/
def makeMove (s : GameState) (frm : Square) (dst : Move) (promotionPiece : Option Piece) :
    GameState :=
  let piece := s.board.get frm.r frm.c
  let target := s.board.get dst.r dst.c
  let color := s.turn
  let s :=
    { s with
      castlingRights := updateCastlingRights s.castlingRights piece target color frm dst
      board := moveBoard s.board frm dst color s.enPassant }
  let promotionRow : Int := if color = Color.w then 0 else 7
  if lower piece == some Piece.p && dst.r == promotionRow && promotionPiece.isNone then
    openPromotionDialog (undo s) frm dst
  else
    let s := applyPromotion s piece dst color promotionPiece
    let s := setEnPassant s piece frm dst
    let s := setHalfMoveClock s piece target
    let s := setFullMoveNumber s color
    let s := recordCapture s target color
    let s := changeTurn s
    let s := saveHistory s
    let s := checkEndConditions s
    startTimer s

/-- The click handler of the promotion buttons, for a button whose `data-piece` is `piece`. -/
def promotionButtonClick (s : GameState) (piece : Piece) : GameState :=
  match s.pendingPromotion with
  | some (frm, dst) => makeMove { s with pendingPromotion := none } frm dst (some piece)
  | none => s

/-- The function `onSquareClick`. -/
def onSquareClick (s : GameState) (r c : Int) : GameState :=
  if s.timerRunning == false then s
  else
    let clickedPiece := s.board.get r c
    match s.selectedSquare with
    | none =>
      if clickedPiece.isSome && pieceColor clickedPiece == some s.turn then
        { s with
          selectedSquare := some ⟨r, c⟩
          validMoves := getValidMoves r c s.board s.turn s.castlingRights s.enPassant }
      else s
    | some sel =>
      if sel.r == r && sel.c == c then { s with selectedSquare := none, validMoves := [] }
      else if s.validMoves.any (fun m => m.r == r && m.c == c) then
        makeMove s sel ⟨r, c, none⟩ none
      else if clickedPiece.isSome && pieceColor clickedPiece == some s.turn then
        { s with
          selectedSquare := some ⟨r, c⟩
          validMoves := getValidMoves r c s.board s.turn s.castlingRights s.enPassant }
      else { s with selectedSquare := none, validMoves := [] }

/-- Play a list of moves from a state: each move must be one `getValidMoves` returns for
the piece on its origin square (same destination and castle tag), and is then applied by
`makeMove` with the given promotion piece.  The result is `none` as soon as a move is not
offered. -/
def playMoves : GameState → List (Square × Move × Option Piece) → Option GameState
  | s, [] => some s
  | s, (frm, dst, promo) :: rest =>
    if dst ∈ getValidMoves frm.r frm.c s.board s.turn s.castlingRights s.enPassant then
      playMoves (makeMove s frm dst promo) rest
    else none

/-- The candidates `getValidMoves` filters: none when the square is empty or holds a piece
of the other side (the early `return []`), otherwise the array `moves`. -/
def pseudoLegalMoves (r c : Int) (boardState : Board) (currentTurn : Color)
    (castling : CastlingRights) (enPass : Option Square) : List Move :=
  if (boardState.get r c).isNone || pieceColor (boardState.get r c) != some currentTurn then []
  else candidateMoves r c boardState currentTurn castling enPass

/-- The back rank of a colour: row 7 for White, row 0 for Black. -/
def homeRow (color : Color) : Int := if color = .w then 7 else 0

/-- The castling-rights flag of a colour and a castle tag. -/
def CastlingRights.flag (cr : CastlingRights) (color : Color) (tag : CastleTag) : Bool :=
  match color, tag with
  | .w, .K => cr.wK
  | .w, .Q => cr.wQ
  | .b, .K => cr.bK
  | .b, .Q => cr.bQ

/-- The number of cells of a board holding the piece letter `p`. -/
def countPiece (boardState : Board) (letter : Piece) : Nat :=
  (boardState.map fun row => row.count (some letter)).sum

/-! ### Concrete positions and games used as examples -/

/-- A position with the white king on e1, the white rooks on a1 and h1, nothing between
them, and the black king on e8. -/
def castleBoard : Board :=
  [ [none, none, none, none, some .k, none, none, none],
    [some .p, some .p, some .p, some .p, some .p, some .p, some .p, some .p],
    [none, none, none, none, none, none, none, none],
    [none, none, none, none, none, none, none, none],
    [none, none, none, none, none, none, none, none],
    [none, none, none, none, none, none, none, none],
    [some .P, some .P, some .P, some .P, some .P, some .P, some .P, some .P],
    [some .R, none, none, none, some .K, none, none, some .R] ]

/-- The state reached from `initGame` by a list of moves, each offered by `getValidMoves`
(`initGame` itself if one of them is not offered). -/
def afterMoves (moves : List (Square × Move × Option Piece)) : GameState :=
  (playMoves initGame moves).getD initGame

/-- The game 1. a4 b5 2. axb5 c6 3. bxc6 Bb7 4. cxb7 h6: White to move with a pawn on b7
that can capture the rook on a8. -/
def rookCaptureGame : List (Square × Move × Option Piece) :=
  [ (⟨6, 0⟩, ⟨4, 0, none⟩, none), (⟨1, 1⟩, ⟨3, 1, none⟩, none),
    (⟨4, 0⟩, ⟨3, 1, none⟩, none), (⟨1, 2⟩, ⟨2, 2, none⟩, none),
    (⟨3, 1⟩, ⟨2, 2, none⟩, none), (⟨0, 2⟩, ⟨1, 1, none⟩, none),
    (⟨2, 2⟩, ⟨1, 1, none⟩, none), (⟨1, 7⟩, ⟨2, 7, none⟩, none) ]

/-- The king letter of a colour. -/
def kingLetter (color : Color) : Piece := if color = .w then .K else .k

/-- The rook letter of a colour. -/
def rookLetter (color : Color) : Piece := if color = .w then .R else .r

/-- The column of the rook's corner for a castle tag: the h-file for `K`, the a-file for `Q`. -/
def rookCornerCol (tag : CastleTag) : Int :=
  match tag with
  | .K => 7
  | .Q => 0

/-- The column the king lands on: the g-file for `K`, the c-file for `Q`. -/
def kingCastledCol (tag : CastleTag) : Int :=
  match tag with
  | .K => 6
  | .Q => 2

/-- The column the king passes over: the f-file for `K`, the d-file for `Q`. -/
def rookCastledCol (tag : CastleTag) : Int :=
  match tag with
  | .K => 5
  | .Q => 3

/-- A position with a white pawn on e4, black knights on d5 and d3, the white king on h1
and the black king on a8. -/
def pawnAttackBoard : Board :=
  [ [some .k, none, none, none, none, none, none, none],
    [none, none, none, none, none, none, none, none],
    [none, none, none, none, none, none, none, none],
    [none, none, none, some .n, none, none, none, none],
    [none, none, none, none, some .P, none, none, none],
    [none, none, none, some .n, none, none, none, none],
    [none, none, none, none, none, none, none, none],
    [none, none, none, none, none, none, none, some .K] ]

/-- The game 1. e4 d5 2. Ke2 d4 3. Ke3 dxe3. -/
def kingCaptureGame : List (Square × Move × Option Piece) :=
  [ (⟨6, 4⟩, ⟨4, 4, none⟩, none), (⟨1, 3⟩, ⟨3, 3, none⟩, none),
    (⟨7, 4⟩, ⟨6, 4, none⟩, none), (⟨3, 3⟩, ⟨4, 3, none⟩, none),
    (⟨6, 4⟩, ⟨5, 4, none⟩, none), (⟨4, 3⟩, ⟨5, 4, none⟩, none) ]

/-- The game 1. a4 b5 2. axb5 a6 3. bxa6 e6 4. a7 Ke7: White to move with a pawn on a7
that can capture the knight on b8. -/
def promotionGame : List (Square × Move × Option Piece) :=
  [ (⟨6, 0⟩, ⟨4, 0, none⟩, none), (⟨1, 1⟩, ⟨3, 1, none⟩, none),
    (⟨4, 0⟩, ⟨3, 1, none⟩, none), (⟨1, 0⟩, ⟨2, 0, none⟩, none),
    (⟨3, 1⟩, ⟨2, 0, none⟩, none), (⟨1, 4⟩, ⟨2, 4, none⟩, none),
    (⟨2, 0⟩, ⟨1, 0, none⟩, none), (⟨0, 4⟩, ⟨1, 4, none⟩, none) ]

/-- The number of on-board squares left on a ray from `(nr, nc)` in direction `(dr, dc)`,
counted along the coordinate that moves; it bounds the iterations of the ray loops. -/
def rayBound (dr dc nr nc : Int) : Int :=
  if dr = 1 then 8 - nr else if dr = -1 then nr + 1 else if dc = 1 then 8 - nc else nc + 1

/-- The eight directions of the ray loops move one of the coordinates by one. -/
abbrev IsRayDir (dr dc : Int) : Prop :=
  dr = 1 ∨ dr = -1 ∨ (dr = 0 ∧ (dc = 1 ∨ dc = -1))

/-- The pawn letter of a colour. -/
def pawnLetter (color : Color) : Piece := if color = .w then .P else .p

/-- The row a pawn of the given colour promotes on: the variable `promotionRow` of `makeMove`. -/
def promotionRow (color : Color) : Int := if color = .w then 0 else 7
/-- The alerts one `checkEndConditions` call raises: what it appends to `alerts`. -/
def reportedAlerts (s : GameState) : List Alert :=
  (checkEndConditions s).alerts.drop s.alerts.length
/-- The game 1. e4 a6 2. e5 d5: White to move, the pawn on e5 stands beside the black pawn
that has just advanced two squares to d5. -/
def enPassantGame : List (Square × Move × Option Piece) :=
  [ (⟨6, 4⟩, ⟨4, 4, none⟩, none), (⟨1, 0⟩, ⟨2, 0, none⟩, none),
    (⟨4, 4⟩, ⟨3, 4, none⟩, none), (⟨1, 3⟩, ⟨3, 3, none⟩, none) ]

/-- The game 1. f3 e5 2. g4 Qh4. -/
def foolsMateGame : List (Square × Move × Option Piece) :=
  [ (⟨6, 5⟩, ⟨5, 5, none⟩, none), (⟨1, 4⟩, ⟨3, 4, none⟩, none),
    (⟨6, 6⟩, ⟨4, 6, none⟩, none), (⟨0, 3⟩, ⟨4, 7, none⟩, none) ]

/-- A sequence of clicks on board squares, each handled by `onSquareClick`. -/
def clickAll (s : GameState) (clicks : List (Int × Int)) : GameState :=
  clicks.foldl (fun t rc => onSquareClick t rc.1 rc.2) s

/-- The clicks that play 1. e4 e5 2. Nf3 Nc6 3. Bc4 Bc5 and then select the white king. -/
def castleClicks : List (Int × Int) :=
  [ (6, 4), (4, 4), (1, 4), (3, 4), (7, 6), (5, 5), (0, 1), (2, 2),
    (7, 5), (4, 2), (0, 5), (3, 2), (7, 4) ]
/-- The variable `dir` of the pawn branch: the row step of a pawn of the given colour. -/
def pawnDir (color : Color) : Int := if color = .w then -1 else 1

/-- The variable `startRow` of the pawn branch. -/
def pawnStartRow (color : Color) : Int := if color = .w then 6 else 1

/-- The board has 8 rows of 8 cells. -/
abbrev Board.WF (b : Board) : Prop := b.length = 8 ∧ ∀ row ∈ b, row.length = 8

/-- The moves of `enPassantGame` before Black's double step: 1. e4 a6 2. e5. -/
def enPassantPrelude : List (Square × Move × Option Piece) :=
  [ (⟨6, 4⟩, ⟨4, 4, none⟩, none), (⟨1, 0⟩, ⟨2, 0, none⟩, none),
    (⟨4, 4⟩, ⟨3, 4, none⟩, none) ]

/-- Four half-moves that bring the position back: Nf3 Nf6 Ng1 Ng8. -/
def knightShuffle : List (Square × Move × Option Piece) :=
  [ (⟨7, 6⟩, ⟨5, 5, none⟩, none), (⟨0, 6⟩, ⟨2, 5, none⟩, none),
    (⟨5, 5⟩, ⟨7, 6, none⟩, none), (⟨2, 5⟩, ⟨0, 6, none⟩, none) ]

/-- The moves of `promotionGame` followed by 99 half-moves of the knights going out and
back (24 times the shuffle, then Nf3 Nf6 Ng1): 107 applied moves, so the history holds
its 100 most recent snapshots and the oldest one is the position after `promotionGame`. -/
def longGame : List (Square × Move × Option Piece) :=
  promotionGame ++ (List.replicate 24 knightShuffle).flatten ++ knightShuffle.take 3

/-- The function `undo` called `n` times in a row. -/
def undoTimes : Nat → GameState → GameState
  | 0, s => s
  | n + 1, s => undoTimes n (undo s)

/-- The function `makeMove` called for each move of a list in turn. -/
def applyMoves : GameState → List (Square × Move × Option Piece) → GameState
  | s, [] => s
  | s, (frm, dst, promo) :: rest => applyMoves (makeMove s frm dst promo) rest

/-- The state with a single snapshot left: `longGame` played, then `undo` 99 times. -/
def rewoundState : GameState := undoTimes 99 (applyMoves initGame longGame)

/-! ### Bounds-checked versions of the functions `getValidMoves` runs

Every read and write of a board cell goes through `Board.read` / `Board.write`, which
fail (`none`) when the row or the column is outside 0..7; the loops stop at the first
failure.  A result `some x` therefore means that no cell outside the 8x8 range was
touched. -/

/-- The read `boardState[r][c]`, failing outside rows and columns 0..7. -/
def Board.read (boardState : Board) (r c : Int) : Option Cell :=
  if isOnBoard r c then some (boardState.get r c) else none

/-- The write `boardState[r][c] = v`, failing outside rows and columns 0..7. -/
def Board.write (boardState : Board) (r c : Int) (v : Cell) : Option Board :=
  if isOnBoard r c then some (boardState.set r c v) else none

/-- A loop that returns `true` at the first element whose test succeeds; the test may fail. -/
def anyChecked {α : Type} (f : α → Option Bool) : List α → Option Bool
  | [] => some false
  | x :: xs => (f x).bind fun hit => if hit then some true else anyChecked f xs

/-- A loop that returns the first result found; the body may fail. -/
def findSomeChecked {α β : Type} (f : α → Option (Option β)) : List α → Option (Option β)
  | [] => some none
  | x :: xs =>
    (f x).bind fun found =>
      match found with
      | some y => some (some y)
      | none => findSomeChecked f xs

/-- A loop that pushes what each element yields; the body may fail. -/
def flatMapChecked {α β : Type} (f : α → Option (List β)) : List α → Option (List β)
  | [] => some []
  | x :: xs => (f x).bind fun ys => (flatMapChecked f xs).bind fun rest => some (ys ++ rest)

/-- The single-step loops of `isSquareAttacked`, with checked reads. -/
def stepAttackChecked (boardState : Board) (attackerColor : Color) (kind : Piece) (r c : Int)
    (offsets : List (Int × Int)) : Option Bool :=
  anyChecked
    (fun d =>
      if isOnBoard (r + d.1) (c + d.2) then
        (boardState.read (r + d.1) (c + d.2)).bind fun p =>
          some (p.isSome && pieceColor p == some attackerColor && lower p == some kind)
      else some false)
    offsets

/-- One ray of `isSquareAttacked`, with checked reads. -/
def rayAttackChecked (boardState : Board) (attackerColor : Color) (kind : Piece) (dr dc : Int) :
    Nat → Int → Int → Option Bool
  | 0, _, _ => some false
  | fuel + 1, nr, nc =>
    if isOnBoard nr nc then
      (boardState.read nr nc).bind fun p =>
        if p.isSome then
          some (pieceColor p == some attackerColor &&
            (lower p == some kind || lower p == some .q))
        else rayAttackChecked boardState attackerColor kind dr dc fuel (nr + dr) (nc + dc)
    else some false

/-- The function `isSquareAttacked`, with checked reads: the five loops in order, each
returning `true` at its first hit. -/
def isSquareAttackedChecked (r c : Int) (attackerColor : Color) (boardState : Board) :
    Option Bool :=
  let pawnDir : Int := if attackerColor = .w then -1 else 1
  let pawnAttackOffsets : List (Int × Int) := [(pawnDir, -1), (pawnDir, 1)]
  (stepAttackChecked boardState attackerColor .p r c pawnAttackOffsets).bind fun h1 =>
    if h1 then some true else
  (stepAttackChecked boardState attackerColor .n r c knightOffsets).bind fun h2 =>
    if h2 then some true else
  (anyChecked (fun d =>
      rayAttackChecked boardState attackerColor .r d.1 d.2 8 (r + d.1) (c + d.2))
    straightDirs).bind fun h3 =>
    if h3 then some true else
  (anyChecked (fun d =>
      rayAttackChecked boardState attackerColor .b d.1 d.2 8 (r + d.1) (c + d.2))
    diagDirs).bind fun h4 =>
    if h4 then some true else
  stepAttackChecked boardState attackerColor .k r c kingOffsets

/-- The values of the loop variables `r` and `c` of `findKing`. -/
def boardIndices : List Int := [0, 1, 2, 3, 4, 5, 6, 7]

/-- The function `findKing`, with checked reads. -/
def findKingChecked (color : Color) (boardState : Board) : Option (Option Square) :=
  findSomeChecked
    (fun r : Int =>
      findSomeChecked
        (fun c : Int =>
          (boardState.read r c).bind fun p =>
            some (if p.isSome && pieceColor p == some color && lower p == some .k then
              some ⟨r, c⟩ else none))
        boardIndices)
    boardIndices

/-- The function `isInCheck`, with checked reads. -/
def isInCheckChecked (color : Color) (boardState : Board) : Option Bool :=
  (findKingChecked color boardState).bind fun found =>
    match found with
    | none => some false
    | some kingPos =>
      isSquareAttackedChecked kingPos.r kingPos.c (opponent color) boardState
/-- A loop that stops with `false` at the first element whose test fails; the test may
fail. -/
def allChecked {α : Type} (f : α → Option Bool) : List α → Option Bool
  | [] => some true
  | x :: xs => (f x).bind fun ok => if ok then allChecked f xs else some false

/-- A loop that keeps the elements whose test succeeds; the test may fail. -/
def filterChecked {α : Type} (keep : α → Option Bool) : List α → Option (List α)
  | [] => some []
  | x :: xs =>
    (keep x).bind fun k =>
      (filterChecked keep xs).bind fun rest => some (if k then x :: rest else rest)

/-- The function `makeMoveOnBoard`, with checked reads and writes. -/
def makeMoveOnBoardChecked (boardState : Board) (frm : Square) (dst : Move) (color : Color)
    (_castling : CastlingRights) (enPass : Option Square) : Option Board :=
  (Board.read (cloneBoard boardState) frm.r frm.c).bind fun piece =>
  (Board.write (cloneBoard boardState) dst.r dst.c piece).bind fun b1 =>
  (b1.write frm.r frm.c none).bind fun b2 =>
  (match dst.castle with
    | some CastleTag.K =>
      if color = Color.w then
        (b2.read 7 7).bind fun rook => (b2.write 7 5 rook).bind fun b3 => b3.write 7 7 none
      else
        (b2.read 0 7).bind fun rook => (b2.write 0 5 rook).bind fun b3 => b3.write 0 7 none
    | some CastleTag.Q =>
      if color = Color.w then
        (b2.read 7 0).bind fun rook => (b2.write 7 3 rook).bind fun b3 => b3.write 7 0 none
      else
        (b2.read 0 0).bind fun rook => (b2.write 0 3 rook).bind fun b3 => b3.write 0 0 none
    | none => some b2).bind fun b4 =>
  match enPass with
  | some ep =>
    if lower piece == some Piece.p && dst.r == ep.r && dst.c == ep.c then
      if color = Color.w then b4.write (dst.r + 1) dst.c none
      else b4.write (dst.r - 1) dst.c none
    else some b4
  | none => some b4
/-- The pawn branch of `getValidMoves`, with checked reads. -/
def pawnMovesChecked (r c : Int) (boardState : Board) (color : Color) (enPass : Option Square) :
    Option (List Move) :=
  let enemy := opponent color
  let dir : Int := if color = Color.w then -1 else 1
  let startRow : Int := if color = Color.w then 6 else 1
  let forward : Option (List Move) :=
    if isOnBoard (r + dir) c then
      (boardState.read (r + dir) c).bind fun ahead =>
        if ahead.isNone then
          if r == startRow then
            (boardState.read (r + dir * 2) c).bind fun ahead2 =>
              some (⟨r + dir, c, none⟩ :: (if ahead2.isNone then [⟨r + dir * 2, c, none⟩] else []))
          else some [⟨r + dir, c, none⟩]
        else some []
    else some []
  let captures : Option (List Move) :=
    flatMapChecked
      (fun dc : Int =>
        if isOnBoard (r + dir) (c + dc) then
          (boardState.read (r + dir) (c + dc)).bind fun target =>
            some (if target.isSome && pieceColor target == some enemy then
              [⟨r + dir, c + dc, none⟩] else [])
        else some [])
      [-1, 1]
  let enPassantMoves : List Move :=
    match enPass with
    | some ep =>
      if r == (if color = Color.w then 3 else 4) && (ep.c - c).natAbs == 1 && ep.r == r + dir then
        [⟨ep.r, ep.c, none⟩] else []
    | none => []
  forward.bind fun fw => captures.bind fun cp => some (fw ++ cp ++ enPassantMoves)

/-- The knight loop and the first king loop of `getValidMoves`, with checked reads. -/
def stepMovesChecked (r c : Int) (boardState : Board) (enemy : Color)
    (offsets : List (Int × Int)) : Option (List Move) :=
  flatMapChecked
    (fun d =>
      if isOnBoard (r + d.1) (c + d.2) then
        (boardState.read (r + d.1) (c + d.2)).bind fun target =>
          some (if target.isNone || pieceColor target == some enemy then
            [⟨r + d.1, c + d.2, none⟩] else [])
      else some [])
    offsets

/-- One ray of the sliding branch of `getValidMoves`, with checked reads. -/
def slideMovesChecked (boardState : Board) (enemy : Color) (dr dc : Int) :
    Nat → Int → Int → Option (List Move)
  | 0, _, _ => some []
  | fuel + 1, nr, nc =>
    if isOnBoard nr nc then
      (boardState.read nr nc).bind fun target =>
        if target.isNone then
          (slideMovesChecked boardState enemy dr dc fuel (nr + dr) (nc + dc)).bind fun rest =>
            some (⟨nr, nc, none⟩ :: rest)
        else some (if pieceColor target == some enemy then [⟨nr, nc, none⟩] else [])
    else some []

/-- The sliding branch of `getValidMoves`, with checked reads. -/
def slidingMovesChecked (r c : Int) (boardState : Board) (enemy : Color) (pieceType : Piece) :
    Option (List Move) :=
  let directions : List (Int × Int) :=
    (if pieceType = Piece.b ∨ pieceType = Piece.q then diagDirs else []) ++
    (if pieceType = Piece.r ∨ pieceType = Piece.q then straightDirs else [])
  flatMapChecked
    (fun d => slideMovesChecked boardState enemy d.1 d.2 8 (r + d.1) (c + d.2)) directions

/-- One block `if (right && squares empty) { if (squares not attacked) push }` of the
castling part of `getValidMoves`, with checked reads; each `&&` chain stops at its first
false operand. -/
def castleSideChecked (boardState : Board) (enemy : Color) (right : Bool) (row : Int)
    (emptyCols safeCols : List Int) (m : Move) : Option (List Move) :=
  if right then
    (allChecked (fun col => (boardState.read row col).bind fun t => some t.isNone)
      emptyCols).bind fun free =>
        if free then
          (allChecked
            (fun col => (isSquareAttackedChecked row col enemy boardState).bind fun a =>
              some (!a))
            safeCols).bind fun safe => some (if safe then [m] else [])
        else some []
  else some []

/-- The castling part of the king branch of `getValidMoves`, with checked reads. -/
def castleMovesChecked (boardState : Board) (color : Color) (castling : CastlingRights) :
    Option (List Move) :=
  let enemy := opponent color
  (isInCheckChecked color boardState).bind fun chk =>
    if !chk then
      if color = Color.w then
        (castleSideChecked boardState enemy castling.wK 7 [5, 6] [5, 6]
          ⟨7, 6, some CastleTag.K⟩).bind fun ks =>
        (castleSideChecked boardState enemy castling.wQ 7 [1, 2, 3] [2, 3]
          ⟨7, 2, some CastleTag.Q⟩).bind fun qs => some (ks ++ qs)
      else
        (castleSideChecked boardState enemy castling.bK 0 [5, 6] [5, 6]
          ⟨0, 6, some CastleTag.K⟩).bind fun ks =>
        (castleSideChecked boardState enemy castling.bQ 0 [1, 2, 3] [2, 3]
          ⟨0, 2, some CastleTag.Q⟩).bind fun qs => some (ks ++ qs)
    else some []

/-- The candidates pushed by `getValidMoves` for the piece `p` it has read from `(r, c)`,
with checked reads. -/
def candidateMovesChecked (p : Cell) (r c : Int) (boardState : Board) (currentTurn : Color)
    (castling : CastlingRights) (enPass : Option Square) : Option (List Move) :=
  let color := currentTurn
  let enemy := opponent color
  match lower p with
  | some Piece.p => pawnMovesChecked r c boardState color enPass
  | some Piece.n => stepMovesChecked r c boardState enemy knightOffsets
  | some Piece.b => slidingMovesChecked r c boardState enemy Piece.b
  | some Piece.r => slidingMovesChecked r c boardState enemy Piece.r
  | some Piece.q => slidingMovesChecked r c boardState enemy Piece.q
  | some Piece.k =>
    (stepMovesChecked r c boardState enemy kingOffsets).bind fun steps =>
      (castleMovesChecked boardState color castling).bind fun castles => some (steps ++ castles)
  | _ => some []

/-- The filter loop of `getValidMoves`, with checked reads and writes. -/
def filterLoopChecked (r c : Int) (boardState : Board) (color : Color)
    (castling : CastlingRights) (enPass : Option Square) (moves : List Move) :
    Option (List Move) :=
  filterChecked
    (fun m =>
      (makeMoveOnBoardChecked boardState ⟨r, c⟩ m color castling enPass).bind fun newBoard =>
        (isInCheckChecked color newBoard).bind fun chk => some (!chk))
    moves

/-- The function `getValidMoves`, with checked reads and writes: `some moves` when every
cell it (and the functions it calls) reads or writes has row and column in 0..7, `none`
as soon as one access falls outside. -/
def getValidMovesChecked (r c : Int) (boardState : Board) (currentTurn : Color)
    (castling : CastlingRights) (enPass : Option Square) : Option (List Move) :=
  (boardState.read r c).bind fun p =>
    if p.isNone || pieceColor p != some currentTurn then some []
    else
      (candidateMovesChecked p r c boardState currentTurn castling enPass).bind fun moves =>
        filterLoopChecked r c boardState currentTurn castling enPass moves
/-- The initial board with one more white pawn on h5 (row 3, column 7). -/
def edgePawnBoard : Board := initialBoard.set 3 7 (some Piece.P)

/-- The game 1. a4 b5 2. axb5 a6 3. bxa6 h5 4. a7 h4 5. g4 e6: Black declines the en-passant
capture hxg3, and White is to move with a pawn on a7 that can capture the knight on b8. -/
def declinedEnPassantGame : List (Square × Move × Option Piece) :=
  [ (⟨6, 0⟩, ⟨4, 0, none⟩, none), (⟨1, 1⟩, ⟨3, 1, none⟩, none),
    (⟨4, 0⟩, ⟨3, 1, none⟩, none), (⟨1, 0⟩, ⟨2, 0, none⟩, none),
    (⟨3, 1⟩, ⟨2, 0, none⟩, none), (⟨1, 7⟩, ⟨3, 7, none⟩, none),
    (⟨2, 0⟩, ⟨1, 0, none⟩, none), (⟨3, 7⟩, ⟨4, 7, none⟩, none),
    (⟨6, 6⟩, ⟨4, 6, none⟩, none), (⟨1, 4⟩, ⟨2, 4, none⟩, none) ]

end Chess

/-! ## Theorems -/

namespace Chess

/-! ### The ray loops terminate within the fuel -/

theorem rayBound_pos (dr dc : Int) {nr nc : Int} (h : isOnBoard nr nc = true) :
    1 ≤ rayBound dr dc nr nc ∧ rayBound dr dc nr nc ≤ 8 := by
  simp only [isOnBoard, BOARD_SIZE, Bool.and_eq_true, decide_eq_true_eq] at h
  unfold rayBound
  split_ifs <;> omega

theorem rayBound_step {dr dc nr nc : Int} (hd : IsRayDir dr dc) :
    rayBound dr dc (nr + dr) (nc + dc) = rayBound dr dc nr nc - 1 := by
  unfold rayBound
  rcases hd with h | h | ⟨h, h2 | h2⟩
  · subst h; simp only [if_true]; omega
  · subst h; simp only [show ¬ ((-1 : Int) = 1) by decide, if_true, if_false]; omega
  · subst h; subst h2
    simp only [show ¬ ((0 : Int) = 1) by decide, show ¬ ((0 : Int) = -1) by decide, if_true,
      if_false]
    omega
  · subst h; subst h2
    simp only [show ¬ ((0 : Int) = 1) by decide, show ¬ ((0 : Int) = -1) by decide,
      show ¬ ((-1 : Int) = 1) by decide, if_false]
    omega

theorem rayAttack_fuel_add (b : Board) (col : Color) (kind : Piece) {dr dc : Int}
    (hd : IsRayDir dr dc) :
    ∀ (fuel : Nat) (nr nc : Int) (k : Nat), rayBound dr dc nr nc ≤ fuel →
      rayAttack b col kind dr dc (fuel + k) nr nc = rayAttack b col kind dr dc fuel nr nc := by
  intro fuel
  induction fuel with
  | zero =>
    intro nr nc k hb
    have hoff : isOnBoard nr nc = false := by
      by_contra hon
      have := (rayBound_pos dr dc (Bool.not_eq_false _ ▸ hon : isOnBoard nr nc = true)).1
      omega
    cases k with
    | zero => rfl
    | succ k => simp [rayAttack, hoff]
  | succ fuel ih =>
    intro nr nc k hb
    have hk : fuel + 1 + k = (fuel + k) + 1 := by omega
    rw [hk]
    simp only [rayAttack]
    by_cases hon : isOnBoard nr nc = true
    · simp only [hon, if_true]
      by_cases hp : (b.get nr nc).isSome = true
      · simp only [hp, if_true]
      · simp only [hp, if_false]
        exact ih _ _ k (by rw [rayBound_step hd]; omega)
    · simp [hon]

/-- With any fuel of at least 8 a ray of `isSquareAttacked` gives the result it gives with
fuel 8: the loop has left the board before the fuel runs out. -/
theorem rayAttack_fuel (b : Board) (col : Color) (kind : Piece) {dr dc : Int}
    (hd : IsRayDir dr dc) (nr nc : Int) (fuel : Nat) (hf : 8 ≤ fuel) :
    rayAttack b col kind dr dc fuel nr nc = rayAttack b col kind dr dc 8 nr nc := by
  obtain ⟨k, rfl⟩ : ∃ k, fuel = 8 + k := ⟨fuel - 8, by omega⟩
  by_cases hon : isOnBoard nr nc = true
  · exact rayAttack_fuel_add b col kind hd 8 nr nc k (by have := (rayBound_pos dr dc hon).2; omega)
  · have h8 : 8 + k = (7 + k) + 1 := by omega
    rw [h8]
    simp [rayAttack, hon]

theorem slideMoves_fuel_add (b : Board) (enemy : Color) {dr dc : Int} (hd : IsRayDir dr dc) :
    ∀ (fuel : Nat) (nr nc : Int) (k : Nat), rayBound dr dc nr nc ≤ fuel →
      slideMoves b enemy dr dc (fuel + k) nr nc = slideMoves b enemy dr dc fuel nr nc := by
  intro fuel
  induction fuel with
  | zero =>
    intro nr nc k hb
    have hoff : isOnBoard nr nc = false := by
      by_contra hon
      have := (rayBound_pos dr dc (Bool.not_eq_false _ ▸ hon : isOnBoard nr nc = true)).1
      omega
    cases k with
    | zero => rfl
    | succ k => simp [slideMoves, hoff]
  | succ fuel ih =>
    intro nr nc k hb
    have hk : fuel + 1 + k = (fuel + k) + 1 := by omega
    rw [hk]
    simp only [slideMoves]
    by_cases hon : isOnBoard nr nc = true
    · simp only [hon, if_true]
      by_cases hp : (b.get nr nc).isNone = true
      · simp only [hp, if_true]
        rw [ih _ _ k (by rw [rayBound_step hd]; omega)]
      · simp [hp]
    · simp [hon]

/-- With any fuel of at least 8 a ray of the sliding branch of `getValidMoves` gives the
moves it gives with fuel 8. -/
theorem slideMoves_fuel (b : Board) (enemy : Color) {dr dc : Int} (hd : IsRayDir dr dc)
    (nr nc : Int) (fuel : Nat) (hf : 8 ≤ fuel) :
    slideMoves b enemy dr dc fuel nr nc = slideMoves b enemy dr dc 8 nr nc := by
  obtain ⟨k, rfl⟩ : ∃ k, fuel = 8 + k := ⟨fuel - 8, by omega⟩
  by_cases hon : isOnBoard nr nc = true
  · exact slideMoves_fuel_add b enemy hd 8 nr nc k (by have := (rayBound_pos dr dc hon).2; omega)
  · have h8 : 8 + k = (7 + k) + 1 := by omega
    rw [h8]
    simp [slideMoves, hon]

/-- Every direction of `straightDirs` and `diagDirs` is a ray direction. -/
theorem ray_dirs_are_ray_dirs :
    ∀ d ∈ straightDirs ++ diagDirs, IsRayDir d.1 d.2 := by
  decide

/-! ### The legality filter of `getValidMoves` -/

theorem foldl_push_eq_filter {α : Type} (keep : α → Bool) (xs acc : List α) :
    xs.foldl (fun out x => if keep x then out ++ [x] else out) acc = acc ++ xs.filter keep := by
  induction xs generalizing acc with
  | nil => simp
  | cons x xs ih =>
    simp only [List.foldl_cons, ih, List.filter_cons]
    by_cases h : keep x <;> simp [h]

theorem filterLoop_eq_filter (r c : Int) (b : Board) (color : Color) (castling : CastlingRights)
    (ep : Option Square) (moves : List Move) :
    filterLoop r c b color castling ep moves =
      moves.filter fun m => !isInCheck color (makeMoveOnBoard b ⟨r, c⟩ m color castling ep) := by
  unfold filterLoop
  simpa using foldl_push_eq_filter
    (fun m => !isInCheck color (makeMoveOnBoard b ⟨r, c⟩ m color castling ep)) moves []

theorem getValidMoves_filter_pseudoLegal (r c : Int) (b : Board) (turn : Color)
    (castling : CastlingRights) (ep : Option Square) :
    getValidMoves r c b turn castling ep =
      (pseudoLegalMoves r c b turn castling ep).filter
        (fun m => !isInCheck turn (makeMoveOnBoard b ⟨r, c⟩ m turn castling ep)) := by
  unfold getValidMoves pseudoLegalMoves
  by_cases hg : ((b.get r c).isNone || pieceColor (b.get r c) != some turn) = true
  · simp only [hg, if_true, List.filter_nil]
  · simp only [hg, if_false, filterLoop_eq_filter]
    simp

theorem mem_getValidMoves_iff (r c : Int) (b : Board) (turn : Color)
    (castling : CastlingRights) (ep : Option Square) (m : Move) :
    m ∈ getValidMoves r c b turn castling ep ↔
      (m ∈ pseudoLegalMoves r c b turn castling ep ∧
        isInCheck turn (makeMoveOnBoard b ⟨r, c⟩ m turn castling ep) = false) := by
  rw [getValidMoves_filter_pseudoLegal, List.mem_filter]
  simp

/-- C1: `getValidMoves` returns exactly the pseudo-legal candidates, in generation order,
whose projected board `makeMoveOnBoard` does not leave the mover in check; a move is
returned if and only if it is a candidate (castle-tagged or not) that keeps the king safe. -/
theorem getValidMoves_eq_filter (r c : Int) (b : Board) (turn : Color)
    (castling : CastlingRights) (ep : Option Square) :
    getValidMoves r c b turn castling ep =
        (pseudoLegalMoves r c b turn castling ep).filter
          (fun m => !isInCheck turn (makeMoveOnBoard b ⟨r, c⟩ m turn castling ep))
      ∧ ∀ m : Move, m ∈ getValidMoves r c b turn castling ep ↔
          (m ∈ pseudoLegalMoves r c b turn castling ep ∧
            isInCheck turn (makeMoveOnBoard b ⟨r, c⟩ m turn castling ep) = false) :=
  ⟨getValidMoves_filter_pseudoLegal r c b turn castling ep,
   mem_getValidMoves_iff r c b turn castling ep⟩

/-! ### Castle-tagged moves -/

theorem castle_none_of_mem_pawnMoves {r c : Int} {b : Board} {color : Color}
    {ep : Option Square} {m : Move} (h : m ∈ pawnMoves r c b color ep) : m.castle = none := by
  unfold pawnMoves at h
  simp only [List.mem_append, List.mem_flatMap] at h
  rcases h with (h | ⟨dc, -, h⟩) | h
  · split_ifs at h <;> simp at h <;> first | rfl | (rcases h with h | h <;> rw [h]) | rw [h]
  · split_ifs at h <;> simp at h <;> rw [h]
  · cases ep with
    | none => simp at h
    | some e =>
      simp only at h
      split_ifs at h <;> simp at h <;> rw [h]

theorem castle_none_of_mem_stepMoves {r c : Int} {b : Board} {enemy : Color}
    {offsets : List (Int × Int)} {m : Move} (h : m ∈ stepMoves r c b enemy offsets) :
    m.castle = none := by
  unfold stepMoves at h
  simp only [List.mem_flatMap] at h
  obtain ⟨d, -, h⟩ := h
  split_ifs at h <;> simp at h
  rw [h]

theorem castle_none_of_mem_slideMoves {b : Board} {enemy : Color} {dr dc : Int} {m : Move} :
    ∀ (fuel : Nat) (nr nc : Int), m ∈ slideMoves b enemy dr dc fuel nr nc → m.castle = none := by
  intro fuel
  induction fuel with
  | zero => intro nr nc h; simp [slideMoves] at h
  | succ fuel ih =>
    intro nr nc h
    simp only [slideMoves] at h
    split_ifs at h
    · rcases List.mem_cons.1 h with h | h
      · rw [h]
      · exact ih _ _ h
    · rw [List.mem_singleton.1 h]
    · simp at h
    · simp at h

theorem castle_none_of_mem_slidingMoves {r c : Int} {b : Board} {enemy : Color}
    {pieceType : Piece} {m : Move} (h : m ∈ slidingMoves r c b enemy pieceType) :
    m.castle = none := by
  unfold slidingMoves at h
  simp only [List.mem_flatMap] at h
  obtain ⟨d, -, h⟩ := h
  exact castle_none_of_mem_slideMoves _ _ _ h

/-- A castle-tagged candidate comes from the castling part of the king branch. -/
theorem mem_castleMoves_of_mem_candidateMoves {r c : Int} {b : Board} {turn : Color}
    {castling : CastlingRights} {ep : Option Square} {m : Move} {tag : CastleTag}
    (h : m ∈ candidateMoves r c b turn castling ep) (htag : m.castle = some tag) :
    lower (b.get r c) = some .k ∧ m ∈ castleMoves b turn castling := by
  unfold candidateMoves at h
  split at h
  · rw [castle_none_of_mem_pawnMoves h] at htag; cases htag
  · rw [castle_none_of_mem_stepMoves h] at htag; cases htag
  · rw [castle_none_of_mem_slidingMoves h] at htag; cases htag
  · rw [castle_none_of_mem_slidingMoves h] at htag; cases htag
  · rw [castle_none_of_mem_slidingMoves h] at htag; cases htag
  · rename_i hk
    rcases List.mem_append.1 h with h | h
    · rw [castle_none_of_mem_stepMoves h] at htag; cases htag
    · exact ⟨hk, h⟩
  · simp at h

/-- What the castling part of the king branch has tested before it pushes a tagged move. -/
theorem castleMoves_spec {b : Board} {color : Color} {castling : CastlingRights} {m : Move}
    (h : m ∈ castleMoves b color castling) :
    isInCheck color b = false ∧
      ((m = ⟨homeRow color, 6, some .K⟩ ∧ castling.flag color .K = true ∧
          b.get (homeRow color) 5 = none ∧ b.get (homeRow color) 6 = none ∧
          isSquareAttacked (homeRow color) 5 (opponent color) b = false ∧
          isSquareAttacked (homeRow color) 6 (opponent color) b = false) ∨
       (m = ⟨homeRow color, 2, some .Q⟩ ∧ castling.flag color .Q = true ∧
          b.get (homeRow color) 1 = none ∧ b.get (homeRow color) 2 = none ∧
          b.get (homeRow color) 3 = none ∧
          isSquareAttacked (homeRow color) 2 (opponent color) b = false ∧
          isSquareAttacked (homeRow color) 3 (opponent color) b = false)) := by
  unfold castleMoves at h
  by_cases hc : isInCheck color b = true
  · simp [hc] at h
  · have hc' : isInCheck color b = false := by simpa using hc
    refine ⟨hc', ?_⟩
    cases color <;>
      simp only [hc', Bool.not_false, if_true, reduceCtorEq, if_false, List.mem_append] at h <;>
      rcases h with h | h
    · left
      split_ifs at h with h1 h2 <;> simp at h
      simp only [Bool.and_eq_true, Bool.not_eq_true', Option.isNone_iff_eq_none] at h1 h2
      simp [homeRow, CastlingRights.flag, h, h1, h2]
    · right
      split_ifs at h with h1 h2 <;> simp at h
      simp only [Bool.and_eq_true, Bool.not_eq_true', Option.isNone_iff_eq_none] at h1 h2
      simp [homeRow, CastlingRights.flag, h, h1, h2]
    · left
      split_ifs at h with h1 h2 <;> simp at h
      simp only [Bool.and_eq_true, Bool.not_eq_true', Option.isNone_iff_eq_none] at h1 h2
      simp [homeRow, CastlingRights.flag, h, h1, h2]
    · right
      split_ifs at h with h1 h2 <;> simp at h
      simp only [Bool.and_eq_true, Bool.not_eq_true', Option.isNone_iff_eq_none] at h1 h2
      simp [homeRow, CastlingRights.flag, h, h1, h2]

/-- C6: every castle-tagged move `getValidMoves` returns is a move of a king of the side
to move, generated while that side is not in check on the current board, with the matching
castling-rights flag set, with the squares between king home square and rook corner empty
(f and g files for `K`; b, c and d files for `Q`), and with neither the square the king
passes over nor the square it lands on attacked by the opponent. -/
theorem castle_move_requirements (r c : Int) (b : Board) (turn : Color)
    (castling : CastlingRights) (ep : Option Square) (m : Move) (tag : CastleTag)
    (hm : m ∈ getValidMoves r c b turn castling ep) (htag : m.castle = some tag) :
    lower (b.get r c) = some .k ∧ pieceColor (b.get r c) = some turn ∧
    isInCheck turn b = false ∧ castling.flag turn tag = true ∧
    (tag = .K →
      m.r = homeRow turn ∧ m.c = 6 ∧
      b.get (homeRow turn) 5 = none ∧ b.get (homeRow turn) 6 = none ∧
      isSquareAttacked (homeRow turn) 5 (opponent turn) b = false ∧
      isSquareAttacked (homeRow turn) 6 (opponent turn) b = false) ∧
    (tag = .Q →
      m.r = homeRow turn ∧ m.c = 2 ∧
      b.get (homeRow turn) 1 = none ∧ b.get (homeRow turn) 2 = none ∧
      b.get (homeRow turn) 3 = none ∧
      isSquareAttacked (homeRow turn) 3 (opponent turn) b = false ∧
      isSquareAttacked (homeRow turn) 2 (opponent turn) b = false) := by
  have hmem := (mem_getValidMoves_iff r c b turn castling ep m).1 hm
  have hcand : m ∈ pseudoLegalMoves r c b turn castling ep := hmem.1
  unfold pseudoLegalMoves at hcand
  split_ifs at hcand with hg
  · simp at hcand
  · have hcolor : pieceColor (b.get r c) = some turn := by
      simp only [Bool.or_eq_true, bne_iff_ne, ne_eq, not_or, not_not] at hg
      exact hg.2
    obtain ⟨hk, hcm⟩ := mem_castleMoves_of_mem_candidateMoves hcand htag
    obtain ⟨hchk, hside⟩ := castleMoves_spec hcm
    refine ⟨hk, hcolor, hchk, ?_⟩
    rcases hside with ⟨rfl, hflag, h5, h6, ha5, ha6⟩ | ⟨rfl, hflag, h1, h2, h3, ha2, ha3⟩
    · simp only [Option.some.injEq] at htag
      subst htag
      exact ⟨hflag, fun _ => ⟨rfl, rfl, h5, h6, ha5, ha6⟩, fun h => (by cases h)⟩
    · simp only [Option.some.injEq] at htag
      subst htag
      exact ⟨hflag, fun h => (by cases h), fun _ => ⟨rfl, rfl, h1, h2, h3, ha3, ha2⟩⟩

/-- C6, witness: on `castleBoard` the white king is offered the kingside castle. -/
theorem castle_move_requirements_witness :
    (⟨7, 6, some .K⟩ : Move) ∈ getValidMoves 7 4 castleBoard .w ⟨true, true, true, true⟩ none ∧
    (lower (castleBoard.get 7 4) = some .k ∧ pieceColor (castleBoard.get 7 4) = some .w ∧
      isInCheck .w castleBoard = false ∧
      (⟨true, true, true, true⟩ : CastlingRights).flag .w .K = true ∧
      (CastleTag.K = .K →
        (7 : Int) = homeRow .w ∧ (6 : Int) = 6 ∧
        castleBoard.get (homeRow .w) 5 = none ∧ castleBoard.get (homeRow .w) 6 = none ∧
        isSquareAttacked (homeRow .w) 5 (opponent .w) castleBoard = false ∧
        isSquareAttacked (homeRow .w) 6 (opponent .w) castleBoard = false) ∧
      (CastleTag.K = .Q →
        (7 : Int) = homeRow .w ∧ (6 : Int) = 2 ∧
        castleBoard.get (homeRow .w) 1 = none ∧ castleBoard.get (homeRow .w) 2 = none ∧
        castleBoard.get (homeRow .w) 3 = none ∧
        isSquareAttacked (homeRow .w) 3 (opponent .w) castleBoard = false ∧
        isSquareAttacked (homeRow .w) 2 (opponent .w) castleBoard = false)) :=
  ⟨by decide,
   castle_move_requirements 7 4 castleBoard .w ⟨true, true, true, true⟩ none ⟨7, 6, some .K⟩ .K
     (by decide) rfl⟩

/-! ### Reading and writing board cells -/

theorem Board.inRange_of_get_eq_some {b : Board} {r c : Int} {x : Piece}
    (h : b.get r c = some x) : b.inRange r c := by
  unfold Board.get at h
  unfold Board.inRange
  split_ifs at h with hrc
  · refine ⟨hrc.1, hrc.2, ?_⟩
    by_contra hlt
    rw [List.getD_eq_getElem?_getD, List.getElem?_eq_none (by omega)] at h
    simp at h

theorem getD_set_row (b : Board) (i i2 : Nat) (row : List Cell) :
    (List.set b i row).getD i2 [] =
      if i2 = i ∧ i < b.length then row else b.getD i2 [] := by
  simp only [List.getD_eq_getElem?_getD, List.getElem?_set]
  by_cases h : i = i2
  · subst h
    by_cases hl : i < b.length
    · simp [hl]
    · simp [hl, List.getElem?_eq_none (not_lt.1 hl)]
  · have h2 : ¬ i2 = i := fun e => h e.symm
    simp [h, h2]

theorem Board.get_set (b : Board) (r c : Int) (v : Cell) (r2 c2 : Int) :
    (b.set r c v).get r2 c2 =
      if r2 = r ∧ c2 = c ∧ b.inRange r c then v else b.get r2 c2 := by
  unfold Board.set Board.get Board.inRange
  by_cases hrc : 0 ≤ r ∧ 0 ≤ c
  · by_cases hrc2 : 0 ≤ r2 ∧ 0 ≤ c2
    · simp only [hrc, hrc2, and_self, if_true, true_and, getD_set_row]
      by_cases hr : r2 = r
      · subst hr
        by_cases hl : r2.toNat < b.length
        · simp only [hl, and_self, if_true, true_and]
          simp only [List.getD_eq_getElem?_getD, List.getElem?_set]
          by_cases hc : c2 = c
          · subst hc
            by_cases hlc : c2.toNat < ((b[r2.toNat]?).getD []).length
            · simp [hlc]
            · simp [hlc, List.getElem?_eq_none (not_lt.1 hlc)]
          · have : ¬ c.toNat = c2.toNat := by omega
            simp [hc, this]
        · have hnil : b[r2.toNat]? = none := List.getElem?_eq_none (not_lt.1 hl)
          simp [hl, hnil]
      · have : ¬ r2.toNat = r.toNat := by omega
        simp [hr, this]
    · have : ¬ (r2 = r ∧ c2 = c ∧ 0 ≤ r ∧ 0 ≤ c ∧ c.toNat < (b.getD r.toNat []).length) := by
        rintro ⟨h1, h2, -⟩; subst h1; subst h2; exact hrc2 hrc
      rw [if_neg this]
      simp only [hrc, and_self, if_true, hrc2, if_false]
  · have : ¬ (r2 = r ∧ c2 = c ∧ 0 ≤ r ∧ 0 ≤ c ∧ c.toNat < (b.getD r.toNat []).length) := by
      rintro ⟨-, -, h1, h2, -⟩; exact hrc ⟨h1, h2⟩
    rw [if_neg this]
    simp only [hrc, if_false]

theorem Board.inRange_set (b : Board) (r c : Int) (v : Cell) (r2 c2 : Int) :
    (b.set r c v).inRange r2 c2 ↔ b.inRange r2 c2 := by
  unfold Board.set Board.inRange
  by_cases hrc : 0 ≤ r ∧ 0 ≤ c
  · simp only [hrc, and_self, if_true, getD_set_row]
    by_cases h : r2.toNat = r.toNat ∧ r.toNat < b.length
    · simp only [h, and_self, if_true, List.length_set]
    · simp only [h, if_false]
  · simp only [hrc, if_false]

theorem cloneBoard_eq (b : Board) : cloneBoard b = b := by
  unfold cloneBoard
  simp

/-! ### What `saveHistory`, `checkEndConditions` and `startTimer` leave alone -/

theorem checkEndConditions_fields (s : GameState) :
    (checkEndConditions s).board = s.board ∧ (checkEndConditions s).turn = s.turn ∧
    (checkEndConditions s).castlingRights = s.castlingRights ∧
    (checkEndConditions s).enPassant = s.enPassant ∧
    (checkEndConditions s).halfMoveClock = s.halfMoveClock ∧
    (checkEndConditions s).fullMoveNumber = s.fullMoveNumber ∧
    (checkEndConditions s).whiteCaptured = s.whiteCaptured ∧
    (checkEndConditions s).blackCaptured = s.blackCaptured ∧
    (checkEndConditions s).history = s.history := by
  unfold checkEndConditions stopTimer
  by_cases h1 : (!legalMovesExist s) = true <;> simp only [h1, if_true, if_false] <;>
    split_ifs <;> simp

theorem applyPromotion_fields (s : GameState) (piece : Cell) (dst : Move) (color : Color)
    (promo : Option Piece) :
    (applyPromotion s piece dst color promo).turn = s.turn ∧
    (applyPromotion s piece dst color promo).castlingRights = s.castlingRights ∧
    (applyPromotion s piece dst color promo).enPassant = s.enPassant := by
  unfold applyPromotion
  cases promo with
  | none => exact ⟨rfl, rfl, rfl⟩
  | some pp => simp only; split_ifs <;> exact ⟨rfl, rfl, rfl⟩

theorem setEnPassant_fields (s : GameState) (piece : Cell) (frm : Square) (dst : Move) :
    (setEnPassant s piece frm dst).turn = s.turn ∧
    (setEnPassant s piece frm dst).castlingRights = s.castlingRights ∧
    (setEnPassant s piece frm dst).board = s.board := by
  unfold setEnPassant
  split_ifs <;> exact ⟨rfl, rfl, rfl⟩

theorem setHalfMoveClock_fields (s : GameState) (piece target : Cell) :
    (setHalfMoveClock s piece target).turn = s.turn ∧
    (setHalfMoveClock s piece target).castlingRights = s.castlingRights ∧
    (setHalfMoveClock s piece target).board = s.board ∧
    (setHalfMoveClock s piece target).enPassant = s.enPassant := by
  unfold setHalfMoveClock
  split_ifs <;> exact ⟨rfl, rfl, rfl, rfl⟩

theorem setFullMoveNumber_fields (s : GameState) (color : Color) :
    (setFullMoveNumber s color).turn = s.turn ∧
    (setFullMoveNumber s color).castlingRights = s.castlingRights ∧
    (setFullMoveNumber s color).board = s.board ∧
    (setFullMoveNumber s color).enPassant = s.enPassant := by
  unfold setFullMoveNumber
  split_ifs <;> exact ⟨rfl, rfl, rfl, rfl⟩

theorem recordCapture_fields (s : GameState) (target : Cell) (color : Color) :
    (recordCapture s target color).turn = s.turn ∧
    (recordCapture s target color).castlingRights = s.castlingRights ∧
    (recordCapture s target color).board = s.board ∧
    (recordCapture s target color).enPassant = s.enPassant := by
  unfold recordCapture
  cases target with
  | none => exact ⟨rfl, rfl, rfl, rfl⟩
  | some t => simp only; split_ifs <;> exact ⟨rfl, rfl, rfl, rfl⟩

/-- The game variables `makeMove` has written when it reaches `saveHistory()`. -/
theorem makeMove_applied (s : GameState) (frm : Square) (dst : Move) (promo : Option Piece)
    (h : awaitsPromotion s frm dst promo = false) :
    (makeMove s frm dst promo).castlingRights =
        updateCastlingRights s.castlingRights (s.board.get frm.r frm.c)
          (s.board.get dst.r dst.c) s.turn frm dst ∧
    (makeMove s frm dst promo).enPassant =
        (if lower (s.board.get frm.r frm.c) == some Piece.p && (dst.r - frm.r).natAbs == 2 then
          some ⟨(dst.r + frm.r) / 2, dst.c⟩ else none) ∧
    (makeMove s frm dst promo).turn = opponent s.turn ∧
    (makeMove s frm dst promo).board =
        (match promo with
         | some pp =>
           if lower (s.board.get frm.r frm.c) == some Piece.p
               && dst.r == (if s.turn = .w then 0 else 7) then
             (moveBoard s.board frm dst s.turn s.enPassant).set dst.r dst.c
               (if s.turn = .w then some pp.toUpperCase else some pp.toLowerCase)
           else moveBoard s.board frm dst s.turn s.enPassant
         | none => moveBoard s.board frm dst s.turn s.enPassant) := by
  unfold awaitsPromotion at h
  unfold makeMove
  simp only [h, Bool.false_eq_true, if_false]
  have hc := fun t => checkEndConditions_fields t
  have h1 := fun t p d c q => applyPromotion_fields t p d c q
  have h2 := fun t p f d => setEnPassant_fields t p f d
  have h3 := fun t p q => setHalfMoveClock_fields t p q
  have h4 := fun t c => setFullMoveNumber_fields t c
  have h5 := fun t p c => recordCapture_fields t p c
  refine ⟨?_, ?_, ?_, ?_⟩
  · simp only [startTimer, saveHistory, changeTurn, (hc _).2.2.1, (h5 _ _ _).2.1, (h4 _ _).2.1,
      (h3 _ _ _).2.1, (h2 _ _ _ _).2.1, (h1 _ _ _ _ _).2.1]
  · simp only [startTimer, saveHistory, changeTurn, (hc _).2.2.2.1, (h5 _ _ _).2.2.2,
      (h4 _ _).2.2.2, (h3 _ _ _).2.2.2]
    unfold setEnPassant
    split_ifs <;> rfl
  · simp only [startTimer, saveHistory, changeTurn, (hc _).2.1, (h5 _ _ _).1, (h4 _ _).1,
      (h3 _ _ _).1, (h2 _ _ _ _).1, (h1 _ _ _ _ _).1]
  · simp only [startTimer, saveHistory, changeTurn, (hc _).1, (h5 _ _ _).2.2.1, (h4 _ _).2.2.1,
      (h3 _ _ _).2.2.1, (h2 _ _ _ _).2.2]
    unfold applyPromotion
    cases promo with
    | none => rfl
    | some pp => simp only; split_ifs <;> rfl

/-! ### The en-passant target after an applied move -/

/-- C10: after a `makeMove` call that applies a move from `(fr, fc)` to `(tr, tc)`, the
en-passant target is `((fr + tr) / 2, tc)` when the moved piece is a pawn and
`|tr - fr| = 2` (`Int.natAbs`), and is absent in every other case, whatever it was before; in the first
case the target lies on the destination file, one row from the origin and one row from the
destination (the square passed over). -/
theorem makeMove_enPassant (s : GameState) (frm : Square) (dst : Move) (promo : Option Piece)
    (h : awaitsPromotion s frm dst promo = false) :
    (makeMove s frm dst promo).enPassant =
        (if lower (s.board.get frm.r frm.c) = some .p ∧ (dst.r - frm.r).natAbs = 2 then
          some ⟨(frm.r + dst.r) / 2, dst.c⟩ else none) ∧
    (lower (s.board.get frm.r frm.c) = some .p → (dst.r - frm.r).natAbs = 2 →
      ∃ e : Square, (makeMove s frm dst promo).enPassant = some e ∧ e.c = dst.c ∧
        (e.r - frm.r).natAbs = 1 ∧ (dst.r - e.r).natAbs = 1 ∧
        (dst.r - frm.r).natAbs = (dst.r - e.r).natAbs + (e.r - frm.r).natAbs) := by
  have hep := (makeMove_applied s frm dst promo h).2.1
  have heq : (makeMove s frm dst promo).enPassant =
      (if lower (s.board.get frm.r frm.c) = some .p ∧ (dst.r - frm.r).natAbs = 2 then
        some ⟨(frm.r + dst.r) / 2, dst.c⟩ else none) := by
    rw [hep]
    by_cases hp : lower (s.board.get frm.r frm.c) = some .p
    · by_cases h2 : (dst.r - frm.r).natAbs = 2
      · simp [hp, h2, add_comm]
      · simp [hp, h2]
    · simp [hp]
  refine ⟨heq, fun hp h2 => ?_⟩
  refine ⟨⟨(frm.r + dst.r) / 2, dst.c⟩, ?_, rfl, ?_, ?_, ?_⟩
  · rw [heq, if_pos ⟨hp, h2⟩]
  · show ((frm.r + dst.r) / 2 - frm.r).natAbs = 1
    omega
  · show (dst.r - (frm.r + dst.r) / 2).natAbs = 1
    omega
  · show (dst.r - frm.r).natAbs =
      (dst.r - (frm.r + dst.r) / 2).natAbs + ((frm.r + dst.r) / 2 - frm.r).natAbs
    omega

/-- C10, witness: after 1. e4 from the initial position the target is e3. -/
theorem makeMove_enPassant_witness :
    awaitsPromotion initGame ⟨6, 4⟩ ⟨4, 4, none⟩ none = false ∧
    (makeMove initGame ⟨6, 4⟩ ⟨4, 4, none⟩ none).enPassant = some ⟨5, 4⟩ :=
  ⟨by decide, (makeMove_enPassant initGame ⟨6, 4⟩ ⟨4, 4, none⟩ none (by decide)).1.trans (by decide)⟩

/-! ### Castling rights after an applied move -/

/-- C8: after 1. a4 b5 2. axb5 c6 3. bxc6 Bb7 4. cxb7 h6, all offered by `getValidMoves`,
White plays the offered bxa8.  The first `makeMove` call opens the promotion dialog; the
call made by the dialog button applies the move with Black as the side to move.  The black
rook stands on the a8 corner before that call, and Black's queenside right is still set
after it: the right is not false although the destination is the corresponding corner and
held that colour's rook. -/
theorem castling_right_kept_after_rook_capture :
    (playMoves initGame rookCaptureGame).isSome = true ∧
    (⟨0, 0, none⟩ : Move) ∈
      getValidMoves 1 1 (afterMoves rookCaptureGame).board (afterMoves rookCaptureGame).turn
        (afterMoves rookCaptureGame).castlingRights (afterMoves rookCaptureGame).enPassant ∧
    (makeMove (afterMoves rookCaptureGame) ⟨1, 1⟩ ⟨0, 0, none⟩ none).pendingPromotion =
      some (⟨1, 1⟩, ⟨0, 0, none⟩) ∧
    promotionButtonClick (makeMove (afterMoves rookCaptureGame) ⟨1, 1⟩ ⟨0, 0, none⟩ none) .q =
      makeMove
        { makeMove (afterMoves rookCaptureGame) ⟨1, 1⟩ ⟨0, 0, none⟩ none with
          pendingPromotion := none }
        ⟨1, 1⟩ ⟨0, 0, none⟩ (some .q) ∧
    awaitsPromotion
        { makeMove (afterMoves rookCaptureGame) ⟨1, 1⟩ ⟨0, 0, none⟩ none with
          pendingPromotion := none }
        ⟨1, 1⟩ ⟨0, 0, none⟩ (some .q) = false ∧
    ¬ ((promotionButtonClick
          (makeMove (afterMoves rookCaptureGame) ⟨1, 1⟩ ⟨0, 0, none⟩ none) .q).castlingRights.bQ
          = false ↔
        ((makeMove (afterMoves rookCaptureGame) ⟨1, 1⟩ ⟨0, 0, none⟩ none).castlingRights.bQ
            = false ∨
          (makeMove (afterMoves rookCaptureGame) ⟨1, 1⟩ ⟨0, 0, none⟩ none).board.get 1 1
            = some .k ∨
          ((makeMove (afterMoves rookCaptureGame) ⟨1, 1⟩ ⟨0, 0, none⟩ none).board.get 1 1
            = some .r ∧ (1 : Int) = 0 ∧ (1 : Int) = 0) ∨
          ((makeMove (afterMoves rookCaptureGame) ⟨1, 1⟩ ⟨0, 0, none⟩ none).board.get 0 0
            = some .r ∧ (0 : Int) = 0 ∧ (0 : Int) = 0))) := by
  refine ⟨by decide, by decide, by decide, by decide, by decide, by decide⟩

theorem updateCastlingRights_spec (cr : CastlingRights) (piece target : Cell) (turn : Color)
    (frm : Square) (dst : Move) :
    ((updateCastlingRights cr piece target turn frm dst).wK = false ↔
      (cr.wK = false ∨ (turn = .w ∧ lower piece = some .k) ∨
        (turn = .w ∧ lower piece = some .r ∧ frm.r = 7 ∧ frm.c = 7) ∨
        (turn = .b ∧ lower target = some .r ∧ dst.r = 7 ∧ dst.c = 7))) ∧
    ((updateCastlingRights cr piece target turn frm dst).wQ = false ↔
      (cr.wQ = false ∨ (turn = .w ∧ lower piece = some .k) ∨
        (turn = .w ∧ lower piece = some .r ∧ frm.r = 7 ∧ frm.c = 0) ∨
        (turn = .b ∧ lower target = some .r ∧ dst.r = 7 ∧ dst.c = 0))) ∧
    ((updateCastlingRights cr piece target turn frm dst).bK = false ↔
      (cr.bK = false ∨ (turn = .b ∧ lower piece = some .k) ∨
        (turn = .b ∧ lower piece = some .r ∧ frm.r = 0 ∧ frm.c = 7) ∨
        (turn = .w ∧ lower target = some .r ∧ dst.r = 0 ∧ dst.c = 7))) ∧
    ((updateCastlingRights cr piece target turn frm dst).bQ = false ↔
      (cr.bQ = false ∨ (turn = .b ∧ lower piece = some .k) ∨
        (turn = .b ∧ lower piece = some .r ∧ frm.r = 0 ∧ frm.c = 0) ∨
        (turn = .w ∧ lower target = some .r ∧ dst.r = 0 ∧ dst.c = 0))) := by
  have htarget : (target.isSome && lower target == some Piece.r) = (lower target == some Piece.r) := by
    cases target <;> simp [lower]
  unfold updateCastlingRights
  rw [htarget]
  rcases cr with ⟨wK, wQ, bK, bQ⟩
  cases turn <;> simp only [opponent, reduceCtorEq, if_true, if_false] <;>
    by_cases hk : lower piece = some Piece.k <;>
    by_cases hr : lower piece = some Piece.r <;>
    by_cases ht : lower target = some Piece.r <;>
    simp [hk, hr, ht] <;> split_ifs <;> simp_all

theorem own_piece_letter {p : Cell} {t : Color} (h : pieceColor p = some t) :
    ((t = .w ∧ lower p = some .k) ↔ p = some .K) ∧ ((t = .b ∧ lower p = some .k) ↔ p = some .k) ∧
    ((t = .w ∧ lower p = some .r) ↔ p = some .R) ∧ ((t = .b ∧ lower p = some .r) ↔ p = some .r) := by
  cases p with
  | none => simp [pieceColor] at h
  | some x =>
    cases x <;> cases t <;>
      simp [pieceColor, lower, Piece.toUpperCase, Piece.toLowerCase] at h ⊢

theorem enemy_rook_letter {p : Cell} {t : Color} (h : pieceColor p ≠ some t) :
    ((t = .b ∧ lower p = some .r) ↔ p = some .R) ∧ ((t = .w ∧ lower p = some .r) ↔ p = some .r) := by
  cases p with
  | none => simp [lower]
  | some x =>
    cases x <;> cases t <;>
      simp [pieceColor, lower, Piece.toUpperCase, Piece.toLowerCase] at h ⊢

/-- The castling rights after an applied move, in the terms the update block tests: the
side to move, the letter kind of the moved piece and of the piece on the destination. -/
theorem makeMove_castlingRights_by_turn (s : GameState) (frm : Square) (dst : Move)
    (promo : Option Piece) (h : awaitsPromotion s frm dst promo = false) :
    ((makeMove s frm dst promo).castlingRights.wK = false ↔
        (s.castlingRights.wK = false ∨
          (s.turn = .w ∧ lower (s.board.get frm.r frm.c) = some .k) ∨
          (s.turn = .w ∧ lower (s.board.get frm.r frm.c) = some .r ∧ frm.r = 7 ∧ frm.c = 7) ∨
          (s.turn = .b ∧ lower (s.board.get dst.r dst.c) = some .r ∧ dst.r = 7 ∧ dst.c = 7))) ∧
    ((makeMove s frm dst promo).castlingRights.wQ = false ↔
        (s.castlingRights.wQ = false ∨
          (s.turn = .w ∧ lower (s.board.get frm.r frm.c) = some .k) ∨
          (s.turn = .w ∧ lower (s.board.get frm.r frm.c) = some .r ∧ frm.r = 7 ∧ frm.c = 0) ∨
          (s.turn = .b ∧ lower (s.board.get dst.r dst.c) = some .r ∧ dst.r = 7 ∧ dst.c = 0))) ∧
    ((makeMove s frm dst promo).castlingRights.bK = false ↔
        (s.castlingRights.bK = false ∨
          (s.turn = .b ∧ lower (s.board.get frm.r frm.c) = some .k) ∨
          (s.turn = .b ∧ lower (s.board.get frm.r frm.c) = some .r ∧ frm.r = 0 ∧ frm.c = 7) ∨
          (s.turn = .w ∧ lower (s.board.get dst.r dst.c) = some .r ∧ dst.r = 0 ∧ dst.c = 7))) ∧
    ((makeMove s frm dst promo).castlingRights.bQ = false ↔
        (s.castlingRights.bQ = false ∨
          (s.turn = .b ∧ lower (s.board.get frm.r frm.c) = some .k) ∨
          (s.turn = .b ∧ lower (s.board.get frm.r frm.c) = some .r ∧ frm.r = 0 ∧ frm.c = 0) ∨
          (s.turn = .w ∧ lower (s.board.get dst.r dst.c) = some .r ∧ dst.r = 0 ∧ dst.c = 0))) := by
  have hcr := (makeMove_applied s frm dst promo h).1
  have hspec := updateCastlingRights_spec s.castlingRights (s.board.get frm.r frm.c)
    (s.board.get dst.r dst.c) s.turn frm dst
  rw [← hcr] at hspec
  exact hspec

/-- Castling rights in normal play: after a `makeMove` call that applies a move of a piece
of the side to move onto a square that holds no piece of the mover's colour, each of the four castling rights
is false exactly when it was false before, or the moved piece is that colour's king, or
the moved piece is that colour's rook and the origin is the corresponding corner (a-file
for queenside, h-file for kingside, on that colour's back rank), or the destination is the
corresponding corner and held a rook of that colour before the move. -/
theorem makeMove_castlingRights (s : GameState) (frm : Square) (dst : Move)
    (promo : Option Piece) (h : awaitsPromotion s frm dst promo = false)
    (hown : pieceColor (s.board.get frm.r frm.c) = some s.turn)
    (henemy : pieceColor (s.board.get dst.r dst.c) ≠ some s.turn) :
    ((makeMove s frm dst promo).castlingRights.wK = false ↔
      (s.castlingRights.wK = false ∨ s.board.get frm.r frm.c = some .K ∨
        (s.board.get frm.r frm.c = some .R ∧ frm.r = 7 ∧ frm.c = 7) ∨
        (s.board.get dst.r dst.c = some .R ∧ dst.r = 7 ∧ dst.c = 7))) ∧
    ((makeMove s frm dst promo).castlingRights.wQ = false ↔
      (s.castlingRights.wQ = false ∨ s.board.get frm.r frm.c = some .K ∨
        (s.board.get frm.r frm.c = some .R ∧ frm.r = 7 ∧ frm.c = 0) ∨
        (s.board.get dst.r dst.c = some .R ∧ dst.r = 7 ∧ dst.c = 0))) ∧
    ((makeMove s frm dst promo).castlingRights.bK = false ↔
      (s.castlingRights.bK = false ∨ s.board.get frm.r frm.c = some .k ∨
        (s.board.get frm.r frm.c = some .r ∧ frm.r = 0 ∧ frm.c = 7) ∨
        (s.board.get dst.r dst.c = some .r ∧ dst.r = 0 ∧ dst.c = 7))) ∧
    ((makeMove s frm dst promo).castlingRights.bQ = false ↔
      (s.castlingRights.bQ = false ∨ s.board.get frm.r frm.c = some .k ∨
        (s.board.get frm.r frm.c = some .r ∧ frm.r = 0 ∧ frm.c = 0) ∨
        (s.board.get dst.r dst.c = some .r ∧ dst.r = 0 ∧ dst.c = 0))) := by
  obtain ⟨hK, hk, hR, hr⟩ := own_piece_letter hown
  obtain ⟨heR, her⟩ := enemy_rook_letter henemy
  obtain ⟨h1, h2, h3, h4⟩ := makeMove_castlingRights_by_turn s frm dst promo h
  exact
    ⟨h1.trans (or_congr Iff.rfl (or_congr hK (or_congr
        (and_assoc.symm.trans (and_congr_left' hR)) (and_assoc.symm.trans (and_congr_left' heR))))),
     h2.trans (or_congr Iff.rfl (or_congr hK (or_congr
        (and_assoc.symm.trans (and_congr_left' hR)) (and_assoc.symm.trans (and_congr_left' heR))))),
     h3.trans (or_congr Iff.rfl (or_congr hk (or_congr
        (and_assoc.symm.trans (and_congr_left' hr)) (and_assoc.symm.trans (and_congr_left' her))))),
     h4.trans (or_congr Iff.rfl (or_congr hk (or_congr
        (and_assoc.symm.trans (and_congr_left' hr)) (and_assoc.symm.trans (and_congr_left' her)))))⟩

/-- An instance of `makeMove_castlingRights`: after 1. a4 b5 2. axb5 c6 3. bxc6 Bb7 4. cxb7
h6 the white rook moves from its a1 corner to a3, and White's queenside right is cleared. -/
theorem makeMove_castlingRights_witness :
    (awaitsPromotion (afterMoves rookCaptureGame) ⟨7, 0⟩ ⟨5, 0, none⟩ none = false ∧
      pieceColor ((afterMoves rookCaptureGame).board.get 7 0) =
        some (afterMoves rookCaptureGame).turn ∧
      pieceColor ((afterMoves rookCaptureGame).board.get 5 0) ≠
        some (afterMoves rookCaptureGame).turn) ∧
    ((makeMove (afterMoves rookCaptureGame) ⟨7, 0⟩ ⟨5, 0, none⟩ none).castlingRights.wQ = false ↔
      ((afterMoves rookCaptureGame).castlingRights.wQ = false ∨
        (afterMoves rookCaptureGame).board.get 7 0 = some .K ∨
        ((afterMoves rookCaptureGame).board.get 7 0 = some .R ∧ (7 : Int) = 7 ∧ (0 : Int) = 0) ∨
        ((afterMoves rookCaptureGame).board.get 5 0 = some .R ∧ (5 : Int) = 7 ∧ (0 : Int) = 0))) ∧
    (makeMove (afterMoves rookCaptureGame) ⟨7, 0⟩ ⟨5, 0, none⟩ none).castlingRights.wQ = false :=
  ⟨by decide,
   (makeMove_castlingRights (afterMoves rookCaptureGame) ⟨7, 0⟩ ⟨5, 0, none⟩ none
      (by decide) (by decide) (by decide)).2.1,
   by decide⟩

/-! ### Applying a castle-tagged move -/

theorem Board.get_set_of_inRange {b : Board} {r c : Int} (h : b.inRange r c) (v : Cell)
    (r2 c2 : Int) :
    (b.set r c v).get r2 c2 = if r2 = r ∧ c2 = c then v else b.get r2 c2 := by
  rw [Board.get_set]
  by_cases h2 : r2 = r ∧ c2 = c
  · rw [if_pos ⟨h2.1, h2.2, h⟩, if_pos h2]
  · rw [if_neg h2, if_neg (fun h3 => h2 ⟨h3.1, h3.2.1⟩)]

theorem Board.inRange_of_le {b : Board} {r c c2 : Int} (h : b.inRange r c) (h0 : 0 ≤ c2)
    (hle : c2 ≤ c) : b.inRange r c2 := by
  obtain ⟨h1, h2, h3⟩ := h
  exact ⟨h1, h0, by omega⟩

/-- The four writes of a castling move, read back cell by cell. -/
theorem castle_writes_get (b : Board) (row kd rd rc : Int) (king : Cell)
    (h4 : b.inRange row 4) (hkd : b.inRange row kd) (hrd : b.inRange row rd)
    (hrc : b.inRange row rc) (d1 : kd ≠ 4) (d2 : rd ≠ 4) (d3 : rc ≠ 4) (d4 : kd ≠ rd)
    (d5 : kd ≠ rc) (d6 : rd ≠ rc) (r c : Int) :
    ((((b.set row kd king).set row 4 none).set row rd
        (((b.set row kd king).set row 4 none).get row rc)).set row rc none).get r c =
      if r = row ∧ c = kd then king
      else if r = row ∧ c = rd then b.get row rc
      else if r = row ∧ (c = 4 ∨ c = rc) then none
      else b.get r c := by
  have i1 : (b.set row kd king).inRange row 4 := (Board.inRange_set _ _ _ _ _ _).2 h4
  have i2 : ((b.set row kd king).set row 4 none).inRange row rd :=
    (Board.inRange_set _ _ _ _ _ _).2 ((Board.inRange_set _ _ _ _ _ _).2 hrd)
  have i3 : (((b.set row kd king).set row 4 none).set row rd
      (((b.set row kd king).set row 4 none).get row rc)).inRange row rc :=
    (Board.inRange_set _ _ _ _ _ _).2
      ((Board.inRange_set _ _ _ _ _ _).2 ((Board.inRange_set _ _ _ _ _ _).2 hrc))
  rw [Board.get_set_of_inRange i3, Board.get_set_of_inRange i2, Board.get_set_of_inRange i1,
    Board.get_set_of_inRange i1, Board.get_set_of_inRange hkd, Board.get_set_of_inRange hkd]
  by_cases hr : r = row
  · subst hr
    by_cases c1 : c = kd
    · subst c1; simp [d1, d4, d5]
    · by_cases c2 : c = rd
      · subst c2; simp [d2, d3, d6, Ne.symm d5, Ne.symm d3, c1]
      · by_cases c3 : c = rc
        · subst c3; simp [c1, c2]
        · by_cases c4 : c = 4
          · subst c4; simp [Ne.symm d1, Ne.symm d2, Ne.symm d3]
          · simp [c1, c2, c3, c4]
  · simp [hr]

/-- A castle-tagged move returned for the side to move is the tagged destination on that
side's back rank. -/
theorem castle_tagged_move_eq {r c : Int} {b : Board} {turn : Color} {castling : CastlingRights}
    {ep : Option Square} {m : Move} {tag : CastleTag}
    (hm : m ∈ getValidMoves r c b turn castling ep) (htag : m.castle = some tag) :
    m = ⟨homeRow turn, kingCastledCol tag, some tag⟩ ∧ lower (b.get r c) = some .k := by
  have hcand : m ∈ pseudoLegalMoves r c b turn castling ep :=
    ((mem_getValidMoves_iff r c b turn castling ep m).1 hm).1
  unfold pseudoLegalMoves at hcand
  split_ifs at hcand with hg
  · simp at hcand
  · obtain ⟨hk, hcm⟩ := mem_castleMoves_of_mem_candidateMoves hcand htag
    rcases (castleMoves_spec hcm).2 with ⟨rfl, -⟩ | ⟨rfl, -⟩
    · simp only [Option.some.injEq] at htag
      subst htag
      exact ⟨rfl, hk⟩
    · simp only [Option.some.injEq] at htag
      subst htag
      exact ⟨rfl, hk⟩

theorem moveBoard_castle (b : Board) (color : Color) (tag : CastleTag) (ep : Option Square)
    (hking : b.get (homeRow color) 4 = some (kingLetter color))
    (hrook : b.get (homeRow color) (rookCornerCol tag) = some (rookLetter color)) (r c : Int) :
    (moveBoard b ⟨homeRow color, 4⟩ ⟨homeRow color, kingCastledCol tag, some tag⟩ color ep).get r c =
      if r = homeRow color ∧ c = kingCastledCol tag then some (kingLetter color)
      else if r = homeRow color ∧ c = rookCastledCol tag then some (rookLetter color)
      else if r = homeRow color ∧ (c = 4 ∨ c = rookCornerCol tag) then none
      else b.get r c := by
  have h4 : b.inRange (homeRow color) 4 := Board.inRange_of_get_eq_some hking
  have hrc : b.inRange (homeRow color) (rookCornerCol tag) := Board.inRange_of_get_eq_some hrook
  have hnp : (lower (some (kingLetter color)) == some Piece.p) = false := by
    cases color <;> decide
  have hep : ∀ (b2 : Board) (row col : Int),
      (match ep with
        | some e =>
          if (lower (some (kingLetter color)) == some Piece.p && row == e.r && col == e.c) = true then
            if color = Color.w then b2.set (row + 1) col none else b2.set (row - 1) col none
          else b2
        | none => b2) = b2 := by
    intro b2 row col
    cases ep <;> simp [hnp]
  unfold moveBoard
  simp only [hking, hep]
  cases tag
  · have hkd : b.inRange (homeRow color) 6 :=
      Board.inRange_of_le hrc (by decide) (by simp [rookCornerCol])
    have hrd : b.inRange (homeRow color) 5 :=
      Board.inRange_of_le hrc (by decide) (by simp [rookCornerCol])
    have key := castle_writes_get b (homeRow color) 6 5 7 (some (kingLetter color)) h4 hkd hrd hrc
      (by decide) (by decide) (by decide) (by decide) (by decide) (by decide) r c
    simp only [rookCornerCol] at hrook
    rw [hrook] at key
    cases color
    · simpa [homeRow, kingCastledCol, rookCastledCol, rookCornerCol] using key
    · simpa [homeRow, kingCastledCol, rookCastledCol, rookCornerCol] using key
  · have hkd : b.inRange (homeRow color) 2 := Board.inRange_of_le h4 (by decide) (by decide)
    have hrd : b.inRange (homeRow color) 3 := Board.inRange_of_le h4 (by decide) (by decide)
    have key := castle_writes_get b (homeRow color) 2 3 0 (some (kingLetter color)) h4 hkd hrd hrc
      (by decide) (by decide) (by decide) (by decide) (by decide) (by decide) r c
    simp only [rookCornerCol] at hrook
    rw [hrook] at key
    cases color
    · simpa [homeRow, kingCastledCol, rookCastledCol, rookCornerCol] using key
    · simpa [homeRow, kingCastledCol, rookCastledCol, rookCornerCol] using key

/-- C7: when the king of the side to move is on its home square, the corresponding rook
on its corner, and `getValidMoves` returns a castle-tagged move for that king, `makeMove`
applied to that move puts the king on its castled square (g-file for `K`, c-file for `Q`),
the rook on the square the king passed over (f-file for `K`, d-file for `Q`), empties the
king's home square and the rook's corner, and changes no other cell of the board. -/
theorem makeMove_castle_board (s : GameState) (m : Move) (tag : CastleTag)
    (hking : s.board.get (homeRow s.turn) 4 = some (kingLetter s.turn))
    (hrook : s.board.get (homeRow s.turn) (rookCornerCol tag) = some (rookLetter s.turn))
    (hm : m ∈ getValidMoves (homeRow s.turn) 4 s.board s.turn s.castlingRights s.enPassant)
    (htag : m.castle = some tag) :
    (makeMove s ⟨homeRow s.turn, 4⟩ m none).board.get (homeRow s.turn) (kingCastledCol tag)
      = some (kingLetter s.turn) ∧
    (makeMove s ⟨homeRow s.turn, 4⟩ m none).board.get (homeRow s.turn) (rookCastledCol tag)
      = some (rookLetter s.turn) ∧
    (makeMove s ⟨homeRow s.turn, 4⟩ m none).board.get (homeRow s.turn) 4 = none ∧
    (makeMove s ⟨homeRow s.turn, 4⟩ m none).board.get (homeRow s.turn) (rookCornerCol tag) = none ∧
    ∀ r c : Int,
      ¬ (r = homeRow s.turn ∧
          (c = 4 ∨ c = kingCastledCol tag ∨ c = rookCastledCol tag ∨ c = rookCornerCol tag)) →
      (makeMove s ⟨homeRow s.turn, 4⟩ m none).board.get r c = s.board.get r c := by
  obtain ⟨rfl, hk⟩ := castle_tagged_move_eq hm htag
  have hawait : awaitsPromotion s ⟨homeRow s.turn, 4⟩
      ⟨homeRow s.turn, kingCastledCol tag, some tag⟩ none = false := by
    unfold awaitsPromotion
    simp [hk]
  have hboard := (makeMove_applied s _ _ none hawait).2.2.2
  simp only at hboard
  have hget := fun r c => moveBoard_castle s.board s.turn tag s.enPassant hking hrook r c
  rw [hboard]
  refine ⟨?_, ?_, ?_, ?_, ?_⟩
  · rw [hget]; simp
  · rw [hget]; cases tag <;> simp [kingCastledCol, rookCastledCol]
  · rw [hget]; cases tag <;> simp [kingCastledCol, rookCastledCol]
  · rw [hget]; cases tag <;> simp [kingCastledCol, rookCastledCol, rookCornerCol]
  · intro r c hrc
    rw [hget]
    by_cases hr : r = homeRow s.turn
    · have hc : ¬ (c = 4 ∨ c = kingCastledCol tag ∨ c = rookCastledCol tag ∨ c = rookCornerCol tag) :=
        fun h => hrc ⟨hr, h⟩
      simp only [not_or] at hc
      simp [hc.1, hc.2.1, hc.2.2.1, hc.2.2.2]
    · simp [hr]

/-- C7, witness: White castles kingside on `castleBoard`. -/
theorem makeMove_castle_board_witness :
    (castleBoard.get (homeRow .w) 4 = some (kingLetter .w) ∧
      castleBoard.get (homeRow .w) (rookCornerCol .K) = some (rookLetter .w) ∧
      (⟨7, 6, some .K⟩ : Move) ∈
        getValidMoves (homeRow .w) 4 castleBoard .w ⟨true, true, true, true⟩ none) ∧
    (makeMove { initGame with board := castleBoard } ⟨homeRow .w, 4⟩ ⟨7, 6, some .K⟩ none).board =
      [ [none, none, none, none, some .k, none, none, none],
        [some .p, some .p, some .p, some .p, some .p, some .p, some .p, some .p],
        [none, none, none, none, none, none, none, none],
        [none, none, none, none, none, none, none, none],
        [none, none, none, none, none, none, none, none],
        [none, none, none, none, none, none, none, none],
        [some .P, some .P, some .P, some .P, some .P, some .P, some .P, some .P],
        [some .R, none, none, none, none, some .R, some .K, none] ] ∧
    (makeMove { initGame with board := castleBoard } ⟨homeRow .w, 4⟩ ⟨7, 6, some .K⟩ none).board.get
        (homeRow .w) (kingCastledCol .K) = some (kingLetter .w) :=
  ⟨by decide, by decide,
   (makeMove_castle_board { initGame with board := castleBoard } ⟨7, 6, some .K⟩ .K
      (by decide) (by decide) (by decide) rfl).1⟩

/-! ### Evaluations of the code at concrete positions and games -/

/-- C2, evaluation: on `pawnAttackBoard` the white pawn on e4 may capture on d5
(`getValidMoves` offers it), yet `isSquareAttacked` reports d5 as not attacked by White;
and it reports d3 as attacked by White although no white piece is offered a move there. -/
theorem isSquareAttacked_pawn_rows_swapped :
    ((⟨3, 3, none⟩ : Move) ∈
        getValidMoves 4 4 pawnAttackBoard .w ⟨false, false, false, false⟩ none ∧
      isSquareAttacked 3 3 .w pawnAttackBoard = false) ∧
    (isSquareAttacked 5 3 .w pawnAttackBoard = true ∧
      ∀ r ∈ List.range 8, ∀ c ∈ List.range 8,
        (⟨5, 3, none⟩ : Move) ∉
          getValidMoves r c pawnAttackBoard .w ⟨false, false, false, false⟩ none) := by
  refine ⟨⟨by decide, by decide⟩, by decide, by decide⟩

/-- C3, evaluation: every move of 1. e4 d5 2. Ke2 d4 3. Ke3 dxe3 is offered by
`getValidMoves` to the side to move, and after it the board holds no white king. -/
theorem king_captured_in_offered_play :
    (playMoves initGame kingCaptureGame).isSome = true ∧
    countPiece (afterMoves kingCaptureGame).board .K = 0 ∧
    countPiece (afterMoves kingCaptureGame).board .k = 1 ∧
    findKing .w (afterMoves kingCaptureGame).board = none := by
  refine ⟨by decide, by decide, by decide, by decide⟩

/-- C4, evaluation: after 1. a4 b5 2. axb5 a6 3. bxa6 e6 4. a7 Ke7 the move axb8 is
offered to White; `makeMove` without a promotion piece records the pending promotion but
leaves the game variables of the position before Black's last move (Black to move, king
back on e8), not those immediately before the call. -/
theorem promotion_request_rewinds_a_move :
    (playMoves initGame promotionGame).isSome = true ∧
    ((afterMoves promotionGame).turn = .w ∧
      (afterMoves promotionGame).board.get 1 0 = some .P ∧
      (⟨0, 1, none⟩ : Move) ∈
        getValidMoves 1 0 (afterMoves promotionGame).board (afterMoves promotionGame).turn
          (afterMoves promotionGame).castlingRights (afterMoves promotionGame).enPassant ∧
      awaitsPromotion (afterMoves promotionGame) ⟨1, 0⟩ ⟨0, 1, none⟩ none = true) ∧
    (makeMove (afterMoves promotionGame) ⟨1, 0⟩ ⟨0, 1, none⟩ none).pendingPromotion =
      some (⟨1, 0⟩, ⟨0, 1, none⟩) ∧
    ((makeMove (afterMoves promotionGame) ⟨1, 0⟩ ⟨0, 1, none⟩ none).turn = .b ∧
      (makeMove (afterMoves promotionGame) ⟨1, 0⟩ ⟨0, 1, none⟩ none).board ≠
        (afterMoves promotionGame).board ∧
      (makeMove (afterMoves promotionGame) ⟨1, 0⟩ ⟨0, 1, none⟩ none).castlingRights ≠
        (afterMoves promotionGame).castlingRights ∧
      (makeMove (afterMoves promotionGame) ⟨1, 0⟩ ⟨0, 1, none⟩ none).halfMoveClock ≠
        (afterMoves promotionGame).halfMoveClock ∧
      (makeMove (afterMoves promotionGame) ⟨1, 0⟩ ⟨0, 1, none⟩ none).fullMoveNumber ≠
        (afterMoves promotionGame).fullMoveNumber) ∧
    ((afterMoves promotionGame).board.get 1 4 = some .k ∧
      (makeMove (afterMoves promotionGame) ⟨1, 0⟩ ⟨0, 1, none⟩ none).board.get 1 4 = none ∧
      (makeMove (afterMoves promotionGame) ⟨1, 0⟩ ⟨0, 1, none⟩ none).board.get 0 4 = some .k) := by
  refine ⟨by decide, by decide, by decide, by decide, by decide⟩

/-- C5, evaluation: in the same game, the two calls the promotion dialog performs
(`makeMove` without a piece, then the button handler with the queen) leave the white pawn
`P` on b8, not a queen, with White to move again. -/
theorem promotion_dialog_leaves_pawn :
    (playMoves initGame promotionGame).isSome = true ∧
    (promotionButtonClick
        (makeMove (afterMoves promotionGame) ⟨1, 0⟩ ⟨0, 1, none⟩ none) .q).board.get 0 1
      = some .P ∧
    (promotionButtonClick
        (makeMove (afterMoves promotionGame) ⟨1, 0⟩ ⟨0, 1, none⟩ none) .Q).board.get 0 1
      = some .P ∧
    (promotionButtonClick
        (makeMove (afterMoves promotionGame) ⟨1, 0⟩ ⟨0, 1, none⟩ none) .q).turn = .w ∧
    countPiece (promotionButtonClick
        (makeMove (afterMoves promotionGame) ⟨1, 0⟩ ⟨0, 1, none⟩ none) .q).board .Q = 1 := by
  refine ⟨by decide, by decide, by decide, by decide, by decide⟩

/-- C9, evaluation: in the same game Black has lost both castling rights by 4... Ke7; the
`makeMove` call for axb8 that ends awaiting a promotion choice sets both of them again. -/
theorem castling_rights_regained_on_promotion_request :
    (playMoves initGame promotionGame).isSome = true ∧
    ((afterMoves promotionGame).castlingRights.bK = false ∧
      (afterMoves promotionGame).castlingRights.bQ = false) ∧
    ((makeMove (afterMoves promotionGame) ⟨1, 0⟩ ⟨0, 1, none⟩ none).castlingRights.bK = true ∧
      (makeMove (afterMoves promotionGame) ⟨1, 0⟩ ⟨0, 1, none⟩ none).castlingRights.bQ = true) := by
  refine ⟨by decide, by decide, by decide⟩

/-! ### Clocks, capture lists and history after an applied move -/

theorem applyPromotion_counters (s : GameState) (piece : Cell) (dst : Move) (color : Color)
    (promo : Option Piece) :
    (applyPromotion s piece dst color promo).halfMoveClock = s.halfMoveClock ∧
    (applyPromotion s piece dst color promo).fullMoveNumber = s.fullMoveNumber ∧
    (applyPromotion s piece dst color promo).whiteCaptured = s.whiteCaptured ∧
    (applyPromotion s piece dst color promo).blackCaptured = s.blackCaptured ∧
    (applyPromotion s piece dst color promo).history = s.history := by
  unfold applyPromotion
  cases promo with
  | none => exact ⟨rfl, rfl, rfl, rfl, rfl⟩
  | some pp => simp only; split_ifs <;> exact ⟨rfl, rfl, rfl, rfl, rfl⟩

theorem setEnPassant_counters (s : GameState) (piece : Cell) (frm : Square) (dst : Move) :
    (setEnPassant s piece frm dst).halfMoveClock = s.halfMoveClock ∧
    (setEnPassant s piece frm dst).fullMoveNumber = s.fullMoveNumber ∧
    (setEnPassant s piece frm dst).whiteCaptured = s.whiteCaptured ∧
    (setEnPassant s piece frm dst).blackCaptured = s.blackCaptured ∧
    (setEnPassant s piece frm dst).history = s.history := by
  unfold setEnPassant
  split_ifs <;> exact ⟨rfl, rfl, rfl, rfl, rfl⟩

theorem setHalfMoveClock_counters (s : GameState) (piece target : Cell) :
    (setHalfMoveClock s piece target).halfMoveClock =
      (if lower piece == some Piece.p || target.isSome then 0 else s.halfMoveClock + 1) ∧
    (setHalfMoveClock s piece target).fullMoveNumber = s.fullMoveNumber ∧
    (setHalfMoveClock s piece target).whiteCaptured = s.whiteCaptured ∧
    (setHalfMoveClock s piece target).blackCaptured = s.blackCaptured ∧
    (setHalfMoveClock s piece target).history = s.history := by
  unfold setHalfMoveClock
  split_ifs <;> exact ⟨rfl, rfl, rfl, rfl, rfl⟩

theorem setFullMoveNumber_counters (s : GameState) (color : Color) :
    (setFullMoveNumber s color).halfMoveClock = s.halfMoveClock ∧
    (setFullMoveNumber s color).fullMoveNumber =
      (if color = Color.b then s.fullMoveNumber + 1 else s.fullMoveNumber) ∧
    (setFullMoveNumber s color).whiteCaptured = s.whiteCaptured ∧
    (setFullMoveNumber s color).blackCaptured = s.blackCaptured ∧
    (setFullMoveNumber s color).history = s.history := by
  unfold setFullMoveNumber
  split_ifs <;> exact ⟨rfl, rfl, rfl, rfl, rfl⟩

theorem recordCapture_counters (s : GameState) (target : Cell) (color : Color) :
    (recordCapture s target color).halfMoveClock = s.halfMoveClock ∧
    (recordCapture s target color).fullMoveNumber = s.fullMoveNumber ∧
    (recordCapture s target color).whiteCaptured =
      (match target with
       | some t => if color = Color.w then s.whiteCaptured else s.whiteCaptured ++ [t]
       | none => s.whiteCaptured) ∧
    (recordCapture s target color).blackCaptured =
      (match target with
       | some t => if color = Color.w then s.blackCaptured ++ [t] else s.blackCaptured
       | none => s.blackCaptured) ∧
    (recordCapture s target color).history = s.history := by
  unfold recordCapture
  cases target with
  | none => exact ⟨rfl, rfl, rfl, rfl, rfl⟩
  | some t => simp only; split_ifs <;> exact ⟨rfl, rfl, rfl, rfl, rfl⟩

/-- The clocks and capture lists `makeMove` has written when it reaches `saveHistory()`. -/
theorem makeMove_applied_counters (s : GameState) (frm : Square) (dst : Move)
    (promo : Option Piece) (h : awaitsPromotion s frm dst promo = false) :
    (makeMove s frm dst promo).halfMoveClock =
        (if lower (s.board.get frm.r frm.c) == some Piece.p || (s.board.get dst.r dst.c).isSome
          then 0 else s.halfMoveClock + 1) ∧
    (makeMove s frm dst promo).fullMoveNumber =
        (if s.turn = Color.b then s.fullMoveNumber + 1 else s.fullMoveNumber) ∧
    (makeMove s frm dst promo).whiteCaptured =
        (match s.board.get dst.r dst.c with
         | some t => if s.turn = Color.w then s.whiteCaptured else s.whiteCaptured ++ [t]
         | none => s.whiteCaptured) ∧
    (makeMove s frm dst promo).blackCaptured =
        (match s.board.get dst.r dst.c with
         | some t => if s.turn = Color.w then s.blackCaptured ++ [t] else s.blackCaptured
         | none => s.blackCaptured) := by
  unfold awaitsPromotion at h
  unfold makeMove
  simp only [h, Bool.false_eq_true, if_false]
  have hc := fun t => checkEndConditions_fields t
  have h1 := fun t p d c q => applyPromotion_counters t p d c q
  have h2 := fun t p f d => setEnPassant_counters t p f d
  have h3 := fun t p q => setHalfMoveClock_counters t p q
  have h4 := fun t c => setFullMoveNumber_counters t c
  have h5 := fun t p c => recordCapture_counters t p c
  refine ⟨?_, ?_, ?_, ?_⟩
  · simp only [startTimer, saveHistory, changeTurn, (hc _).2.2.2.2.1, (h5 _ _ _).1, (h4 _ _).1,
      (h3 _ _ _).1, (h2 _ _ _ _).1, (h1 _ _ _ _ _).1]
  · simp only [startTimer, saveHistory, changeTurn, (hc _).2.2.2.2.2.1, (h5 _ _ _).2.1,
      (h4 _ _).2.1, (h3 _ _ _).2.1, (h2 _ _ _ _).2.1, (h1 _ _ _ _ _).2.1]
  · simp only [startTimer, saveHistory, changeTurn, (hc _).2.2.2.2.2.2.1, (h5 _ _ _).2.2.1,
      (h4 _ _).2.2.1, (h3 _ _ _).2.2.1, (h2 _ _ _ _).2.2.1, (h1 _ _ _ _ _).2.2.1]
  · simp only [startTimer, saveHistory, changeTurn, (hc _).2.2.2.2.2.2.2.1, (h5 _ _ _).2.2.2.1,
      (h4 _ _).2.2.2.1, (h3 _ _ _).2.2.2.1, (h2 _ _ _ _).2.2.2.1, (h1 _ _ _ _ _).2.2.2.1]

/-- C12: after a `makeMove` call that applies a move, the half-move clock is 0 if the
moved piece is a pawn or the destination held a piece (a capture), and its previous value
plus 1 otherwise; an en-passant capture is a pawn move, so it resets the clock too, and
the clock is 0 after the call only in those cases. -/
theorem makeMove_halfMoveClock (s : GameState) (frm : Square) (dst : Move)
    (promo : Option Piece) (h : awaitsPromotion s frm dst promo = false) :
    (makeMove s frm dst promo).halfMoveClock =
        (if lower (s.board.get frm.r frm.c) = some .p ∨ (s.board.get dst.r dst.c) ≠ none
          then 0 else s.halfMoveClock + 1) ∧
    (lower (s.board.get frm.r frm.c) = some .p → s.enPassant = some ⟨dst.r, dst.c⟩ →
      (makeMove s frm dst promo).halfMoveClock = 0) ∧
    ((makeMove s frm dst promo).halfMoveClock = 0 ↔
      (lower (s.board.get frm.r frm.c) = some .p ∨ (s.board.get dst.r dst.c) ≠ none)) := by
  have hc := (makeMove_applied_counters s frm dst promo h).1
  have heq : (makeMove s frm dst promo).halfMoveClock =
      (if lower (s.board.get frm.r frm.c) = some .p ∨ (s.board.get dst.r dst.c) ≠ none
        then 0 else s.halfMoveClock + 1) := by
    rw [hc]
    by_cases hp : lower (s.board.get frm.r frm.c) = some .p
    · simp [hp]
    · cases ht : s.board.get dst.r dst.c <;> simp [hp]
  refine ⟨heq, fun hp _ => ?_, ?_⟩
  · rw [heq, if_pos (Or.inl hp)]
  · rw [heq]
    split_ifs with hcase
    · simp [hcase]
    · simp [hcase]

/-- C12, witness: the knight move 1. Nf3 from the initial position raises the clock to 1. -/
theorem makeMove_halfMoveClock_witness :
    awaitsPromotion initGame ⟨7, 6⟩ ⟨5, 5, none⟩ none = false ∧
    (makeMove initGame ⟨7, 6⟩ ⟨5, 5, none⟩ none).halfMoveClock = 1 :=
  ⟨by decide, (makeMove_halfMoveClock initGame ⟨7, 6⟩ ⟨5, 5, none⟩ none (by decide)).1.trans
    (by decide)⟩

/-- C15: a `makeMove` call that applies a move flips the side to move once (afterwards it
is the opponent of the side to move before the call, hence different from it), and the
full-move number grows by 1 exactly when the side that moved was Black. -/
theorem makeMove_turn_fullMoveNumber (s : GameState) (frm : Square) (dst : Move)
    (promo : Option Piece) (h : awaitsPromotion s frm dst promo = false) :
    (makeMove s frm dst promo).turn = opponent s.turn ∧
    (makeMove s frm dst promo).turn ≠ s.turn ∧
    (s.turn = .b → (makeMove s frm dst promo).fullMoveNumber = s.fullMoveNumber + 1) ∧
    (s.turn = .w → (makeMove s frm dst promo).fullMoveNumber = s.fullMoveNumber) := by
  have ht := (makeMove_applied s frm dst promo h).2.2.1
  have hf := (makeMove_applied_counters s frm dst promo h).2.1
  refine ⟨ht, ?_, fun hb => ?_, fun hw => ?_⟩
  · rw [ht]; cases s.turn <;> decide
  · rw [hf, if_pos hb]
  · rw [hf, if_neg (by rw [hw]; decide)]

/-- C15, witness: 1. e4 from the initial position hands the move to Black and keeps the
full-move number at 1. -/
theorem makeMove_turn_fullMoveNumber_witness :
    awaitsPromotion initGame ⟨6, 4⟩ ⟨4, 4, none⟩ none = false ∧
    (makeMove initGame ⟨6, 4⟩ ⟨4, 4, none⟩ none).turn = .b ∧
    (makeMove initGame ⟨6, 4⟩ ⟨4, 4, none⟩ none).fullMoveNumber = 1 :=
  ⟨by decide,
   (makeMove_turn_fullMoveNumber initGame ⟨6, 4⟩ ⟨4, 4, none⟩ none (by decide)).1.trans
     (by decide),
   ((makeMove_turn_fullMoveNumber initGame ⟨6, 4⟩ ⟨4, 4, none⟩ none (by decide)).2.2.2
     (by decide)).trans (by decide)⟩
/-! ### The projection `makeMoveOnBoard` and the board written by `makeMove` -/

theorem pieceColor_of_mem_getValidMoves {r c : Int} {b : Board} {turn : Color}
    {castling : CastlingRights} {ep : Option Square} {m : Move}
    (hm : m ∈ getValidMoves r c b turn castling ep) : pieceColor (b.get r c) = some turn := by
  simp only [getValidMoves] at hm
  split_ifs at hm with hg
  · simp at hm
  · simp only [Bool.or_eq_true, bne_iff_ne, ne_eq, not_or, not_not] at hg
    exact hg.2

theorem pawn_iff_pawnLetter {p : Cell} {t : Color} (h : pieceColor p = some t) :
    lower p = some .p ↔ p = some (pawnLetter t) := by
  cases p with
  | none => simp [pieceColor] at h
  | some x =>
    cases x <;> cases t <;>
      simp [pieceColor, lower, pawnLetter, Piece.toUpperCase, Piece.toLowerCase] at h ⊢

theorem moveBoard_eq_makeMoveOnBoard (b : Board) (frm : Square) (dst : Move) (color : Color)
    (castling : CastlingRights) (ep : Option Square) :
    moveBoard b frm dst color ep = makeMoveOnBoard b frm dst color castling ep := by
  unfold moveBoard makeMoveOnBoard
  simp only [cloneBoard_eq]

/-- C18: for a move `m` that `getValidMoves` returns for the piece on `frm`, if it is not
a pawn of the side to move reaching its farthest rank, the board after `makeMove(frm, m)`
is the projection `makeMoveOnBoard` computed on the state before the call; if it is, and
a promotion piece is supplied, the two boards agree on every cell other than the
destination. -/
theorem makeMove_board_eq_projection (s : GameState) (frm : Square) (m : Move)
    (hm : m ∈ getValidMoves frm.r frm.c s.board s.turn s.castlingRights s.enPassant) :
    (¬ (s.board.get frm.r frm.c = some (pawnLetter s.turn) ∧ m.r = promotionRow s.turn) →
      (makeMove s frm m none).board =
        makeMoveOnBoard s.board frm m s.turn s.castlingRights s.enPassant) ∧
    (∀ pp : Piece, s.board.get frm.r frm.c = some (pawnLetter s.turn) → m.r = promotionRow s.turn →
      ∀ r c : Int, ¬ (r = m.r ∧ c = m.c) →
        (makeMove s frm m (some pp)).board.get r c =
          (makeMoveOnBoard s.board frm m s.turn s.castlingRights s.enPassant).get r c) := by
  have hcol := pieceColor_of_mem_getValidMoves hm
  have hpawn := pawn_iff_pawnLetter hcol
  constructor
  · intro hnot
    have hawait : awaitsPromotion s frm m none = false := by
      unfold awaitsPromotion
      by_cases hp : lower (s.board.get frm.r frm.c) = some .p
      · have hrow : ¬ m.r = promotionRow s.turn := fun hr => hnot ⟨hpawn.1 hp, hr⟩
        unfold promotionRow at hrow
        simp [hp, hrow]
      · simp [hp]
    have hb := (makeMove_applied s frm m none hawait).2.2.2
    simp only at hb
    rw [hb, moveBoard_eq_makeMoveOnBoard]
  · intro pp hp hrow r c hrc
    have hawait : awaitsPromotion s frm m (some pp) = false := by
      unfold awaitsPromotion
      simp
    have hb := (makeMove_applied s frm m (some pp) hawait).2.2.2
    simp only at hb
    rw [hb, ← moveBoard_eq_makeMoveOnBoard s.board frm m s.turn s.castlingRights s.enPassant]
    split_ifs <;>
      first
        | rfl
        | rw [Board.get_set, if_neg (fun h3 => hrc ⟨h3.1, h3.2.1⟩)]

/-- C18, witness: 1. e4 from the initial position. -/
theorem makeMove_board_eq_projection_witness :
    (⟨4, 4, none⟩ : Move) ∈
      getValidMoves 6 4 initGame.board initGame.turn initGame.castlingRights initGame.enPassant ∧
    ¬ (initGame.board.get 6 4 = some (pawnLetter initGame.turn) ∧
        (4 : Int) = promotionRow initGame.turn) ∧
    (makeMove initGame ⟨6, 4⟩ ⟨4, 4, none⟩ none).board =
      makeMoveOnBoard initGame.board ⟨6, 4⟩ ⟨4, 4, none⟩ initGame.turn initGame.castlingRights
        initGame.enPassant :=
  ⟨by decide, by decide,
   (makeMove_board_eq_projection initGame ⟨6, 4⟩ ⟨4, 4, none⟩ (by decide)).1 (by decide)⟩
/-! ### What `checkEndConditions` reports -/

theorem checkEndConditions_alerts (s : GameState) :
    (checkEndConditions s).alerts =
      s.alerts ++
        ((if legalMovesExist s then []
          else [if isInCheck s.turn s.board then Alert.checkmate s.turn else Alert.stalemate]) ++
         (if s.halfMoveClock ≥ 100 then [Alert.fiftyMove] else [])) := by
  unfold checkEndConditions stopTimer
  by_cases h1 : legalMovesExist s = true <;>
    by_cases h2 : s.halfMoveClock ≥ 100 <;> simp [h1, h2]

theorem reportedAlerts_eq (s : GameState) :
    reportedAlerts s =
      (if legalMovesExist s then []
        else [if isInCheck s.turn s.board then Alert.checkmate s.turn else Alert.stalemate]) ++
       (if s.halfMoveClock ≥ 100 then [Alert.fiftyMove] else []) := by
  unfold reportedAlerts
  rw [checkEndConditions_alerts, List.drop_left]

theorem legalMovesExist_eq_false_iff (s : GameState) :
    legalMovesExist s = false ↔
      ∀ r ∈ List.range 8, ∀ c ∈ List.range 8,
        pieceColor (s.board.get r c) = some s.turn →
          getValidMoves r c s.board s.turn s.castlingRights s.enPassant = [] := by
  unfold legalMovesExist
  rw [← Bool.not_eq_true, List.any_eq_true]
  constructor
  · intro h r hr c hc hcol
    by_contra hne
    apply h
    refine ⟨r, hr, ?_⟩
    rw [List.any_eq_true]
    refine ⟨c, hc, ?_⟩
    simp only [Bool.and_eq_true, beq_iff_eq, decide_eq_true_eq]
    exact ⟨hcol, List.length_pos.2 hne⟩
  · rintro h ⟨r, hr, hany⟩
    rw [List.any_eq_true] at hany
    obtain ⟨c, hc, hcond⟩ := hany
    simp only [Bool.and_eq_true, beq_iff_eq, decide_eq_true_eq] at hcond
    have := h r hr c hc hcond.1
    rw [this] at hcond
    simp at hcond

/-- C14: `checkEndConditions` reports checkmate (of the side to move) exactly when
`getValidMoves` is empty for every square of the board holding a piece of the side to move
and `isInCheck` holds for that side; it reports stalemate exactly when `getValidMoves` is
empty for every such square and `isInCheck` does not hold; and when some such square has a
non-empty `getValidMoves` result it reports neither (at most the fifty-move draw). -/
theorem checkEndConditions_reports (s : GameState) :
    (checkEndConditions s).alerts = s.alerts ++ reportedAlerts s ∧
    (Alert.checkmate s.turn ∈ reportedAlerts s ↔
      ((∀ r ∈ List.range 8, ∀ c ∈ List.range 8,
          pieceColor (s.board.get r c) = some s.turn →
            getValidMoves r c s.board s.turn s.castlingRights s.enPassant = []) ∧
        isInCheck s.turn s.board = true)) ∧
    (Alert.stalemate ∈ reportedAlerts s ↔
      ((∀ r ∈ List.range 8, ∀ c ∈ List.range 8,
          pieceColor (s.board.get r c) = some s.turn →
            getValidMoves r c s.board s.turn s.castlingRights s.enPassant = []) ∧
        isInCheck s.turn s.board = false)) ∧
    ((∃ r ∈ List.range 8, ∃ c ∈ List.range 8,
        pieceColor (s.board.get r c) = some s.turn ∧
          getValidMoves r c s.board s.turn s.castlingRights s.enPassant ≠ []) →
      ∀ a ∈ reportedAlerts s, a = Alert.fiftyMove) ∧
    (∀ color : Color, Alert.checkmate color ∈ reportedAlerts s → color = s.turn) := by
  have hno := legalMovesExist_eq_false_iff s
  have hrep := reportedAlerts_eq s
  refine ⟨?_, ?_, ?_, ?_, ?_⟩
  · rw [hrep, checkEndConditions_alerts]
  · rw [← hno, hrep]
    by_cases h1 : legalMovesExist s = true <;>
      by_cases h2 : s.halfMoveClock ≥ 100 <;>
      by_cases h3 : isInCheck s.turn s.board = true <;> simp [h1, h2, h3]
  · rw [← hno, hrep]
    by_cases h1 : legalMovesExist s = true <;>
      by_cases h2 : s.halfMoveClock ≥ 100 <;>
      by_cases h3 : isInCheck s.turn s.board = true <;> simp [h1, h2, h3]
  · rintro ⟨r, hr, c, hc, hcol, hne⟩ a ha
    have h1 : legalMovesExist s = true := by
      by_contra hf
      exact hne ((hno.1 (by simpa using hf)) r hr c hc hcol)
    rw [hrep] at ha
    simp only [h1, if_true, List.nil_append] at ha
    split_ifs at ha
    · simpa using ha
    · simp at ha
  · intro color ha
    rw [hrep] at ha
    by_cases h1 : legalMovesExist s = true <;>
      by_cases h2 : s.halfMoveClock ≥ 100 <;>
      by_cases h3 : isInCheck s.turn s.board = true <;> simp [h1, h2, h3] at ha <;>
      exact ha
/-- C13, evaluation: after 1. e4 a6 2. e5 d5 the en-passant capture exd6 is offered and
applied; it removes the black pawn from d5, yet no entry is appended to either capture
list. -/
theorem enPassant_capture_not_recorded :
    (playMoves initGame enPassantGame).isSome = true ∧
    ((⟨2, 3, none⟩ : Move) ∈
        getValidMoves 3 4 (afterMoves enPassantGame).board (afterMoves enPassantGame).turn
          (afterMoves enPassantGame).castlingRights (afterMoves enPassantGame).enPassant ∧
      awaitsPromotion (afterMoves enPassantGame) ⟨3, 4⟩ ⟨2, 3, none⟩ none = false) ∧
    ((afterMoves enPassantGame).board.get 3 3 = some .p ∧
      (afterMoves enPassantGame).board.get 2 3 = none ∧
      (makeMove (afterMoves enPassantGame) ⟨3, 4⟩ ⟨2, 3, none⟩ none).board.get 3 3 = none ∧
      countPiece (afterMoves enPassantGame).board .p = 8 ∧
      countPiece (makeMove (afterMoves enPassantGame) ⟨3, 4⟩ ⟨2, 3, none⟩ none).board .p = 7) ∧
    ((afterMoves enPassantGame).blackCaptured = [] ∧
      (afterMoves enPassantGame).whiteCaptured = [] ∧
      (makeMove (afterMoves enPassantGame) ⟨3, 4⟩ ⟨2, 3, none⟩ none).blackCaptured = [] ∧
      (makeMove (afterMoves enPassantGame) ⟨3, 4⟩ ⟨2, 3, none⟩ none).whiteCaptured = []) := by
  refine ⟨by decide, by decide, by decide, by decide⟩

/-- C19, evaluation: the clicks that play 1. e4 e5 2. Nf3 Nc6 3. Bc4 Bc5 and select the
white king leave the kingside castle among `validMoves`; the click on g1 then moves the
king alone: the rook stays on h1, f1 stays empty, and the board is not the projection
`makeMoveOnBoard` computes for the tagged move. -/
theorem click_on_castle_square_moves_king_only :
    ((clickAll initGame castleClicks).timerRunning = true ∧
      (clickAll initGame castleClicks).selectedSquare = some ⟨7, 4⟩ ∧
      (clickAll initGame castleClicks).board.get 7 4 = some .K ∧
      (⟨7, 6, some .K⟩ : Move) ∈ (clickAll initGame castleClicks).validMoves) ∧
    ((onSquareClick (clickAll initGame castleClicks) 7 6).board.get 7 6 = some .K ∧
      (onSquareClick (clickAll initGame castleClicks) 7 6).board.get 7 7 = some .R ∧
      (onSquareClick (clickAll initGame castleClicks) 7 6).board.get 7 5 = none ∧
      (onSquareClick (clickAll initGame castleClicks) 7 6).turn = .b) ∧
    ((makeMoveOnBoard (clickAll initGame castleClicks).board ⟨7, 4⟩ ⟨7, 6, some .K⟩
        (clickAll initGame castleClicks).turn (clickAll initGame castleClicks).castlingRights
        (clickAll initGame castleClicks).enPassant).get 7 5 = some .R ∧
      (onSquareClick (clickAll initGame castleClicks) 7 6).board ≠
        makeMoveOnBoard (clickAll initGame castleClicks).board ⟨7, 4⟩ ⟨7, 6, some .K⟩
          (clickAll initGame castleClicks).turn (clickAll initGame castleClicks).castlingRights
          (clickAll initGame castleClicks).enPassant) := by
  refine ⟨by decide, by decide, by decide⟩

/-- C20, evaluation: after 1. f3 e5 2. g4 Qh4 `checkEndConditions` has reported the
checkmate of White, yet `timerRunning` is true when `makeMove` returns, and the next click
on a white piece selects it. -/
theorem timer_running_after_checkmate :
    (playMoves initGame foolsMateGame).isSome = true ∧
    (afterMoves foolsMateGame).alerts = [Alert.checkmate .w] ∧
    (afterMoves foolsMateGame).timerRunning = true ∧
    (onSquareClick (afterMoves foolsMateGame) 6 0).selectedSquare = some ⟨6, 0⟩ := by
  refine ⟨by decide, by decide, by decide, by decide⟩
/-! ### Well-formed boards -/

theorem Board.WF.inRange {b : Board} (h : b.WF) {r c : Int} (hr0 : 0 ≤ r) (hr : r < 8)
    (hc0 : 0 ≤ c) (hc : c < 8) : b.inRange r c := by
  refine ⟨hr0, hc0, ?_⟩
  have hlt : r.toNat < b.length := by rw [h.1]; omega
  have hrow : b.getD r.toNat [] = b[r.toNat] := by
    rw [List.getD_eq_getElem?_getD, List.getElem?_eq_getElem hlt]; rfl
  rw [hrow, h.2 _ (List.getElem_mem hlt)]
  omega

theorem Board.WF.inRange_of_isOnBoard {b : Board} (h : b.WF) {r c : Int}
    (hon : isOnBoard r c = true) : b.inRange r c := by
  simp only [isOnBoard, BOARD_SIZE, Bool.and_eq_true, decide_eq_true_eq] at hon
  exact h.inRange hon.1.1.1 hon.1.1.2 hon.1.2 hon.2

theorem Board.isOnBoard_of_get_eq_some {b : Board} (h : b.WF) {r c : Int} {x : Piece}
    (hget : b.get r c = some x) : isOnBoard r c = true := by
  obtain ⟨hr0, hc0, hlen⟩ := Board.inRange_of_get_eq_some hget
  have hlt : r.toNat < b.length := by
    by_contra hge
    rw [List.getD_eq_getElem?_getD, List.getElem?_eq_none (not_lt.1 hge)] at hlen
    simp at hlen
  have hrow : b.getD r.toNat [] = b[r.toNat] := by
    rw [List.getD_eq_getElem?_getD, List.getElem?_eq_getElem hlt]; rfl
  rw [hrow, h.2 _ (List.getElem_mem hlt)] at hlen
  rw [h.1] at hlt
  simp only [isOnBoard, BOARD_SIZE, Bool.and_eq_true, decide_eq_true_eq]
  omega

theorem Board.WF_set {b : Board} (h : b.WF) (r c : Int) (v : Cell) : (b.set r c v).WF := by
  unfold Board.set
  split_ifs with hrc
  · refine ⟨by rw [List.length_set]; exact h.1, fun row hrow => ?_⟩
    rcases List.mem_or_eq_of_mem_set hrow with hmem | heq
    · exact h.2 row hmem
    · rw [heq, List.length_set]
      by_cases hlt : r.toNat < b.length
      · have hrow2 : b.getD r.toNat [] = b[r.toNat] := by
          rw [List.getD_eq_getElem?_getD, List.getElem?_eq_getElem hlt]; rfl
        rw [hrow2]
        exact h.2 _ (List.getElem_mem hlt)
      · exfalso
        rw [List.set_eq_of_length_le (not_lt.1 hlt)] at hrow
        have : b.getD r.toNat [] = [] := by
          rw [List.getD_eq_getElem?_getD, List.getElem?_eq_none (not_lt.1 hlt)]; rfl
        rw [heq, this] at hrow
        have := h.2 _ hrow
        simp at this
  · exact h

theorem moveBoard_WF {b : Board} (h : b.WF) (frm : Square) (dst : Move) (color : Color)
    (ep : Option Square) : (moveBoard b frm dst color ep).WF := by
  unfold moveBoard
  simp only []
  repeat' split
  all_goals repeat (first | exact h | apply Board.WF_set)

/-! ### The moves of a pawn -/

/-- The three kinds of destination the pawn branch pushes: a forward step onto an empty
square, a diagonal capture of an occupied square, and the en-passant target. -/
theorem mem_pawnMoves {r c : Int} {b : Board} {color : Color} {ep : Option Square} {m : Move}
    (h : m ∈ pawnMoves r c b color ep) :
    (m.c = c ∧ b.get m.r m.c = none ∧
        (m.r = r + pawnDir color ∨ (r = pawnStartRow color ∧ m.r = r + pawnDir color * 2))) ∨
    ((m.c - c).natAbs = 1 ∧ m.r = r + pawnDir color ∧ (b.get m.r m.c).isSome = true ∧
        isOnBoard m.r m.c = true) ∨
    (ep = some ⟨m.r, m.c⟩ ∧ r = (if color = .w then 3 else 4) ∧ (m.c - c).natAbs = 1 ∧
        m.r = r + pawnDir color) := by
  unfold pawnMoves at h
  simp only [List.mem_append, List.mem_flatMap] at h
  rcases h with (h | ⟨dc, hdc, h⟩) | h
  · left
    cases color <;> simp [pawnDir, pawnStartRow] at h ⊢ <;>
      obtain ⟨⟨-, h1⟩, (rfl | ⟨⟨h6, h2⟩, rfl⟩)⟩ := h
    · exact ⟨rfl, h1, Or.inl rfl⟩
    · exact ⟨rfl, h2, Or.inr ⟨h6, rfl⟩⟩
    · exact ⟨rfl, h1, Or.inl rfl⟩
    · exact ⟨rfl, h2, Or.inr ⟨h6, rfl⟩⟩
  · right; left
    have hdc2 : dc = -1 ∨ dc = 1 := by simpa using hdc
    cases color <;> simp [pawnDir, pawnStartRow] at h ⊢ <;>
      obtain ⟨⟨hon, hsome, -⟩, rfl⟩ := h <;>
      refine ⟨?_, rfl, hsome, hon⟩ <;>
      rcases hdc2 with rfl | rfl <;> simp
  · right; right
    cases ep with
    | none => simp at h
    | some e =>
      cases color <;> simp [pawnDir, pawnStartRow] at h ⊢ <;>
        obtain ⟨⟨⟨hr, habs⟩, her⟩, rfl⟩ := h <;>
        exact ⟨rfl, hr, habs, her⟩

theorem mem_pawnMoves_of_mem_getValidMoves {r c : Int} {b : Board} {turn : Color}
    {castling : CastlingRights} {ep : Option Square} {m : Move}
    (hm : m ∈ getValidMoves r c b turn castling ep) (hp : lower (b.get r c) = some .p) :
    m ∈ pawnMoves r c b turn ep := by
  have hcand : m ∈ pseudoLegalMoves r c b turn castling ep :=
    ((mem_getValidMoves_iff r c b turn castling ep m).1 hm).1
  unfold pseudoLegalMoves at hcand
  split_ifs at hcand with hg
  · simp at hcand
  · unfold candidateMoves at hcand
    simp only [hp] at hcand
    exact hcand

/-- A pawn move over two rows returned by `getValidMoves` is the double step from the start
row, straight ahead. -/
theorem double_step_of_mem_getValidMoves {r c : Int} {b : Board} {turn : Color}
    {castling : CastlingRights} {ep : Option Square} {m : Move}
    (hm : m ∈ getValidMoves r c b turn castling ep) (hp : lower (b.get r c) = some .p)
    (h2 : (m.r - r).natAbs = 2) :
    r = pawnStartRow turn ∧ m.r = r + pawnDir turn * 2 ∧ m.c = c ∧ m.castle = none := by
  have hpm := mem_pawnMoves_of_mem_getValidMoves hm hp
  have hcastle := castle_none_of_mem_pawnMoves hpm
  rcases mem_pawnMoves hpm with ⟨hc, -, h | ⟨hs, h⟩⟩ | ⟨-, h, -⟩ | ⟨-, -, -, h⟩
  · exfalso; unfold pawnDir at h; split_ifs at h <;> omega
  · exact ⟨hs, h, hc, hcastle⟩
  · exfalso; unfold pawnDir at h; split_ifs at h <;> omega
  · exfalso; unfold pawnDir at h; split_ifs at h <;> omega

/-- A diagonal pawn move onto an empty square returned by `getValidMoves` is the en-passant
move: its destination is the en-passant target. -/
theorem enPassant_of_diagonal_onto_empty {r c : Int} {b : Board} {turn : Color}
    {castling : CastlingRights} {ep : Option Square} {m : Move}
    (hm : m ∈ getValidMoves r c b turn castling ep) (hp : lower (b.get r c) = some .p)
    (hdiag : m.c ≠ c) (hempty : b.get m.r m.c = none) :
    ep = some ⟨m.r, m.c⟩ ∧ r = (if turn = .w then 3 else 4) ∧ (m.c - c).natAbs = 1 ∧
      m.r = r + pawnDir turn ∧ m.castle = none := by
  have hpm := mem_pawnMoves_of_mem_getValidMoves hm hp
  have hcastle := castle_none_of_mem_pawnMoves hpm
  rcases mem_pawnMoves hpm with ⟨hc, -⟩ | ⟨-, -, hsome, -⟩ | ⟨h1, h2, h3, h4⟩
  · exact absurd hc hdiag
  · rw [hempty] at hsome; simp at hsome
  · exact ⟨h1, h2, h3, h4, hcastle⟩

/-- The board after a pawn's double step: the pawn stands on the destination. -/
theorem moveBoard_double_step_get_dst {b : Board} (hwf : b.WF) {frm : Square} {dst : Move}
    {color : Color} {ep : Option Square} {x : Piece} (hpiece : b.get frm.r frm.c = some x)
    (hrow : dst.r = frm.r + pawnDir color * 2)
    (hon : isOnBoard dst.r dst.c = true) (hcastle : dst.castle = none) :
    (moveBoard b frm dst color ep).get dst.r dst.c = some x := by
  have hin : b.inRange dst.r dst.c := hwf.inRange_of_isOnBoard hon
  have hne : ¬ (dst.r = frm.r ∧ dst.c = frm.c) := by
    rintro ⟨h1, -⟩
    unfold pawnDir at hrow
    split_ifs at hrow <;> omega
  have hbase : ((b.set dst.r dst.c (b.get frm.r frm.c)).set frm.r frm.c none).get dst.r dst.c
      = some x := by
    rw [Board.get_set, if_neg (fun h3 => hne ⟨h3.1, h3.2.1⟩), Board.get_set_of_inRange hin,
      if_pos ⟨rfl, rfl⟩, hpiece]
  unfold moveBoard
  simp only [hcastle]
  cases ep with
  | none => exact hbase
  | some e =>
    simp only
    split_ifs
    · rw [Board.get_set, if_neg (fun h3 => by omega), hbase]
    · rw [Board.get_set, if_neg (fun h3 => by omega), hbase]
    · exact hbase
/-- The board after an en-passant capture: the capturing pawn stands on the target, its
origin and the square beside it on the target's file are empty, every other cell is
unchanged. -/
theorem moveBoard_enPassant_get {b : Board} (hwf : b.WF) {r c : Int} {m : Move} {color : Color}
    {x : Piece} (hpiece : b.get r c = some x) (hp : lower (b.get r c) = some .p)
    (hrow : m.r = r + pawnDir color) (hcastle : m.castle = none)
    (honm : isOnBoard m.r m.c = true) (r2 c2 : Int) :
    (moveBoard b ⟨r, c⟩ m color (some ⟨m.r, m.c⟩)).get r2 c2 =
      if r2 = m.r ∧ c2 = m.c then some x
      else if r2 = r ∧ (c2 = c ∨ c2 = m.c) then none
      else b.get r2 c2 := by
  have hon : isOnBoard r c = true := Board.isOnBoard_of_get_eq_some hwf hpiece
  have hon' := hon
  have honm' := honm
  simp only [isOnBoard, BOARD_SIZE, Bool.and_eq_true, decide_eq_true_eq] at hon' honm'
  have hin1 : b.inRange m.r m.c := hwf.inRange_of_isOnBoard honm
  have hin2 : (b.set m.r m.c (some x)).inRange r c :=
    (Board.inRange_set _ _ _ _ _ _).2 (hwf.inRange_of_isOnBoard hon)
  have hin3 : ((b.set m.r m.c (some x)).set r c none).inRange r m.c :=
    (Board.inRange_set _ _ _ _ _ _).2 ((Board.inRange_set _ _ _ _ _ _).2
      (hwf.inRange (by omega) (by omega) (by omega) (by omega)))
  have hvictim : (if color = Color.w then m.r + 1 else m.r - 1) = r := by
    unfold pawnDir at hrow
    split_ifs at hrow ⊢ <;> omega
  have hne : m.r ≠ r := by
    unfold pawnDir at hrow
    split_ifs at hrow <;> omega
  have hboard : moveBoard b ⟨r, c⟩ m color (some ⟨m.r, m.c⟩) =
      ((b.set m.r m.c (some x)).set r c none).set r m.c none := by
    unfold moveBoard
    simp only [hcastle, hpiece] at hp ⊢
    simp only [hp, beq_self_eq_true, Bool.and_self, if_true]
    split_ifs with hw
    · rw [if_pos hw] at hvictim; rw [hvictim]
    · rw [if_neg hw] at hvictim; rw [hvictim]
  rw [hboard, Board.get_set_of_inRange hin3, Board.get_set_of_inRange hin2,
    Board.get_set_of_inRange hin1]
  by_cases h1 : r2 = m.r ∧ c2 = m.c
  · obtain ⟨e1, e2⟩ := h1
    subst e1; subst e2
    simp [hne]
  · by_cases h2 : r2 = r
    · subst h2
      have hne' : ¬ r2 = m.r := fun e => hne e.symm
      by_cases h3 : c2 = m.c
      · simp [h3, hne']
      · by_cases h4 : c2 = c
        · simp [h4, hne']
        · simp [h3, h4, hne']
    · simp [h1, h2]
/-- The state after an applied move from a well-formed board has a well-formed board, and
its en-passant target, when set, comes from a pawn's double step of the side that moved. -/
theorem enPassant_origin {s : GameState} {frm : Square} {dst : Move} {promo : Option Piece}
    (hoff : dst ∈ getValidMoves frm.r frm.c s.board s.turn s.castlingRights s.enPassant)
    (happ : awaitsPromotion s frm dst promo = false) {e : Square}
    (he : (makeMove s frm dst promo).enPassant = some e) :
    lower (s.board.get frm.r frm.c) = some .p ∧ frm.r = pawnStartRow s.turn ∧
      dst.r = frm.r + pawnDir s.turn * 2 ∧ dst.c = frm.c ∧ dst.castle = none ∧
      e.r = frm.r + pawnDir s.turn ∧ e.c = frm.c := by
  rw [(makeMove_applied s frm dst promo happ).2.1] at he
  split_ifs at he with hcond
  simp only [Bool.and_eq_true, beq_iff_eq] at hcond
  obtain ⟨hp, h2⟩ := hcond
  obtain ⟨h3, h4, h5, h6⟩ := double_step_of_mem_getValidMoves hoff hp h2
  simp only [Option.some.injEq] at he
  subst he
  refine ⟨hp, h3, h4, h5, h6, ?_, h5⟩
  show (dst.r + frm.r) / 2 = frm.r + pawnDir s.turn
  unfold pawnDir at h4 ⊢
  split_ifs at h4 ⊢ <;> omega

theorem makeMove_board_WF {s : GameState} (hwf : s.board.WF) (frm : Square) (dst : Move)
    (promo : Option Piece) (happ : awaitsPromotion s frm dst promo = false) :
    (makeMove s frm dst promo).board.WF := by
  rw [(makeMove_applied s frm dst promo happ).2.2.2]
  cases promo with
  | none => exact moveBoard_WF hwf _ _ _ _
  | some pp =>
    simp only
    split_ifs
    · exact Board.WF_set (moveBoard_WF hwf _ _ _ _) _ _ _
    · exact moveBoard_WF hwf _ _ _ _
    · exact Board.WF_set (moveBoard_WF hwf _ _ _ _) _ _ _
    · exact moveBoard_WF hwf _ _ _ _

/-- En passant between consecutive applied moves: let `s1` be the state after an applied
move that `getValidMoves` offered in a state `s` with an 8x8 board (every state of a play
from `initGame` has one); a call that ends awaiting a promotion choice is not an applied
move, and the state it leaves is not covered. If in `s1`
`getValidMoves` offers a pawn on `(r, c)` a diagonal move `m` onto an empty square, then
the move just applied was the two-square advance of a pawn of the side that moved, over
the square of `m`; the capturing pawn stands on the advanced pawn's row, one file beside
it; applying `m` puts the capturing pawn on the target, empties its origin and the advanced
pawn's square, and changes nothing else; and after any one further applied offered move no
pawn is offered a diagonal move onto that empty square any more. -/
theorem enPassant_only_after_double_step (s s1 : GameState) (frm : Square) (dst : Move)
    (promo : Option Piece) (r c : Int) (m : Move)
    (hwf : s.board.WF)
    (hoff : dst ∈ getValidMoves frm.r frm.c s.board s.turn s.castlingRights s.enPassant)
    (happ : awaitsPromotion s frm dst promo = false)
    (hs1 : s1 = makeMove s frm dst promo)
    (hm : m ∈ getValidMoves r c s1.board s1.turn s1.castlingRights s1.enPassant)
    (hp : lower (s1.board.get r c) = some .p)
    (hdiag : m.c ≠ c) (hempty : s1.board.get m.r m.c = none) :
    (lower (s.board.get frm.r frm.c) = some .p ∧
      pieceColor (s.board.get frm.r frm.c) = some s.turn ∧ s1.turn = opponent s.turn ∧
      frm.r = pawnStartRow s.turn ∧ dst.r = frm.r + pawnDir s.turn * 2 ∧ dst.c = frm.c ∧
      m.r = frm.r + pawnDir s.turn ∧ m.c = frm.c) ∧
    (r = dst.r ∧ (c - dst.c).natAbs = 1 ∧
      s1.board.get dst.r dst.c = s.board.get frm.r frm.c) ∧
    (awaitsPromotion s1 ⟨r, c⟩ m none = false ∧
      ∀ r2 c2 : Int, (makeMove s1 ⟨r, c⟩ m none).board.get r2 c2 =
        if r2 = m.r ∧ c2 = m.c then s1.board.get r c
        else if r2 = r ∧ (c2 = c ∨ c2 = dst.c) then none
        else s1.board.get r2 c2) ∧
    (∀ (frm2 : Square) (dst2 : Move) (promo2 : Option Piece) (r3 c3 : Int) (m3 : Move),
      dst2 ∈ getValidMoves frm2.r frm2.c s1.board s1.turn s1.castlingRights s1.enPassant →
      awaitsPromotion s1 frm2 dst2 promo2 = false →
      m3 ∈ getValidMoves r3 c3 (makeMove s1 frm2 dst2 promo2).board
        (makeMove s1 frm2 dst2 promo2).turn (makeMove s1 frm2 dst2 promo2).castlingRights
        (makeMove s1 frm2 dst2 promo2).enPassant →
      lower ((makeMove s1 frm2 dst2 promo2).board.get r3 c3) = some .p →
      m3.c ≠ c3 → (makeMove s1 frm2 dst2 promo2).board.get m3.r m3.c = none →
      ¬ (m3.r = m.r ∧ m3.c = m.c)) := by
  obtain ⟨hep, hr, habs, hmr, hmcastle⟩ := enPassant_of_diagonal_onto_empty hm hp hdiag hempty
  have hturn1 : s1.turn = opponent s.turn := by
    rw [hs1]; exact (makeMove_applied s frm dst promo happ).2.2.1
  have hep' : (makeMove s frm dst promo).enPassant = some ⟨m.r, m.c⟩ := by rw [← hs1]; exact hep
  obtain ⟨hp0, hstart, hdr, hdc, hdcastle, her, hec⟩ := enPassant_origin hoff happ hep'
  simp only at her hec
  have hcol0 := pieceColor_of_mem_getValidMoves hoff
  have hwf1 : s1.board.WF := by rw [hs1]; exact makeMove_board_WF hwf frm dst promo happ
  obtain ⟨x, hx⟩ : ∃ x, s.board.get frm.r frm.c = some x := by
    cases hget : s.board.get frm.r frm.c with
    | none => rw [hget] at hp0; simp [lower] at hp0
    | some x => exact ⟨x, rfl⟩
  have honf : isOnBoard frm.r frm.c = true := Board.isOnBoard_of_get_eq_some hwf hx
  have honf' := honf
  simp only [isOnBoard, BOARD_SIZE, Bool.and_eq_true, decide_eq_true_eq] at honf'
  -- the numbers, by the colour that moved
  have hrows : r = dst.r ∧ 0 ≤ m.r ∧ m.r < 8 ∧ 0 ≤ dst.r ∧ dst.r < 8 ∧
      ¬ m.r = (if s1.turn = Color.w then 0 else 7) ∧
      ¬ dst.r = (if s.turn = Color.w then 0 else 7) := by
    rw [hturn1] at hr hmr ⊢
    unfold pawnDir pawnStartRow at *
    unfold opponent at *
    cases hst : s.turn <;> simp only [hst, if_true, if_false, reduceCtorEq] at * <;> omega
  obtain ⟨hrd, hm0, hm8, hd0, hd8, hmprom, hdprom⟩ := hrows
  have hond : isOnBoard dst.r dst.c = true := by
    simp only [isOnBoard, BOARD_SIZE, Bool.and_eq_true, decide_eq_true_eq]
    omega
  have honm : isOnBoard m.r m.c = true := by
    simp only [isOnBoard, BOARD_SIZE, Bool.and_eq_true, decide_eq_true_eq]
    omega
  -- the board after the double step
  have hb1 : s1.board = moveBoard s.board frm dst s.turn s.enPassant := by
    rw [hs1, (makeMove_applied s frm dst promo happ).2.2.2]
    cases promo with
    | none => rfl
    | some pp =>
      simp only
      have : (lower (s.board.get frm.r frm.c) == some Piece.p
          && dst.r == if s.turn = Color.w then 0 else 7) = false := by
        simp [hdprom]
      rw [this]
      simp
  have hdstget : s1.board.get dst.r dst.c = s.board.get frm.r frm.c := by
    rw [hb1, hx]
    exact moveBoard_double_step_get_dst hwf hx hdr hond hdcastle
  obtain ⟨y, hy⟩ : ∃ y, s1.board.get r c = some y := by
    cases hget : s1.board.get r c with
    | none => rw [hget] at hp; simp [lower] at hp
    | some y => exact ⟨y, rfl⟩
  refine ⟨⟨hp0, hcol0, hturn1, hstart, hdr, hdc, her, hec⟩, ⟨hrd, ?_, hdstget⟩, ⟨?_, ?_⟩, ?_⟩
  · omega
  · unfold awaitsPromotion
    simp [hmprom]
  · intro r2 c2
    have happ2 : awaitsPromotion s1 ⟨r, c⟩ m none = false := by
      unfold awaitsPromotion
      simp [hmprom]
    rw [(makeMove_applied s1 ⟨r, c⟩ m none happ2).2.2.2]
    simp only
    rw [hep, moveBoard_enPassant_get hwf1 hy hp hmr hmcastle honm r2 c2, hy, hdc, ← hec]
  · intro frm2 dst2 promo2 r3 c3 m3 hoff2 happ2 hm3 hp3 hdiag3 hempty3 hsame
    obtain ⟨hep3, -⟩ := enPassant_of_diagonal_onto_empty hm3 hp3 hdiag3 hempty3
    obtain ⟨-, hstart2, -, -, -, her2, -⟩ := enPassant_origin hoff2 happ2 hep3
    simp only at her2
    rw [hturn1] at hstart2 her2
    unfold pawnDir pawnStartRow at *
    unfold opponent at *
    cases hst : s.turn <;> simp only [hst, if_true, if_false, reduceCtorEq] at * <;> omega

/-- An instance of `enPassant_only_after_double_step`: after 1. e4 a6 2. e5 Black plays d5;
the white pawn on e5 is then offered the diagonal move onto the empty square d6, and it
stands beside the pawn on d5. -/
theorem enPassant_only_after_double_step_witness :
    ((afterMoves enPassantPrelude).board.WF ∧
      (⟨3, 3, none⟩ : Move) ∈
        getValidMoves 1 3 (afterMoves enPassantPrelude).board (afterMoves enPassantPrelude).turn
          (afterMoves enPassantPrelude).castlingRights (afterMoves enPassantPrelude).enPassant ∧
      awaitsPromotion (afterMoves enPassantPrelude) ⟨1, 3⟩ ⟨3, 3, none⟩ none = false ∧
      (⟨2, 3, none⟩ : Move) ∈
        getValidMoves 3 4 (makeMove (afterMoves enPassantPrelude) ⟨1, 3⟩ ⟨3, 3, none⟩ none).board
          (makeMove (afterMoves enPassantPrelude) ⟨1, 3⟩ ⟨3, 3, none⟩ none).turn
          (makeMove (afterMoves enPassantPrelude) ⟨1, 3⟩ ⟨3, 3, none⟩ none).castlingRights
          (makeMove (afterMoves enPassantPrelude) ⟨1, 3⟩ ⟨3, 3, none⟩ none).enPassant ∧
      lower ((makeMove (afterMoves enPassantPrelude) ⟨1, 3⟩ ⟨3, 3, none⟩ none).board.get 3 4)
        = some .p ∧
      (3 : Int) ≠ 4 ∧
      (makeMove (afterMoves enPassantPrelude) ⟨1, 3⟩ ⟨3, 3, none⟩ none).board.get 2 3 = none) ∧
    ((3 : Int) = 3 ∧ ((4 : Int) - 3).natAbs = 1 ∧
      (makeMove (afterMoves enPassantPrelude) ⟨1, 3⟩ ⟨3, 3, none⟩ none).board.get 3 3 =
        (afterMoves enPassantPrelude).board.get 1 3) :=
  ⟨by decide,
   (enPassant_only_after_double_step (afterMoves enPassantPrelude)
      (makeMove (afterMoves enPassantPrelude) ⟨1, 3⟩ ⟨3, 3, none⟩ none) ⟨1, 3⟩ ⟨3, 3, none⟩ none
      3 4 ⟨2, 3, none⟩ (by decide) (by decide) (by decide) rfl (by decide) (by decide)
      (by decide) (by decide)).2.1⟩

/-! ### Undo after a promotion request with a single snapshot left -/

theorem playMoves_eq_applyMoves :
    ∀ (ms : List (Square × Move × Option Piece)) (s t : GameState),
      playMoves s ms = some t → t = applyMoves s ms := by
  intro ms
  induction ms with
  | nil =>
    intro s t h
    simp only [playMoves, Option.some.injEq] at h
    exact h.symm
  | cons m ms ih =>
    intro s t h
    obtain ⟨frm, dst, promo⟩ := m
    simp only [playMoves] at h
    split_ifs at h with hoff
    exact ih _ _ h

theorem afterMoves_eq_applyMoves (ms : List (Square × Move × Option Piece))
    (h : (playMoves initGame ms).isSome = true) : afterMoves ms = applyMoves initGame ms := by
  unfold afterMoves
  cases hp : playMoves initGame ms with
  | none => rw [hp] at h; simp at h
  | some t => exact playMoves_eq_applyMoves ms initGame t hp

set_option maxRecDepth 1000000 in
/-- C16, evaluation: the 107 moves of `longGame` are all offered by `getValidMoves`, so the
history is at its cap of 100 snapshots; 99 `undo` calls then leave a single snapshot, with
White to move and axb8 offered.  The `makeMove` call for axb8 without a promotion piece
moves the pawn and, `undo` doing nothing with fewer than two snapshots, leaves it on b8.
From that state the offered move Nf3 is applied and `undo` is called: the board is the one
of the snapshot (pawn on a7, black knight on b8), not the one before the `makeMove` call. -/
theorem undo_after_short_history_promotion_request :
    (playMoves initGame longGame).isSome = true ∧
    (rewoundState.history.length = 1 ∧ rewoundState.turn = .w ∧
      (⟨0, 1, none⟩ : Move) ∈
        getValidMoves 1 0 rewoundState.board rewoundState.turn rewoundState.castlingRights
          rewoundState.enPassant) ∧
    ((makeMove rewoundState ⟨1, 0⟩ ⟨0, 1, none⟩ none).pendingPromotion =
        some (⟨1, 0⟩, ⟨0, 1, none⟩) ∧
      (makeMove rewoundState ⟨1, 0⟩ ⟨0, 1, none⟩ none).turn = .w ∧
      (makeMove rewoundState ⟨1, 0⟩ ⟨0, 1, none⟩ none).board.get 0 1 = some .P ∧
      (makeMove rewoundState ⟨1, 0⟩ ⟨0, 1, none⟩ none).board.get 1 0 = none) ∧
    ((⟨5, 5, none⟩ : Move) ∈
        getValidMoves 7 6 (makeMove rewoundState ⟨1, 0⟩ ⟨0, 1, none⟩ none).board
          (makeMove rewoundState ⟨1, 0⟩ ⟨0, 1, none⟩ none).turn
          (makeMove rewoundState ⟨1, 0⟩ ⟨0, 1, none⟩ none).castlingRights
          (makeMove rewoundState ⟨1, 0⟩ ⟨0, 1, none⟩ none).enPassant ∧
      awaitsPromotion (makeMove rewoundState ⟨1, 0⟩ ⟨0, 1, none⟩ none) ⟨7, 6⟩ ⟨5, 5, none⟩ none
        = false) ∧
    ((undo (makeMove (makeMove rewoundState ⟨1, 0⟩ ⟨0, 1, none⟩ none)
        ⟨7, 6⟩ ⟨5, 5, none⟩ none)).board.get 0 1 = some .n ∧
      (undo (makeMove (makeMove rewoundState ⟨1, 0⟩ ⟨0, 1, none⟩ none)
        ⟨7, 6⟩ ⟨5, 5, none⟩ none)).board.get 1 0 = some .P ∧
      (undo (makeMove (makeMove rewoundState ⟨1, 0⟩ ⟨0, 1, none⟩ none)
        ⟨7, 6⟩ ⟨5, 5, none⟩ none)).board ≠
        (makeMove rewoundState ⟨1, 0⟩ ⟨0, 1, none⟩ none).board) := by
  decide!

/-! ### The checked functions agree with the plain ones -/

theorem Board.read_of_isOnBoard (b : Board) {r c : Int} (h : isOnBoard r c = true) :
    b.read r c = some (b.get r c) := by
  unfold Board.read
  rw [if_pos h]

theorem Board.write_of_isOnBoard (b : Board) {r c : Int} (v : Cell)
    (h : isOnBoard r c = true) : b.write r c v = some (b.set r c v) := by
  unfold Board.write
  rw [if_pos h]

theorem anyChecked_eq_some {α : Type} {f : α → Option Bool} {g : α → Bool} :
    ∀ {l : List α}, (∀ x ∈ l, f x = some (g x)) → anyChecked f l = some (l.any g) := by
  intro l
  induction l with
  | nil => intro _; rfl
  | cons x xs ih =>
    intro h
    have hx := h x (List.mem_cons_self x xs)
    have hxs := ih (fun y hy => h y (List.mem_cons_of_mem x hy))
    simp only [anyChecked, hx, Option.some_bind, hxs, List.any_cons]
    cases g x <;> simp

theorem findSomeChecked_eq_some {α β : Type} {f : α → Option (Option β)} {g : α → Option β} :
    ∀ {l : List α}, (∀ x ∈ l, f x = some (g x)) →
      findSomeChecked f l = some (l.findSome? g) := by
  intro l
  induction l with
  | nil => intro _; rfl
  | cons x xs ih =>
    intro h
    have hx := h x (List.mem_cons_self x xs)
    have hxs := ih (fun y hy => h y (List.mem_cons_of_mem x hy))
    simp only [findSomeChecked, hx, Option.some_bind, hxs, List.findSome?_cons]
    cases g x <;> simp

theorem flatMapChecked_eq_some {α β : Type} {f : α → Option (List β)} {g : α → List β} :
    ∀ {l : List α}, (∀ x ∈ l, f x = some (g x)) →
      flatMapChecked f l = some (l.flatMap g) := by
  intro l
  induction l with
  | nil => intro _; rfl
  | cons x xs ih =>
    intro h
    have hx := h x (List.mem_cons_self x xs)
    have hxs := ih (fun y hy => h y (List.mem_cons_of_mem x hy))
    simp only [flatMapChecked, hx, Option.some_bind, hxs, List.flatMap_cons]

theorem stepAttackChecked_eq (b : Board) (col : Color) (kind : Piece) (r c : Int)
    (offsets : List (Int × Int)) :
    stepAttackChecked b col kind r c offsets = some (stepAttack b col kind r c offsets) := by
  unfold stepAttackChecked stepAttack
  apply anyChecked_eq_some
  intro d _
  by_cases hon : isOnBoard (r + d.1) (c + d.2) = true
  · simp only [hon, if_true, Board.read_of_isOnBoard b hon, Option.some_bind, Bool.true_and]
  · simp only [hon, if_false]
    simp [hon]

theorem rayAttackChecked_eq (b : Board) (col : Color) (kind : Piece) (dr dc : Int) :
    ∀ (fuel : Nat) (nr nc : Int),
      rayAttackChecked b col kind dr dc fuel nr nc =
        some (rayAttack b col kind dr dc fuel nr nc) := by
  intro fuel
  induction fuel with
  | zero => intro nr nc; rfl
  | succ fuel ih =>
    intro nr nc
    simp only [rayAttackChecked, rayAttack]
    by_cases hon : isOnBoard nr nc = true
    · simp only [hon, if_true, Board.read_of_isOnBoard b hon, Option.some_bind]
      by_cases hp : (b.get nr nc).isSome = true
      · simp only [hp, if_true]
      · simp only [hp, if_false]
        exact ih _ _
    · simp only [hon, if_false]
      simp

theorem isSquareAttackedChecked_eq (r c : Int) (col : Color) (b : Board) :
    isSquareAttackedChecked r c col b = some (isSquareAttacked r c col b) := by
  unfold isSquareAttackedChecked isSquareAttacked
  have hray : ∀ (kind : Piece) (dirs : List (Int × Int)),
      anyChecked (fun d => rayAttackChecked b col kind d.1 d.2 8 (r + d.1) (c + d.2)) dirs =
        some (dirs.any fun d => rayAttack b col kind d.1 d.2 8 (r + d.1) (c + d.2)) :=
    fun kind dirs => anyChecked_eq_some (fun d _ => rayAttackChecked_eq b col kind d.1 d.2 8 _ _)
  simp only [stepAttackChecked_eq, hray, Option.some_bind]
  cases stepAttack b col Piece.p r c [(if col = Color.w then -1 else 1, -1),
      (if col = Color.w then -1 else 1, 1)] <;>
    cases stepAttack b col Piece.n r c knightOffsets <;>
    cases (straightDirs.any fun d => rayAttack b col Piece.r d.1 d.2 8 (r + d.1) (c + d.2)) <;>
    cases (diagDirs.any fun d => rayAttack b col Piece.b d.1 d.2 8 (r + d.1) (c + d.2)) <;>
    simp

theorem isOnBoard_of_mem_boardIndices {r c : Int} (hr : r ∈ boardIndices)
    (hc : c ∈ boardIndices) : isOnBoard r c = true := by
  simp only [boardIndices, List.mem_cons, List.mem_singleton, List.not_mem_nil, or_false] at hr hc
  simp only [isOnBoard, BOARD_SIZE, Bool.and_eq_true, decide_eq_true_eq]
  omega

theorem findKing_eq_boardIndices (color : Color) (b : Board) :
    findKing color b =
      boardIndices.findSome? fun r =>
        boardIndices.findSome? fun c =>
          if (b.get r c).isSome && pieceColor (b.get r c) == some color
              && lower (b.get r c) == some .k then
            some ⟨r, c⟩
          else none := by
  rfl

theorem findKingChecked_eq (color : Color) (b : Board) :
    findKingChecked color b = some (findKing color b) := by
  rw [findKing_eq_boardIndices]
  unfold findKingChecked
  apply findSomeChecked_eq_some
  intro r hr
  apply findSomeChecked_eq_some
  intro c hc
  simp only [Board.read_of_isOnBoard b (isOnBoard_of_mem_boardIndices hr hc), Option.some_bind]

theorem isInCheckChecked_eq (color : Color) (b : Board) :
    isInCheckChecked color b = some (isInCheck color b) := by
  unfold isInCheckChecked isInCheck
  simp only [findKingChecked_eq, Option.some_bind]
  cases findKing color b with
  | none => rfl
  | some k => simp only [isSquareAttackedChecked_eq]
theorem allChecked_eq_some {α : Type} {f : α → Option Bool} {g : α → Bool} :
    ∀ {l : List α}, (∀ x ∈ l, f x = some (g x)) → allChecked f l = some (l.all g) := by
  intro l
  induction l with
  | nil => intro _; rfl
  | cons x xs ih =>
    intro h
    have hx := h x (List.mem_cons_self x xs)
    have hxs := ih (fun y hy => h y (List.mem_cons_of_mem x hy))
    simp only [allChecked, hx, Option.some_bind, hxs, List.all_cons]
    cases g x <;> simp

theorem filterChecked_eq_some {α : Type} {keep : α → Option Bool} {g : α → Bool} :
    ∀ {l : List α}, (∀ x ∈ l, keep x = some (g x)) →
      filterChecked keep l = some (l.filter g) := by
  intro l
  induction l with
  | nil => intro _; rfl
  | cons x xs ih =>
    intro h
    have hx := h x (List.mem_cons_self x xs)
    have hxs := ih (fun y hy => h y (List.mem_cons_of_mem x hy))
    simp only [filterChecked, hx, Option.some_bind, hxs, List.filter_cons]

theorem makeMoveOnBoardChecked_eq (b : Board) (frm : Square) (dst : Move) (color : Color)
    (castling : CastlingRights) (ep : Option Square)
    (hf : isOnBoard frm.r frm.c = true) (hd : isOnBoard dst.r dst.c = true)
    (hv : ∀ e, ep = some e → lower (b.get frm.r frm.c) = some .p → dst.r = e.r → dst.c = e.c →
      isOnBoard (if color = .w then dst.r + 1 else dst.r - 1) dst.c = true) :
    makeMoveOnBoardChecked b frm dst color castling ep =
      some (makeMoveOnBoard b frm dst color castling ep) := by
  have h77 : isOnBoard 7 7 = true := by decide
  have h75 : isOnBoard 7 5 = true := by decide
  have h70 : isOnBoard 7 0 = true := by decide
  have h73 : isOnBoard 7 3 = true := by decide
  have h07 : isOnBoard 0 7 = true := by decide
  have h05 : isOnBoard 0 5 = true := by decide
  have h00 : isOnBoard 0 0 = true := by decide
  have h03 : isOnBoard 0 3 = true := by decide
  unfold makeMoveOnBoardChecked makeMoveOnBoard
  simp only [cloneBoard_eq, Board.read_of_isOnBoard _ hf, Board.write_of_isOnBoard _ _ hd,
    Board.write_of_isOnBoard _ _ hf, Option.some_bind]
  cases ep with
  | none =>
    cases dst.castle with
    | none => rfl
    | some tag =>
      cases tag <;> cases color <;>
        simp [Board.read, Board.write, h77, h75, h70, h73, h07, h05, h00, h03]
  | some e =>
    by_cases hcond :
        (lower (b.get frm.r frm.c) == some Piece.p && dst.r == e.r && dst.c == e.c) = true
    · have hcond' := hcond
      simp only [Bool.and_eq_true, beq_iff_eq] at hcond'
      have hon := hv e rfl hcond'.1.1 hcond'.1.2 hcond'.2
      cases dst.castle with
      | none =>
        cases color
        · have hon' : isOnBoard (dst.r + 1) dst.c = true := by simpa using hon
          rw [hcond'.1.2, hcond'.2] at hon'
          simp [Board.write, hcond', hon']
        · have hon' : isOnBoard (dst.r - 1) dst.c = true := by simpa using hon
          rw [hcond'.1.2, hcond'.2] at hon'
          simp [Board.write, hcond', hon']
      | some tag =>
        cases color
        · have hon' : isOnBoard (dst.r + 1) dst.c = true := by simpa using hon
          rw [hcond'.1.2, hcond'.2] at hon'
          cases tag <;>
            simp [Board.read, Board.write, h77, h75, h70, h73, h07, h05, h00, h03, hcond', hon']
        · have hon' : isOnBoard (dst.r - 1) dst.c = true := by simpa using hon
          rw [hcond'.1.2, hcond'.2] at hon'
          cases tag <;>
            simp [Board.read, Board.write, h77, h75, h70, h73, h07, h05, h00, h03, hcond', hon']
    · cases dst.castle with
      | none => simp [hcond]
      | some tag =>
        cases tag <;> cases color <;>
          simp [Board.read, Board.write, h77, h75, h70, h73, h07, h05, h00, h03, hcond]
theorem pawnMovesChecked_eq (r c : Int) (b : Board) (color : Color) (ep : Option Square)
    (hon : isOnBoard r c = true) :
    pawnMovesChecked r c b color ep = some (pawnMoves r c b color ep) := by
  have hcol : 0 ≤ c ∧ c < 8 := by
    simp only [isOnBoard, BOARD_SIZE, Bool.and_eq_true, decide_eq_true_eq] at hon
    omega
  have h4 : isOnBoard 4 c = true := by
    simp only [isOnBoard, BOARD_SIZE, Bool.and_eq_true, decide_eq_true_eq]
    omega
  have h3 : isOnBoard 3 c = true := by
    simp only [isOnBoard, BOARD_SIZE, Bool.and_eq_true, decide_eq_true_eq]
    omega
  unfold pawnMovesChecked pawnMoves
  have hcap : ∀ dir : Int,
      flatMapChecked
        (fun dc : Int =>
          if isOnBoard (r + dir) (c + dc) then
            (b.read (r + dir) (c + dc)).bind fun target =>
              some (if target.isSome && pieceColor target == some (opponent color) then
                [(⟨r + dir, c + dc, none⟩ : Move)] else [])
          else some [])
        [-1, 1] =
      some (([-1, 1] : List Int).flatMap fun dc =>
        if isOnBoard (r + dir) (c + dc) &&
            ((b.get (r + dir) (c + dc)).isSome &&
              pieceColor (b.get (r + dir) (c + dc)) == some (opponent color))
        then [(⟨r + dir, c + dc, none⟩ : Move)] else []) := by
    intro dir
    apply flatMapChecked_eq_some
    intro dc _
    by_cases h : isOnBoard (r + dir) (c + dc) = true
    · simp only [h, if_true, Board.read_of_isOnBoard b h, Option.some_bind, Bool.true_and]
    · simp only [h, if_false]
      simp [h]
  simp only [hcap, Option.some_bind]
  have hfw : ∀ (dir startRow : Int), (r = startRow → isOnBoard (r + dir * 2) c = true) →
      (if isOnBoard (r + dir) c then
        (b.read (r + dir) c).bind fun ahead =>
          if ahead.isNone then
            if r == startRow then
              (b.read (r + dir * 2) c).bind fun ahead2 =>
                some ((⟨r + dir, c, none⟩ : Move) ::
                  (if ahead2.isNone then [(⟨r + dir * 2, c, none⟩ : Move)] else []))
            else some [(⟨r + dir, c, none⟩ : Move)]
          else some []
      else some []) =
      some (if isOnBoard (r + dir) c && (b.get (r + dir) c).isNone then
        (⟨r + dir, c, none⟩ : Move) ::
          (if r == startRow && (b.get (r + dir * 2) c).isNone then
            [(⟨r + dir * 2, c, none⟩ : Move)] else [])
      else []) := by
    intro dir startRow h2
    by_cases h : isOnBoard (r + dir) c = true
    · simp only [h, if_true, Board.read_of_isOnBoard b h, Option.some_bind, Bool.true_and]
      by_cases he : (b.get (r + dir) c).isNone = true
      · simp only [he, if_true]
        by_cases hs : r = startRow
        · have h2' := h2 hs
          simp only [hs, beq_self_eq_true, if_true, Bool.true_and]
          rw [hs] at h2'
          simp only [Board.read_of_isOnBoard b h2', Option.some_bind]
        · have hs' : (r == startRow) = false := by simpa using hs
          simp only [hs', Bool.false_and]
          simp
      · simp only [he]
        simp
    · simp only [h]
      simp
  rw [hfw]
  · simp only [Option.some_bind]
  · intro hs
    cases color
    · simp only [if_true] at hs ⊢
      subst hs
      exact h4
    · simp at hs ⊢
      subst hs
      exact h3

theorem stepMovesChecked_eq (r c : Int) (b : Board) (enemy : Color)
    (offsets : List (Int × Int)) :
    stepMovesChecked r c b enemy offsets = some (stepMoves r c b enemy offsets) := by
  unfold stepMovesChecked stepMoves
  apply flatMapChecked_eq_some
  intro d _
  by_cases h : isOnBoard (r + d.1) (c + d.2) = true
  · simp only [h, if_true, Board.read_of_isOnBoard b h, Option.some_bind, Bool.true_and]
  · simp only [h, if_false]
    simp [h]

theorem slideMovesChecked_eq (b : Board) (enemy : Color) (dr dc : Int) :
    ∀ (fuel : Nat) (nr nc : Int),
      slideMovesChecked b enemy dr dc fuel nr nc = some (slideMoves b enemy dr dc fuel nr nc) := by
  intro fuel
  induction fuel with
  | zero => intro nr nc; rfl
  | succ fuel ih =>
    intro nr nc
    simp only [slideMovesChecked, slideMoves]
    by_cases hon : isOnBoard nr nc = true
    · simp only [hon, if_true, Board.read_of_isOnBoard b hon, Option.some_bind]
      cases hp : (b.get nr nc).isNone
      · simp
      · simp [ih]
    · simp only [hon, if_false]
      simp

theorem slidingMovesChecked_eq (r c : Int) (b : Board) (enemy : Color) (pieceType : Piece) :
    slidingMovesChecked r c b enemy pieceType = some (slidingMoves r c b enemy pieceType) := by
  unfold slidingMovesChecked slidingMoves
  exact flatMapChecked_eq_some (fun d _ => slideMovesChecked_eq b enemy d.1 d.2 8 _ _)

theorem castleSideChecked_eq (b : Board) (enemy : Color) (right : Bool) (row : Int)
    (emptyCols safeCols : List Int) (m : Move)
    (he : ∀ col ∈ emptyCols, isOnBoard row col = true) :
    castleSideChecked b enemy right row emptyCols safeCols m =
      some (if right && emptyCols.all (fun col => (b.get row col).isNone) then
        if safeCols.all (fun col => !isSquareAttacked row col enemy b) then [m] else []
      else []) := by
  unfold castleSideChecked
  have h1 : allChecked (fun col => (b.read row col).bind fun t => some t.isNone) emptyCols =
      some (emptyCols.all fun col => (b.get row col).isNone) :=
    allChecked_eq_some (fun col hc => by
      simp only [Board.read_of_isOnBoard b (he col hc), Option.some_bind])
  have h2 : allChecked
      (fun col => (isSquareAttackedChecked row col enemy b).bind fun a => some (!a)) safeCols =
      some (safeCols.all fun col => !isSquareAttacked row col enemy b) :=
    allChecked_eq_some (fun col _ => by
      simp only [isSquareAttackedChecked_eq, Option.some_bind])
  simp only [h1, h2, Option.some_bind]
  cases right <;> cases (emptyCols.all fun col => (b.get row col).isNone) <;> simp

theorem castleMovesChecked_eq (b : Board) (color : Color) (castling : CastlingRights) :
    castleMovesChecked b color castling = some (castleMoves b color castling) := by
  have hrow : ∀ (row : Int), (row = 0 ∨ row = 7) → ∀ (cols : List Int),
      (∀ col ∈ cols, 0 ≤ col ∧ col < 8) → ∀ col ∈ cols, isOnBoard row col = true := by
    intro row hr cols hc col hcol
    have := hc col hcol
    simp only [isOnBoard, BOARD_SIZE, Bool.and_eq_true, decide_eq_true_eq]
    omega
  have h56 : ∀ col ∈ ([5, 6] : List Int), 0 ≤ col ∧ col < 8 := by
    intro col hcol
    simp only [List.mem_cons, List.mem_singleton, List.not_mem_nil, or_false] at hcol
    omega
  have h123 : ∀ col ∈ ([1, 2, 3] : List Int), 0 ≤ col ∧ col < 8 := by
    intro col hcol
    simp only [List.mem_cons, List.mem_singleton, List.not_mem_nil, or_false] at hcol
    omega
  unfold castleMovesChecked castleMoves
  simp only [isInCheckChecked_eq, Option.some_bind,
    castleSideChecked_eq b _ _ 7 [5, 6] _ _ (hrow 7 (Or.inr rfl) _ h56),
    castleSideChecked_eq b _ _ 7 [1, 2, 3] _ _ (hrow 7 (Or.inr rfl) _ h123),
    castleSideChecked_eq b _ _ 0 [5, 6] _ _ (hrow 0 (Or.inl rfl) _ h56),
    castleSideChecked_eq b _ _ 0 [1, 2, 3] _ _ (hrow 0 (Or.inl rfl) _ h123)]
  cases isInCheck color b <;> cases color <;>
    simp [List.all_cons, Bool.and_assoc]

theorem candidateMovesChecked_eq (r c : Int) (b : Board) (turn : Color)
    (castling : CastlingRights) (ep : Option Square) (hon : isOnBoard r c = true) :
    candidateMovesChecked (b.get r c) r c b turn castling ep =
      some (candidateMoves r c b turn castling ep) := by
  unfold candidateMovesChecked candidateMoves
  simp only []
  generalize lower (b.get r c) = kind
  cases kind with
  | none => rfl
  | some kind =>
    cases kind <;>
      simp only [pawnMovesChecked_eq r c b turn ep hon, stepMovesChecked_eq,
        slidingMovesChecked_eq, castleMovesChecked_eq, Option.some_bind]
/-! ### Where the candidates lie -/

/-- A move of one ray of the sliding branch lies `k` further steps along the ray, on the
board; the squares passed on the way are empty, and the destination is empty or holds an
enemy piece. -/
theorem mem_slideMoves {b : Board} {enemy : Color} {dr dc : Int} {m : Move} :
    ∀ (fuel : Nat) (nr nc : Int), m ∈ slideMoves b enemy dr dc fuel nr nc →
      ∃ k : Nat, m.r = nr + k * dr ∧ m.c = nc + k * dc ∧ isOnBoard m.r m.c = true ∧
        (∀ j : Nat, j < k → b.get (nr + j * dr) (nc + j * dc) = none) ∧
        (b.get m.r m.c = none ∨ pieceColor (b.get m.r m.c) = some enemy) := by
  intro fuel
  induction fuel with
  | zero => intro nr nc h; simp [slideMoves] at h
  | succ fuel ih =>
    intro nr nc h
    simp only [slideMoves] at h
    by_cases hon : isOnBoard nr nc = true
    · simp only [hon, if_true] at h
      cases hnone : (b.get nr nc).isNone
      · simp only [hnone, Bool.false_eq_true, if_false] at h
        by_cases henemy : (pieceColor (b.get nr nc) == some enemy) = true
        · simp only [henemy, if_true, List.mem_singleton] at h
          subst h
          refine ⟨0, by simp, by simp, hon, fun j hj => absurd hj (Nat.not_lt_zero j), Or.inr ?_⟩
          simpa using henemy
        · simp only [henemy, Bool.false_eq_true, if_false, List.not_mem_nil] at h
      · simp only [hnone, if_true, List.mem_cons] at h
        have hcell : b.get nr nc = none := by simpa using hnone
        rcases h with h | h
        · subst h
          exact ⟨0, by simp, by simp, hon, fun j hj => absurd hj (Nat.not_lt_zero j),
            Or.inl hcell⟩
        · obtain ⟨k, hr, hc, hb, hfree, hdst⟩ := ih _ _ h
          refine ⟨k + 1, ?_, ?_, hb, ?_, hdst⟩
          · rw [hr]; push_cast; ring
          · rw [hc]; push_cast; ring
          · intro j hj
            cases j with
            | zero => simpa using hcell
            | succ j =>
              have := hfree j (by omega)
              have e1 : nr + ((j + 1 : Nat) : Int) * dr = nr + dr + (j : Int) * dr := by
                push_cast; ring
              have e2 : nc + ((j + 1 : Nat) : Int) * dc = nc + dc + (j : Int) * dc := by
                push_cast; ring
              rw [e1, e2]
              exact this
    · simp only [hon, Bool.false_eq_true, if_false, List.not_mem_nil] at h

theorem isOnBoard_of_mem_slidingMoves {r c : Int} {b : Board} {enemy : Color}
    {pieceType : Piece} {m : Move} (h : m ∈ slidingMoves r c b enemy pieceType) :
    isOnBoard m.r m.c = true := by
  unfold slidingMoves at h
  simp only [List.mem_flatMap] at h
  obtain ⟨d, -, h⟩ := h
  obtain ⟨k, -, -, hb, -⟩ := mem_slideMoves _ _ _ h
  exact hb

theorem mem_stepMoves {r c : Int} {b : Board} {enemy : Color} {offsets : List (Int × Int)}
    {m : Move} (h : m ∈ stepMoves r c b enemy offsets) :
    isOnBoard m.r m.c = true ∧
      (b.get m.r m.c = none ∨ pieceColor (b.get m.r m.c) = some enemy) := by
  unfold stepMoves at h
  simp only [List.mem_flatMap] at h
  obtain ⟨d, -, h⟩ := h
  by_cases hc : (isOnBoard (r + d.1) (c + d.2) &&
      ((b.get (r + d.1) (c + d.2)).isNone ||
        pieceColor (b.get (r + d.1) (c + d.2)) == some enemy)) = true
  · simp only [hc, if_true, List.mem_singleton] at h
    subst h
    simp only [Bool.and_eq_true, Bool.or_eq_true, beq_iff_eq, Option.isNone_iff_eq_none] at hc
    exact hc
  · simp only [hc, Bool.false_eq_true, if_false, List.not_mem_nil] at h

theorem isOnBoard_of_mem_castleMoves {b : Board} {color : Color} {castling : CastlingRights}
    {m : Move} (h : m ∈ castleMoves b color castling) : isOnBoard m.r m.c = true := by
  rcases (castleMoves_spec h).2 with ⟨rfl, -⟩ | ⟨rfl, -⟩ <;> cases color <;> decide

theorem isOnBoard_of_mem_pawnMoves {r c : Int} {b : Board} {color : Color}
    {ep : Option Square} {m : Move} (h : m ∈ pawnMoves r c b color ep)
    (hon : isOnBoard r c = true) (hep : ∀ e, ep = some e → isOnBoard e.r e.c = true) :
    isOnBoard m.r m.c = true := by
  have hcol : 0 ≤ c ∧ c < 8 := by
    simp only [isOnBoard, BOARD_SIZE, Bool.and_eq_true, decide_eq_true_eq] at hon
    omega
  unfold pawnMoves at h
  simp only [List.mem_append, List.mem_flatMap] at h
  rcases h with (h | ⟨dc, -, h⟩) | h
  · by_cases h1 : (isOnBoard (r + if color = Color.w then -1 else 1) c &&
        (b.get (r + if color = Color.w then -1 else 1) c).isNone) = true
    · simp only [h1, if_true, List.mem_cons] at h
      rcases h with h | h
      · subst h
        simp only [Bool.and_eq_true] at h1
        exact h1.1
      · by_cases h2 : (r == (if color = Color.w then 6 else 1) &&
            (b.get (r + (if color = Color.w then -1 else 1) * 2) c).isNone) = true
        · simp only [h2, if_true, List.mem_singleton] at h
          subst h
          simp only [Bool.and_eq_true, beq_iff_eq] at h2
          have hr := h2.1
          simp only [isOnBoard, BOARD_SIZE, Bool.and_eq_true, decide_eq_true_eq]
          cases color <;> simp at hr ⊢ <;> omega
        · simp only [h2, Bool.false_eq_true, if_false, List.not_mem_nil] at h
    · simp only [h1, Bool.false_eq_true, if_false, List.not_mem_nil] at h
  · by_cases h1 : (isOnBoard (r + if color = Color.w then -1 else 1) (c + dc) &&
        ((b.get (r + if color = Color.w then -1 else 1) (c + dc)).isSome &&
          pieceColor (b.get (r + if color = Color.w then -1 else 1) (c + dc)) ==
            some (opponent color))) = true
    · simp only [h1, if_true, List.mem_singleton] at h
      subst h
      simp only [Bool.and_eq_true] at h1
      exact h1.1
    · simp only [h1, Bool.false_eq_true, if_false, List.not_mem_nil] at h
  · cases ep with
    | none => simp at h
    | some e =>
      simp only at h
      split_ifs at h <;>
        first
        | (rw [List.mem_singleton.1 h]; exact hep e rfl)
        | simp at h

/-- The square that `makeMoveOnBoard` clears behind a pawn arriving on the en-passant
target is on the board for every pawn candidate. -/
theorem isOnBoard_behind_of_mem_pawnMoves {r c : Int} {b : Board} {color : Color}
    {ep : Option Square} {m : Move} (h : m ∈ pawnMoves r c b color ep)
    (hon : isOnBoard r c = true) (hep : ∀ e, ep = some e → isOnBoard e.r e.c = true) :
    isOnBoard (if color = .w then m.r + 1 else m.r - 1) m.c = true := by
  have hm := isOnBoard_of_mem_pawnMoves h hon hep
  have hrow : m.r = r + pawnDir color ∨ (r = pawnStartRow color ∧ m.r = r + pawnDir color * 2) := by
    rcases mem_pawnMoves h with ⟨-, -, h⟩ | ⟨-, h, -⟩ | ⟨-, -, -, h⟩
    · exact h
    · exact Or.inl h
    · exact Or.inl h
  simp only [isOnBoard, BOARD_SIZE, Bool.and_eq_true, decide_eq_true_eq] at hon hm ⊢
  cases color <;> simp [pawnDir, pawnStartRow] at hrow ⊢ <;> omega

theorem isOnBoard_of_mem_candidateMoves {r c : Int} {b : Board} {turn : Color}
    {castling : CastlingRights} {ep : Option Square} {m : Move}
    (h : m ∈ candidateMoves r c b turn castling ep)
    (hon : isOnBoard r c = true) (hep : ∀ e, ep = some e → isOnBoard e.r e.c = true) :
    isOnBoard m.r m.c = true := by
  unfold candidateMoves at h
  split at h
  · exact isOnBoard_of_mem_pawnMoves h hon hep
  · exact (mem_stepMoves h).1
  · exact isOnBoard_of_mem_slidingMoves h
  · exact isOnBoard_of_mem_slidingMoves h
  · exact isOnBoard_of_mem_slidingMoves h
  · rcases List.mem_append.1 h with h | h
    · exact (mem_stepMoves h).1
    · exact isOnBoard_of_mem_castleMoves h
  · simp at h

theorem mem_candidateMoves_of_mem_getValidMoves {r c : Int} {b : Board} {turn : Color}
    {castling : CastlingRights} {ep : Option Square} {m : Move}
    (hm : m ∈ getValidMoves r c b turn castling ep) :
    m ∈ candidateMoves r c b turn castling ep ∧
      (b.get r c).isSome = true ∧ pieceColor (b.get r c) = some turn := by
  have hcand : m ∈ pseudoLegalMoves r c b turn castling ep :=
    ((mem_getValidMoves_iff r c b turn castling ep m).1 hm).1
  unfold pseudoLegalMoves at hcand
  split_ifs at hcand with hg
  · simp at hcand
  · refine ⟨hcand, ?_⟩
    simp only [Bool.or_eq_true, bne_iff_ne, ne_eq, not_or, not_not] at hg
    refine ⟨?_, hg.2⟩
    cases hcell : b.get r c with
    | none => simp [hcell] at hg
    | some piece => rfl

theorem isOnBoard_of_mem_getValidMoves {r c : Int} {b : Board} {turn : Color}
    {castling : CastlingRights} {ep : Option Square} {m : Move}
    (hm : m ∈ getValidMoves r c b turn castling ep)
    (hon : isOnBoard r c = true) (hep : ∀ e, ep = some e → isOnBoard e.r e.c = true) :
    isOnBoard m.r m.c = true :=
  isOnBoard_of_mem_candidateMoves (mem_candidateMoves_of_mem_getValidMoves hm).1 hon hep

/-- With the origin on the board and the en-passant target absent or on the board, the
checked `getValidMoves` never fails, and it returns what `getValidMoves` returns. -/
theorem getValidMovesChecked_eq (r c : Int) (b : Board) (turn : Color)
    (castling : CastlingRights) (ep : Option Square)
    (hon : isOnBoard r c = true) (hep : ∀ e, ep = some e → isOnBoard e.r e.c = true) :
    getValidMovesChecked r c b turn castling ep =
      some (getValidMoves r c b turn castling ep) := by
  unfold getValidMovesChecked getValidMoves
  simp only [Board.read_of_isOnBoard b hon, Option.some_bind]
  by_cases hg : ((b.get r c).isNone || pieceColor (b.get r c) != some turn) = true
  · simp only [hg, if_true]
  · simp only [hg, if_false, candidateMovesChecked_eq r c b turn castling ep hon,
      Option.some_bind, filterLoop_eq_filter]
    unfold filterLoopChecked
    apply filterChecked_eq_some
    intro m hm
    have hv : ∀ e, ep = some e → lower (b.get r c) = some .p → m.r = e.r → m.c = e.c →
        isOnBoard (if turn = .w then m.r + 1 else m.r - 1) m.c = true := by
      intro e _ hp _ _
      have hpm : m ∈ pawnMoves r c b turn ep := by
        unfold candidateMoves at hm
        simp only [hp] at hm
        exact hm
      exact isOnBoard_behind_of_mem_pawnMoves hpm hon hep
    rw [makeMoveOnBoardChecked_eq b ⟨r, c⟩ m turn castling ep hon
      (isOnBoard_of_mem_candidateMoves hm hon hep) hv]
    simp only [Option.some_bind, isInCheckChecked_eq]
/-- The checked run fails when the origin is off the board: the first read is
`boardState[8][0]`. -/
theorem getValidMovesChecked_origin_off_board :
    getValidMovesChecked 8 0 initialBoard .w ⟨true, true, true, true⟩ none = none := by
  decide

/-- The checked run fails when the en-passant target is off the board: the pawn on h5 gets
the candidate `(2, 8)`, and `makeMoveOnBoard` writes `newBoard[2][8]`. -/
theorem getValidMovesChecked_enPassant_off_board :
    getValidMovesChecked 3 7 edgePawnBoard .w ⟨true, true, true, true⟩ (some ⟨2, 8⟩) = none := by
  decide

/-- C17: on an 8x8 board, with the origin `(r, c)` on the board and the en-passant target
absent or on the board, whatever the castling rights, `getValidMoves` and the functions it
calls (`isSquareAttacked`, `findKing`, `isInCheck`, `makeMoveOnBoard`) read and write only
cells whose row and column are in 0..7: the bounds-checked run does not fail and returns the
same list.  Every returned destination has row and column in 0..7. -/
theorem getValidMoves_stays_on_board (r c : Int) (b : Board) (turn : Color)
    (castling : CastlingRights) (ep : Option Square) (_hb : b.WF)
    (hon : isOnBoard r c = true) (hep : ∀ e, ep = some e → isOnBoard e.r e.c = true) :
    getValidMovesChecked r c b turn castling ep =
        some (getValidMoves r c b turn castling ep) ∧
      ∀ m ∈ getValidMoves r c b turn castling ep,
        0 ≤ m.r ∧ m.r ≤ 7 ∧ 0 ≤ m.c ∧ m.c ≤ 7 := by
  refine ⟨getValidMovesChecked_eq r c b turn castling ep hon hep, ?_⟩
  intro m hm
  have h := isOnBoard_of_mem_getValidMoves hm hon hep
  simp only [isOnBoard, BOARD_SIZE, Bool.and_eq_true, decide_eq_true_eq] at h
  omega

/-- C17 at the initial position, for the pawn on e2. -/
theorem getValidMoves_stays_on_board_witness :
    getValidMovesChecked 6 4 initialBoard .w ⟨true, true, true, true⟩ none =
        some (getValidMoves 6 4 initialBoard .w ⟨true, true, true, true⟩ none) ∧
      ∀ m ∈ getValidMoves 6 4 initialBoard .w ⟨true, true, true, true⟩ none,
        0 ≤ m.r ∧ m.r ≤ 7 ∧ 0 ≤ m.c ∧ m.c ≤ 7 :=
  getValidMoves_stays_on_board 6 4 initialBoard .w ⟨true, true, true, true⟩ none
    (by decide) (by decide) (by intro e h; cases h)
/-! ### Occupancy of the destinations -/

theorem opponent_ne (color : Color) : opponent color ≠ color := by
  cases color <;> decide

/-- A pawn candidate lands on an empty square, on an enemy piece, or on the en-passant
target. -/
theorem pawnMoves_target {r c : Int} {b : Board} {color : Color} {ep : Option Square}
    {m : Move} (h : m ∈ pawnMoves r c b color ep) :
    b.get m.r m.c = none ∨ pieceColor (b.get m.r m.c) = some (opponent color) ∨
      ep = some ⟨m.r, m.c⟩ := by
  unfold pawnMoves at h
  simp only [List.mem_append, List.mem_flatMap] at h
  rcases h with (h | ⟨dc, -, h⟩) | h
  · left
    by_cases h1 : (isOnBoard (r + if color = Color.w then -1 else 1) c &&
        (b.get (r + if color = Color.w then -1 else 1) c).isNone) = true
    · simp only [h1, if_true, List.mem_cons] at h
      rcases h with h | h
      · subst h
        simp only [Bool.and_eq_true, Option.isNone_iff_eq_none] at h1
        exact h1.2
      · by_cases h2 : (r == (if color = Color.w then 6 else 1) &&
            (b.get (r + (if color = Color.w then -1 else 1) * 2) c).isNone) = true
        · simp only [h2, if_true, List.mem_singleton] at h
          subst h
          simp only [Bool.and_eq_true, Option.isNone_iff_eq_none] at h2
          exact h2.2
        · simp only [h2, Bool.false_eq_true, if_false, List.not_mem_nil] at h
    · simp only [h1, Bool.false_eq_true, if_false, List.not_mem_nil] at h
  · right; left
    by_cases h1 : (isOnBoard (r + if color = Color.w then -1 else 1) (c + dc) &&
        ((b.get (r + if color = Color.w then -1 else 1) (c + dc)).isSome &&
          pieceColor (b.get (r + if color = Color.w then -1 else 1) (c + dc)) ==
            some (opponent color))) = true
    · simp only [h1, if_true, List.mem_singleton] at h
      subst h
      simp only [Bool.and_eq_true, beq_iff_eq] at h1
      exact h1.2.2
    · simp only [h1, Bool.false_eq_true, if_false, List.not_mem_nil] at h
  · right; right
    cases ep with
    | none => simp at h
    | some e =>
      simp only at h
      split_ifs at h <;>
        first
        | (rw [List.mem_singleton.1 h])
        | simp at h

/-- A move of the sliding branch lies `k ≥ 1` steps from the origin along one of the
directions of the piece; the squares strictly between are empty and the destination is
empty or holds an enemy piece. -/
theorem mem_slidingMoves {r c : Int} {b : Board} {enemy : Color} {pieceType : Piece}
    {m : Move} (h : m ∈ slidingMoves r c b enemy pieceType) :
    (b.get m.r m.c = none ∨ pieceColor (b.get m.r m.c) = some enemy) ∧
    ∃ d ∈ (if pieceType = .b ∨ pieceType = .q then diagDirs else []) ++
        (if pieceType = .r ∨ pieceType = .q then straightDirs else []),
      ∃ k : Nat, 1 ≤ k ∧ m.r = r + k * d.1 ∧ m.c = c + k * d.2 ∧
        ∀ j : Nat, 1 ≤ j → j < k → b.get (r + j * d.1) (c + j * d.2) = none := by
  unfold slidingMoves at h
  simp only [List.mem_flatMap] at h
  obtain ⟨d, hd, h⟩ := h
  obtain ⟨k, hr, hc, -, hfree, hdst⟩ := mem_slideMoves _ _ _ h
  refine ⟨hdst, d, hd, k + 1, by omega, ?_, ?_, ?_⟩
  · rw [hr]; push_cast; ring
  · rw [hc]; push_cast; ring
  · intro j hj1 hjk
    obtain ⟨i, rfl⟩ : ∃ i, j = i + 1 := ⟨j - 1, by omega⟩
    have := hfree i (by omega)
    have e1 : r + ((i + 1 : Nat) : Int) * d.1 = r + d.1 + (i : Int) * d.1 := by
      push_cast; ring
    have e2 : c + ((i + 1 : Nat) : Int) * d.2 = c + d.2 + (i : Int) * d.2 := by
      push_cast; ring
    rw [e1, e2]
    exact this

/-- With the en-passant target absent or an empty square, no candidate lands on a piece of
the mover. -/
theorem candidateMoves_target {r c : Int} {b : Board} {turn : Color}
    {castling : CastlingRights} {ep : Option Square} {m : Move}
    (h : m ∈ candidateMoves r c b turn castling ep)
    (hep : ∀ e, ep = some e → b.get e.r e.c = none) :
    b.get m.r m.c = none ∨ pieceColor (b.get m.r m.c) = some (opponent turn) := by
  unfold candidateMoves at h
  split at h
  · rcases pawnMoves_target h with h | h | h
    · exact Or.inl h
    · exact Or.inr h
    · exact Or.inl (hep _ h)
  · exact (mem_stepMoves h).2
  · exact (mem_slidingMoves h).1
  · exact (mem_slidingMoves h).1
  · exact (mem_slidingMoves h).1
  · rcases List.mem_append.1 h with h | h
    · exact (mem_stepMoves h).2
    · left
      rcases (castleMoves_spec h).2 with ⟨rfl, -, -, h6, -⟩ | ⟨rfl, -, -, h2, -⟩
      · exact h6
      · exact h2
  · simp at h

/-- C21: on an 8x8 board, with the en-passant target absent or an empty square, no
destination returned by `getValidMoves` holds a piece of the mover's colour; and when the
piece on the origin is a bishop, a rook or a queen, every returned destination lies `k ≥ 1`
steps from the origin along one of the piece's directions (`diagDirs` for a bishop,
`straightDirs` for a rook, both for a queen), with every square strictly between the origin
and the destination empty. -/
theorem getValidMoves_respects_occupancy (r c : Int) (b : Board) (turn : Color)
    (castling : CastlingRights) (ep : Option Square) (m : Move) (_hb : b.WF)
    (hep : ∀ e, ep = some e → b.get e.r e.c = none)
    (hm : m ∈ getValidMoves r c b turn castling ep) :
    pieceColor (b.get m.r m.c) ≠ some turn ∧
    ∀ dirs : List (Int × Int),
      (lower (b.get r c) = some .b ∧ dirs = diagDirs) ∨
        (lower (b.get r c) = some .r ∧ dirs = straightDirs) ∨
        (lower (b.get r c) = some .q ∧ dirs = diagDirs ++ straightDirs) →
      ∃ d ∈ dirs, ∃ k : Nat, 1 ≤ k ∧ m.r = r + k * d.1 ∧ m.c = c + k * d.2 ∧
        ∀ j : Nat, 1 ≤ j → j < k → b.get (r + j * d.1) (c + j * d.2) = none := by
  have hcand := (mem_candidateMoves_of_mem_getValidMoves hm).1
  constructor
  · rcases candidateMoves_target hcand hep with h | h
    · rw [h]; simp [pieceColor]
    · rw [h]
      intro hc
      exact opponent_ne turn (Option.some.inj hc)
  · intro dirs hdirs
    unfold candidateMoves at hcand
    rcases hdirs with ⟨hp, rfl⟩ | ⟨hp, rfl⟩ | ⟨hp, rfl⟩
    · simp only [hp] at hcand
      simpa using (mem_slidingMoves hcand).2
    · simp only [hp] at hcand
      simpa using (mem_slidingMoves hcand).2
    · simp only [hp] at hcand
      simpa using (mem_slidingMoves hcand).2

/-- C21 at the position after 1. e4 e5, for the bishop on f1 and its move to c4. -/
theorem getValidMoves_respects_occupancy_witness :
    pieceColor ((afterMoves [(⟨6, 4⟩, ⟨4, 4, none⟩, none),
        (⟨1, 4⟩, ⟨3, 4, none⟩, none)]).board.get 4 2) ≠ some .w ∧
    ∀ dirs : List (Int × Int),
      (lower ((afterMoves [(⟨6, 4⟩, ⟨4, 4, none⟩, none),
          (⟨1, 4⟩, ⟨3, 4, none⟩, none)]).board.get 7 5) = some .b ∧ dirs = diagDirs) ∨
        (lower ((afterMoves [(⟨6, 4⟩, ⟨4, 4, none⟩, none),
          (⟨1, 4⟩, ⟨3, 4, none⟩, none)]).board.get 7 5) = some .r ∧ dirs = straightDirs) ∨
        (lower ((afterMoves [(⟨6, 4⟩, ⟨4, 4, none⟩, none),
          (⟨1, 4⟩, ⟨3, 4, none⟩, none)]).board.get 7 5) = some .q ∧
            dirs = diagDirs ++ straightDirs) →
      ∃ d ∈ dirs, ∃ k : Nat, 1 ≤ k ∧ (4 : Int) = 7 + k * d.1 ∧ (2 : Int) = 5 + k * d.2 ∧
        ∀ j : Nat, 1 ≤ j → j < k →
          (afterMoves [(⟨6, 4⟩, ⟨4, 4, none⟩, none),
            (⟨1, 4⟩, ⟨3, 4, none⟩, none)]).board.get (7 + j * d.1) (5 + j * d.2) = none :=
  getValidMoves_respects_occupancy 7 5
    (afterMoves [(⟨6, 4⟩, ⟨4, 4, none⟩, none), (⟨1, 4⟩, ⟨3, 4, none⟩, none)]).board .w
    ⟨true, true, true, true⟩ (some ⟨2, 4⟩) ⟨4, 2, none⟩ (by decide) (by decide) (by decide)
/-! ### Castling rights and the pieces on their home squares -/

/-- C22, counterexample: after 1. a4 b5 2. axb5 c6 3. bxc6 Bb7 4. cxb7 h6, all offered by
`getValidMoves`, White plays the offered bxa8.  The call opens the promotion dialog, and the
call made by the dialog button (queen chosen) completes the move.  In the resulting state
Black's queenside castling right is still true although a8 holds a white pawn and no black
rook: the black king is on e8, White is to move, and a single black rook is left on the
board. -/
theorem castling_right_without_rook_after_promotion :
    (playMoves initGame rookCaptureGame).isSome = true ∧
    (⟨0, 0, none⟩ : Move) ∈
      getValidMoves 1 1 (afterMoves rookCaptureGame).board (afterMoves rookCaptureGame).turn
        (afterMoves rookCaptureGame).castlingRights (afterMoves rookCaptureGame).enPassant ∧
    (makeMove (afterMoves rookCaptureGame) ⟨1, 1⟩ ⟨0, 0, none⟩ none).pendingPromotion =
      some (⟨1, 1⟩, ⟨0, 0, none⟩) ∧
    (promotionButtonClick
      (makeMove (afterMoves rookCaptureGame) ⟨1, 1⟩ ⟨0, 0, none⟩ none) .q).castlingRights.bQ
        = true ∧
    (promotionButtonClick
      (makeMove (afterMoves rookCaptureGame) ⟨1, 1⟩ ⟨0, 0, none⟩ none) .q).board.get 0 0
        = some .P ∧
    (promotionButtonClick
      (makeMove (afterMoves rookCaptureGame) ⟨1, 1⟩ ⟨0, 0, none⟩ none) .q).board.get 0 4
        = some .k ∧
    (promotionButtonClick
      (makeMove (afterMoves rookCaptureGame) ⟨1, 1⟩ ⟨0, 0, none⟩ none) .q).turn = .w ∧
    countPiece (promotionButtonClick
      (makeMove (afterMoves rookCaptureGame) ⟨1, 1⟩ ⟨0, 0, none⟩ none) .q).board .r = 1 := by
  decide

/-- C11: in the play 1. a4 b5 2. axb5 a6 3. bxa6 h5 4. a7 h4 5. g4 e6, every move offered by
`getValidMoves`, the capture hxg3 (the diagonal move of the h4 pawn onto the empty square
g3) is offered after 5. g4, and Black applies 5... e6 instead, a one-square pawn advance.
White then plays the offered axb8 without a promotion piece: the call applies nothing and
leaves Black to move with the en-passant target g3 again, so `getValidMoves` offers hxg3
although the last applied move was 5... e6, one applied move after the double step. -/
theorem enPassant_offered_after_promotion_request :
    (playMoves initGame declinedEnPassantGame).isSome = true ∧
    ((⟨5, 6, none⟩ : Move) ∈
        getValidMoves 4 7 (afterMoves (declinedEnPassantGame.take 9)).board
          (afterMoves (declinedEnPassantGame.take 9)).turn
          (afterMoves (declinedEnPassantGame.take 9)).castlingRights
          (afterMoves (declinedEnPassantGame.take 9)).enPassant ∧
      awaitsPromotion (afterMoves (declinedEnPassantGame.take 9)) ⟨1, 4⟩ ⟨2, 4, none⟩ none
        = false ∧
      afterMoves declinedEnPassantGame =
        makeMove (afterMoves (declinedEnPassantGame.take 9)) ⟨1, 4⟩ ⟨2, 4, none⟩ none ∧
      (afterMoves declinedEnPassantGame).enPassant = none) ∧
    ((⟨0, 1, none⟩ : Move) ∈
        getValidMoves 1 0 (afterMoves declinedEnPassantGame).board
          (afterMoves declinedEnPassantGame).turn
          (afterMoves declinedEnPassantGame).castlingRights
          (afterMoves declinedEnPassantGame).enPassant ∧
      awaitsPromotion (afterMoves declinedEnPassantGame) ⟨1, 0⟩ ⟨0, 1, none⟩ none = true) ∧
    ((makeMove (afterMoves declinedEnPassantGame) ⟨1, 0⟩ ⟨0, 1, none⟩ none).turn = .b ∧
      (makeMove (afterMoves declinedEnPassantGame) ⟨1, 0⟩ ⟨0, 1, none⟩ none).enPassant
        = some ⟨5, 6⟩ ∧
      (makeMove (afterMoves declinedEnPassantGame) ⟨1, 0⟩ ⟨0, 1, none⟩ none).board.get 4 7
        = some .p ∧
      (makeMove (afterMoves declinedEnPassantGame) ⟨1, 0⟩ ⟨0, 1, none⟩ none).board.get 5 6
        = none ∧
      (⟨5, 6, none⟩ : Move) ∈
        getValidMoves 4 7
          (makeMove (afterMoves declinedEnPassantGame) ⟨1, 0⟩ ⟨0, 1, none⟩ none).board
          (makeMove (afterMoves declinedEnPassantGame) ⟨1, 0⟩ ⟨0, 1, none⟩ none).turn
          (makeMove (afterMoves declinedEnPassantGame) ⟨1, 0⟩ ⟨0, 1, none⟩ none).castlingRights
          (makeMove (afterMoves declinedEnPassantGame) ⟨1, 0⟩ ⟨0, 1, none⟩ none).enPassant) := by
  decide

end Chess
